import Mathlib

/-!
# evalb: bracket scoring (trunk/scorer/evalb.c)

A shallow embedding of the scorer's core in Lean: the line reader `read_line`
with its bracket stack, the label helpers, `massage_data`, the matching,
crossing and tagging loops of `calc_result`, and `individual_result`.

Conventions of the embedding.

* A C string is the list of its characters before the terminating NUL; a
  `Char` stands for one byte of the line.
* The fixed arrays `terminal[]` and `bracket[]` are lists holding the entries
  written so far, so that `wid` and `bid` are their lengths; `stack[]` is the
  list of the `stack_top` live entries, the top first.
* An access outside an array, or a read beyond the NUL that ends the line, has
  no defined behaviour in C: the model stops with `Outcome.undefined`. Where
  `popb` and `pushb` leave `stack[]` at its lower end the run is followed
  further by `read_line_mem`, which keeps the cells of the stack as memory.
* `exit(1)` inside `Error` stops the run with `Outcome.exited`.
-/

namespace Evalb

/-! ## Constants and data -/

abbrev Str := List Char

def MAX_WORD_IN_SENT : Nat := 200

def MAX_BRACKET_IN_SENT : Nat := 200

def MAX_WORD_LEN : Nat := 200

def MAX_LABEL_LEN : Nat := 200

/-- The struct `s_terminal`; `result` is 0 unmatch, 1 match, 9 undef. -/
structure s_terminal where
  word : Str
  label : Str
  result : Nat
  deriving DecidableEq, Repr

/-- The struct `s_bracket`; `result` is 0 unmatch, 1 match, 5 delete, 9 undef.
The C field `end` is written `end_`. -/
structure s_bracket where
  start : Int
  end_ : Int
  label : Str
  result : Nat
  deriving DecidableEq, Repr

/-- The user parameters (the globals set from the command line and the
parameter file). -/
structure Config where
  Max_error : Int
  TOT_cut_len : Int
  F_label : Int
  Delete_label : List Str
  Delete_label_for_length : List Str
  EQ_label : List (Str × Str)
  EQ_word : List (Str × Str)
  deriving DecidableEq, Repr

/-- The globals `Status` and `Error_count`. -/
structure Globals where
  Status : Nat
  Error_count : Nat
  deriving DecidableEq, Repr

/-- How a piece of the program ends. -/
inductive Outcome (α : Type) where
  | done (a : α)
  | exited (g : Globals)
  | undefined (g : Globals)
  | outOfFuel
  deriving DecidableEq, Repr

/-! ## Predicates on characters and labels -/

/-- The function `isspace` of the C locale: space, and `\t \n \v \f \r`. -/
def isspace (c : Char) : Bool :=
  c.toNat == 32 || (9 ≤ c.toNat && c.toNat ≤ 13)

def is_terminator (c : Char) : Bool :=
  isspace c || c == '(' || c == ')'

def is_deletelabel (cfg : Config) (s : Str) : Bool :=
  cfg.Delete_label.any (fun d => s == d)

def is_deletelabel_for_length (cfg : Config) (s : Str) : Bool :=
  cfg.Delete_label_for_length.any (fun d => s == d)

/-- Shared body of `word_comp` and `label_comp`: equal strings, or a pair of
the table in either order. -/
def equiv_comp (tbl : List (Str × Str)) (s1 s2 : Str) : Bool :=
  if s1 == s2 then true
  else tbl.any (fun e => (s1 == e.1 && s2 == e.2) || (s1 == e.2 && s2 == e.1))

def word_comp (cfg : Config) (s1 s2 : Str) : Bool :=
  equiv_comp cfg.EQ_word s1 s2

def label_comp (cfg : Config) (s1 s2 : Str) : Bool :=
  equiv_comp cfg.EQ_label s1 s2

/-- The function `modify_label`: cut the label at the first `-` or `=`. -/
def modify_label : Str → Str
  | [] => []
  | c :: cs => if c == '-' || c == '=' then [] else c :: modify_label cs

/-! ## Errors -/

/-- The function `Error`: set `Status = 1`, then `Error_count++ > Max_error`
decides whether the process exits (the flag returned); the counter has been
incremented in both cases. -/
def Error (cfg : Config) (g : Globals) : Globals × Bool :=
  (⟨1, g.Error_count + 1⟩, decide ((g.Error_count : Int) > cfg.Max_error))

/-! ## The line reader -/

/-- The loops `for(i=0; !is_terminator(*p); p++, i++) label[i] = *p;`: the
characters up to the next terminator, and the rest of the line from that
terminator on. `none` when the line ends first: NUL is no terminator, so the
loop runs beyond the end of the string. -/
def read_token : Str → Option (Str × Str)
  | [] => none
  | c :: cs =>
    if is_terminator c then some ([], c :: cs)
    else match read_token cs with
      | none => none
      | some (l, r) => some (c :: l, r)

/-- The loop `for(q++; isspace(*q); q++);` from the character after `q`. -/
def skip_space : Str → Str
  | [] => []
  | c :: cs => if isspace c then skip_space cs else c :: cs

/-- The local state of `read_line` together with the globals it touches. -/
structure Reader where
  p : Str
  terminal : List s_terminal
  bracket : List s_bracket
  stack : List Nat
  len : Nat
  g : Globals
  deriving DecidableEq, Repr

/-- What `read_line` hands back: the return value `len`, the arrays with
`*wn = terminal.length` and `*bn = bracket.length`, and the globals. -/
structure Parsed where
  len : Nat
  terminal : List s_terminal
  bracket : List s_bracket
  g : Globals
  deriving DecidableEq, Repr

/-- The function `popb` on the list of the live entries:
`item = stack[stack_top-1]`, then `if(stack_top-- < 0) Error(...)`, then
`return(item)`. On a stack that is not empty `stack_top` is positive, the test
fails and the top comes back. On an empty stack `stack_top` is 0: the read is
`stack[-1]`, outside the array (`none`), and the test `0 < 0` fails as well,
so that `Error` is not called; it would be called only from `stack_top < 0`
on. What the run does from there, with `stack_top = -1`, is in `popb` and
`read_line_mem` below. -/
def popb_live (stack : List Nat) : Option (Nat × List Nat) :=
  match stack with
  | [] => none
  | item :: st => some (item, st)

/-- The non-terminal branch of `read_line`: `bracket[bid].start = wid`, copy
the label, `pushb(bid)`, `bid++`. -/
def open_bracket (s : Reader) (label : Str) (p : Str) (g : Globals) : Outcome Reader :=
  if MAX_BRACKET_IN_SENT ≤ s.bracket.length then .undefined g
  else .done { s with
    p := p
    bracket := s.bracket ++ [⟨(s.terminal.length : Int), -1, label, 9⟩]
    stack := s.bracket.length :: s.stack
    g := g }

/-- The statement `if(*q==')' && !is_deletelabel_for_length(label)==1) len++;`
of `read_line`, where `d` is the character `*q` after the word. -/
def count_length (cfg : Config) (label : Str) (d : Char) (len : Nat) : Nat :=
  if d == ')' && !is_deletelabel_for_length cfg label then len + 1 else len

/-- One turn of the `for` loop of `read_line` at a character `c` followed by
`rest`. -/
def read_step (cfg : Config) (s : Reader) (c : Char) (rest : Str) : Outcome Reader :=
  if isspace c then .done { s with p := rest }
  else if c == '(' then
    match read_token rest with
    | none => .undefined s.g
    | some (label, p) =>
      if MAX_LABEL_LEN ≤ label.length then .undefined s.g
      else match p with
        | [] => .undefined s.g
        | q0 :: q1 =>
          if isspace q0 then
            match read_token (skip_space q1) with
            | none => .undefined s.g
            | some (word, q) =>
              if MAX_WORD_LEN ≤ word.length then .undefined s.g
              else match q with
                | [] => .undefined s.g
                | d :: q' =>
                  let len := count_length cfg label d s.len
                  if d == ')' && is_deletelabel cfg label then
                    .done { s with p := q', len := len }
                  else if d == ')' then
                    if MAX_WORD_IN_SENT ≤ s.terminal.length then .undefined s.g
                    else .done { s with
                      p := q'
                      len := len
                      terminal := s.terminal ++ [⟨word, label, 9⟩] }
                  else if d != '(' then
                    match Error cfg s.g with
                    | (g, true) => .exited g
                    | (g, false) => open_bracket { s with len := len } label p g
                  else open_bracket { s with len := len } label p s.g
          else open_bracket s label p s.g
  else if c == ')' then
    match popb_live s.stack with
    | none => .undefined s.g
    | some (b, st) =>
      .done { s with
        p := rest
        stack := st
        bracket := s.bracket.modify (fun x => { x with end_ := (s.terminal.length : Int) }) b }
  else
    match Error cfg s.g with
    | (g, true) => .exited g
    | (g, false) => .done { s with g := g }

/-- The `for` loop of `read_line` and what follows it, run for at most `fuel`
turns. -/
def scan (cfg : Config) : Nat → Reader → Outcome Parsed
  | 0, _ => .outOfFuel
  | fuel + 1, s =>
    match s.p with
    | [] =>
      if s.stack.isEmpty then .done ⟨s.len, s.terminal, s.bracket, s.g⟩
      else match Error cfg s.g with
        | (g, true) => .exited g
        | (g, false) => .done ⟨s.len, s.terminal, s.bracket, g⟩
    | c :: rest =>
      match read_step cfg s c rest with
      | .done s' => scan cfg fuel s'
      | .exited g => .exited g
      | .undefined g => .undefined g
      | .outOfFuel => .outOfFuel

/-- Turns that always suffice: every turn but the last either consumes a
character or calls `Error`, and `Error` exits once the counter is above
`Max_error`. -/
def read_fuel (cfg : Config) (g : Globals) (buff : Str) : Nat :=
  buff.length + (cfg.Max_error + 2 - (g.Error_count : Int)).toNat + 1

/-- The function `read_line` on the line `buff`, after `init()`'s reset of the
arrays (`start = end = -1`, `result = 9`). -/
def read_line (cfg : Config) (g : Globals) (buff : Str) : Outcome Parsed :=
  scan cfg (read_fuel cfg g buff) ⟨buff, [], [], [], 0, g⟩

/-! ## Trees in bracket notation -/

mutual

/-- A tree as a line writes it. A pre-terminal is `(LABEL WORD)`, with the
whitespace `sep` between label and word. A node is `(LABEL child ...)`, with
the whitespace `close` before its closing parenthesis. -/
inductive Tree where
  | pre (label sep word : Str)
  | node (label : Str) (kids : Forest) (close : Str)

/-- The children of a node, left to right, each after the whitespace `sep`. -/
inductive Forest where
  | nil
  | cons (sep : Str) (t : Tree) (f : Forest)
end

mutual

/-- The line of a tree. -/
def Tree.render : Tree → Str
  | .pre l s w => '(' :: (l ++ (s ++ (w ++ [')'])))
  | .node l ks c => '(' :: (l ++ (ks.render ++ (c ++ [')'])))

def Forest.render : Forest → Str
  | .nil => []
  | .cons s t f => s ++ (t.render ++ f.render)
end

/-- A label or word that bracket notation can carry: not empty, shorter than
the 200-byte buffers, and free of whitespace, parentheses and NUL. -/
def okToken (s : Str) : Prop :=
  s ≠ [] ∧ s.length < MAX_LABEL_LEN ∧ ∀ c ∈ s, is_terminator c = false ∧ c.toNat ≠ 0

/-- A run of whitespace. -/
def allSpace (s : Str) : Prop :=
  ∀ c ∈ s, isspace c = true

mutual

/-- Well-formed trees: labels and words are tokens; label and word of a
pre-terminal are separated by whitespace and the word is followed at once by
`)`; a child follows any whitespace, also none; whitespace before the closing
parenthesis of a node is allowed when the node has a child. -/
def Tree.WellFormed : Tree → Prop
  | .pre l s w => okToken l ∧ okToken w ∧ s ≠ [] ∧ allSpace s
  | .node l ks c => okToken l ∧ ks.WellFormed ∧ allSpace c ∧ (ks = .nil → c = [])

def Forest.WellFormed : Forest → Prop
  | .nil => True
  | .cons s t f => allSpace s ∧ t.WellFormed ∧ f.WellFormed
end

mutual

/-- The leaves of the tree that are kept, left to right: those whose
pre-terminal label is not a delete label. -/
def Tree.terminals (cfg : Config) : Tree → List s_terminal
  | .pre l _ w => if is_deletelabel cfg l then [] else [⟨w, l, 9⟩]
  | .node _ ks _ => ks.terminals cfg

def Forest.terminals (cfg : Config) : Forest → List s_terminal
  | .nil => []
  | .cons _ t f => t.terminals cfg ++ f.terminals cfg
end

mutual

/-- The nodes of the tree in the order of their opening parenthesis, when
`off` kept leaves stand to the left of the tree: each spans from the number
of kept leaves to its left to that number plus the kept leaves under it. -/
def Tree.brackets (cfg : Config) (off : Nat) : Tree → List s_bracket
  | .pre _ _ _ => []
  | .node l ks _ =>
    ⟨(off : Int), ((off + (ks.terminals cfg).length : Nat) : Int), l, 9⟩ :: ks.brackets cfg off

def Forest.brackets (cfg : Config) (off : Nat) : Forest → List s_bracket
  | .nil => []
  | .cons _ t f => t.brackets cfg off ++ f.brackets cfg (off + (t.terminals cfg).length)
end

mutual

/-- The pre-terminals of the tree whose label is not a delete label for
length. -/
def Tree.rawLength (cfg : Config) : Tree → Nat
  | .pre l _ _ => if is_deletelabel_for_length cfg l then 0 else 1
  | .node _ ks _ => ks.rawLength cfg

def Forest.rawLength (cfg : Config) : Forest → Nat
  | .nil => 0
  | .cons _ t f => t.rawLength cfg + f.rawLength cfg
end

mutual

/-- Turns of the loop of `read_line` that the line of a tree takes. -/
def Tree.turns : Tree → Nat
  | .pre _ _ _ => 1
  | .node _ ks c => ks.turns + c.length + 2

def Forest.turns : Forest → Nat
  | .nil => 0
  | .cons s t f => s.length + t.turns + f.turns
end

/-- The tree of the line
`(S (NP (NNX this)) (VP (VBX is) (NP (DT a) (NNX pen))) (SYM .))`. -/
def example1 : Tree :=
  .node ['S']
    (.cons [' '] (.node ['N', 'P']
        (.cons [' '] (.pre ['N', 'N', 'X'] [' '] ['t', 'h', 'i', 's']) .nil) [])
    (.cons [' '] (.node ['V', 'P']
        (.cons [' '] (.pre ['V', 'B', 'X'] [' '] ['i', 's'])
        (.cons [' '] (.node ['N', 'P']
            (.cons [' '] (.pre ['D', 'T'] [' '] ['a'])
            (.cons [' '] (.pre ['N', 'N', 'X'] [' '] ['p', 'e', 'n']) .nil)) []) .nil)) [])
    (.cons [' '] (.pre ['S', 'Y', 'M'] [' '] ['.']) .nil))) []

/-! ## massage_data -/

/-- The loop over `Delete_label` in `massage_data`: `result` becomes 5 at each
delete label that `label_comp` accepts. -/
def delete_loop (cfg : Config) (label : Str) : List Str → Nat → Nat
  | [], r => r
  | d :: ds, r => delete_loop cfg label ds (if label_comp cfg label d then 5 else r)

/-- The body of the loops of `massage_data` for one bracket: `result = 0`;
a zero element gets 5 and keeps its label; otherwise the label is trimmed and
compared with the delete labels. -/
def massage_bracket (cfg : Config) (b : s_bracket) : s_bracket :=
  if b.start == b.end_ then { b with result := 5 }
  else
    { b with
      label := modify_label b.label
      result := delete_loop cfg (modify_label b.label) cfg.Delete_label 0 }

/-- The counting loops of `massage_data`: the brackets whose `result` is not 5. -/
def count_real (bs : List s_bracket) : Nat :=
  bs.countP (fun b => b.result != 5)

/-- The arrays and the globals `r_bn1`, `r_bn2` after `massage_data`. -/
structure Massaged where
  bracket1 : List s_bracket
  bracket2 : List s_bracket
  r_bn1 : Nat
  r_bn2 : Nat
  deriving DecidableEq, Repr

def massage_data (cfg : Config) (bracket1 bracket2 : List s_bracket) : Massaged :=
  { bracket1 := bracket1.map (massage_bracket cfg)
    bracket2 := bracket2.map (massage_bracket cfg)
    r_bn1 := count_real (bracket1.map (massage_bracket cfg))
    r_bn2 := count_real (bracket2.map (massage_bracket cfg)) }

/-! ## The loops of calc_result -/

/-- The test of the matching loop for a gold bracket `b1` and a test bracket
`b2`. -/
def match_cond (cfg : Config) (b1 b2 : s_bracket) : Bool :=
  b1.result != 5 && b2.result == 0 && b1.start == b2.start && b1.end_ == b2.end_ &&
    (cfg.F_label == 0 || label_comp cfg b1.label b2.label)

/-- The inner loop of the matching, over the test brackets `j = 0 .. bn2-1`,
for one gold bracket: at the first test bracket that passes the test its
`result` becomes 1 and the loop breaks. `none` when no test bracket passes. -/
def match_inner (cfg : Config) (b1 : s_bracket) : List s_bracket → Option (List s_bracket)
  | [] => none
  | b2 :: rest =>
    if match_cond cfg b1 b2 then some ({ b2 with result := 1 } :: rest)
    else match match_inner cfg b1 rest with
      | none => none
      | some rest' => some (b2 :: rest')

/-- The arrays and the local `match` after the matching loops. -/
structure Matched where
  bracket1 : List s_bracket
  bracket2 : List s_bracket
  match_ : Nat
  deriving DecidableEq, Repr

/-- The outer loop of the matching, over the gold brackets `i = 0 .. bn1-1`. -/
def match_loop (cfg : Config) : List s_bracket → List s_bracket → Matched
  | [], bracket2 => ⟨[], bracket2, 0⟩
  | b1 :: rest, bracket2 =>
    match match_inner cfg b1 bracket2 with
    | some bracket2' =>
      let r := match_loop cfg rest bracket2'
      ⟨{ b1 with result := 1 } :: r.bracket1, r.bracket2, r.match_ + 1⟩
    | none =>
      let r := match_loop cfg rest bracket2
      ⟨b1 :: r.bracket1, r.bracket2, r.match_⟩

/-- The test of the crossing loop for a gold bracket `b1` and a test bracket
`b2`. -/
def cross_cond (b1 b2 : s_bracket) : Bool :=
  b1.result != 5 && b2.result != 5 &&
    ((decide (b1.start < b2.start) && decide (b1.end_ > b2.start) && decide (b1.end_ < b2.end_)) ||
     (decide (b1.start > b2.start) && decide (b1.start < b2.end_) && decide (b1.end_ > b2.end_)))

/-- The inner loop of the crossing count, over the gold brackets, for one test
bracket: whether the loop reaches `crossing++; break`. -/
def cross_inner (b2 : s_bracket) : List s_bracket → Bool
  | [] => false
  | b1 :: rest => if cross_cond b1 b2 then true else cross_inner b2 rest

/-- The outer loop of the crossing count, over the test brackets. -/
def cross_loop (bracket1 : List s_bracket) : List s_bracket → Nat
  | [] => 0
  | b2 :: rest => (if cross_inner b2 bracket1 then 1 else 0) + cross_loop bracket1 rest

/-- The arrays and the local `correct_tag` after the tagging loop. -/
structure Tagged where
  terminal1 : List s_terminal
  terminal2 : List s_terminal
  correct_tag : Nat
  deriving DecidableEq, Repr

/-- The tagging loop over `i = 0 .. wn1-1`; it runs with `wn1 == wn2`. -/
def tag_loop (cfg : Config) : List s_terminal → List s_terminal → Tagged
  | t1 :: r1, t2 :: r2 =>
    let r := tag_loop cfg r1 r2
    if label_comp cfg t1.label t2.label then
      ⟨{ t1 with result := 1 } :: r.terminal1, { t2 with result := 1 } :: r.terminal2,
        r.correct_tag + 1⟩
    else
      ⟨{ t1 with result := 0 } :: r.terminal1, { t2 with result := 0 } :: r.terminal2,
        r.correct_tag⟩
  | r1, r2 => ⟨r1, r2, 0⟩

/-- The word loop of `calc_result`: whether `word_comp` is 0 at some
position `i < wn1`; it runs with `wn1 == wn2`. -/
def words_unmatch (cfg : Config) : List s_terminal → List s_terminal → Bool
  | t1 :: r1, t2 :: r2 => if word_comp cfg t1.word t2.word then words_unmatch cfg r1 r2 else true
  | _, _ => false

/-! ## individual_result -/

/-- One set of running totals (`TOTAL_*` or `TOT40_*`). -/
structure Totals where
  bn1 : Nat
  bn2 : Nat
  match_ : Nat
  sent : Nat
  error_sent : Nat
  skip_sent : Nat
  comp_sent : Nat
  word : Nat
  crossing : Nat
  no_crossing : Nat
  crossing_2L : Nat
  correct_tag : Nat
  deriving DecidableEq, Repr

/-- The function `init_global`. -/
def init_global : Totals × Totals :=
  (⟨0, 0, 0, 0, 0, 0, 0, 0, 0, 0, 0, 0⟩, ⟨0, 0, 0, 0, 0, 0, 0, 0, 0, 0, 0, 0⟩)

/-- The update of one set of totals in `individual_result`. -/
def add_result (Status : Nat) (t : Totals) (wn1 bn1 bn2 match_ crossing correct_tag : Nat) :
    Totals :=
  if Status == 1 then { t with sent := t.sent + 1, error_sent := t.error_sent + 1 }
  else if Status == 2 then { t with sent := t.sent + 1, skip_sent := t.skip_sent + 1 }
  else
    { bn1 := t.bn1 + bn1
      bn2 := t.bn2 + bn2
      match_ := t.match_ + match_
      sent := t.sent + 1
      error_sent := t.error_sent
      skip_sent := t.skip_sent
      comp_sent := if bn1 == bn2 && bn2 == match_ then t.comp_sent + 1 else t.comp_sent
      word := t.word + wn1
      crossing := t.crossing + crossing
      no_crossing := if crossing == 0 then t.no_crossing + 1 else t.no_crossing
      crossing_2L := if crossing ≤ 2 then t.crossing_2L + 1 else t.crossing_2L
      correct_tag := t.correct_tag + correct_tag }

/-- The value `c == 0 ? 0.0 : 100.0 * a / c` of the printed percentages, as a
rational number. -/
def percent (a c : Nat) : ℚ :=
  if c == 0 then 0 else 100 * (a : ℚ) / (c : ℚ)

/-- The line that `individual_result` prints. -/
structure Report where
  r_wn1 : Nat
  Status : Nat
  recall_pct : ℚ
  precision_pct : ℚ
  match_ : Nat
  r_bn1 : Nat
  r_bn2 : Nat
  crossing : Nat
  wn1 : Nat
  correct_tag : Nat
  tagging_pct : ℚ
  deriving DecidableEq, Repr

/-- The function `individual_result`: both sets of totals, the second one only
when `r_wn1 <= TOT_cut_len`, and the printed line, which reads the globals
`r_wn1`, `Status`, `r_bn1` and `r_bn2`. -/
def individual_result (cfg : Config) (Status r_wn1 r_bn1 r_bn2 : Nat) (tot : Totals × Totals)
    (wn1 bn1 bn2 match_ crossing correct_tag : Nat) : (Totals × Totals) × Report :=
  ((add_result Status tot.1 wn1 bn1 bn2 match_ crossing correct_tag,
    if (r_wn1 : Int) ≤ cfg.TOT_cut_len then
      add_result Status tot.2 wn1 bn1 bn2 match_ crossing correct_tag
    else tot.2),
   { r_wn1 := r_wn1, Status := Status, recall_pct := percent match_ r_bn1,
     precision_pct := percent match_ r_bn2, match_ := match_, r_bn1 := r_bn1, r_bn2 := r_bn2,
     crossing := crossing, wn1 := wn1, correct_tag := correct_tag,
     tagging_pct := percent correct_tag wn1 })

/-! ## calc_result and one turn of the loop of main -/

/-- The program state after `calc_result`. -/
structure Scored where
  terminal1 : List s_terminal
  terminal2 : List s_terminal
  bracket1 : List s_bracket
  bracket2 : List s_bracket
  g : Globals
  tot : Totals × Totals
  report : Report
  deriving DecidableEq, Repr

/-- The function `calc_result` (compiled without `DC` and `DB`), entered with
`r_bn1 = r_bn2 = 0` from `init()`, `wn1 = terminal1.length` and
`wn2 = terminal2.length`. -/
def calc_result (cfg : Config) (g : Globals) (tot : Totals × Totals) (r_wn1 : Nat)
    (terminal1 terminal2 : List s_terminal) (bracket1 bracket2 : List s_bracket) :
    Outcome Scored :=
  if terminal2.length == 0 then
    let r := individual_result cfg 2 r_wn1 0 0 tot 0 0 0 0 0 0
    .done ⟨terminal1, terminal2, bracket1, bracket2, { g with Status := 2 }, r.1, r.2⟩
  else if terminal1.length != terminal2.length then
    match Error cfg g with
    | (g', true) => .exited g'
    | (g', false) =>
      let r := individual_result cfg g'.Status r_wn1 0 0 tot 0 0 0 0 0 0
      .done ⟨terminal1, terminal2, bracket1, bracket2, g', r.1, r.2⟩
  else if words_unmatch cfg terminal1 terminal2 then
    match Error cfg g with
    | (g', true) => .exited g'
    | (g', false) =>
      let r := individual_result cfg g'.Status r_wn1 0 0 tot 0 0 0 0 0 0
      .done ⟨terminal1, terminal2, bracket1, bracket2, g', r.1, r.2⟩
  else
    let m := massage_data cfg bracket1 bracket2
    let mt := match_loop cfg m.bracket1 m.bracket2
    let crossing := cross_loop mt.bracket1 mt.bracket2
    let tg := tag_loop cfg terminal1 terminal2
    let r := individual_result cfg g.Status r_wn1 m.r_bn1 m.r_bn2 tot
      terminal1.length m.r_bn1 m.r_bn2 mt.match_ crossing tg.correct_tag
    .done ⟨tg.terminal1, tg.terminal2, mt.bracket1, mt.bracket2, g, r.1, r.2⟩

/-- One turn of the loop of `main` on a gold line and a test line: `init()`,
the two calls of `read_line`, then `calc_result`. -/
def score_pair (cfg : Config) (g : Globals) (tot : Totals × Totals) (buff1 buff2 : Str) :
    Outcome Scored :=
  match read_line cfg { g with Status := 0 } buff1 with
  | .done p1 =>
    match read_line cfg p1.g buff2 with
    | .done p2 => calc_result cfg p2.g tot p1.len p1.terminal p2.terminal p1.bracket p2.bracket
    | .exited g' => .exited g'
    | .undefined g' => .undefined g'
    | .outOfFuel => .outOfFuel
  | .exited g' => .exited g'
  | .undefined g' => .undefined g'
  | .outOfFuel => .outOfFuel

/-! ## Notions used to state the properties -/

/-- The brackets that are not deleted (`result != 5`). -/
def real_brackets (bs : List s_bracket) : List s_bracket :=
  bs.filter (fun b => b.result != 5)

/-- The brackets still free for a match (`result == 0`). -/
def free_brackets (bs : List s_bracket) : List s_bracket :=
  bs.filter (fun b => b.result == 0)

/-- A gold span `(gs,ge)` and a test span `(ts,te)` cross:
`gs < ts < ge < te` or `ts < gs < te < ge`. -/
def Crosses (g t : s_bracket) : Prop :=
  (g.start < t.start ∧ t.start < g.end_ ∧ g.end_ < t.end_) ∨
  (t.start < g.start ∧ g.start < t.end_ ∧ t.end_ < g.end_)

instance (g t : s_bracket) : Decidable (Crosses g t) := by
  unfold Crosses; infer_instance

/-- A test bracket that is not deleted and crosses a gold bracket that is not
deleted. -/
def CrossesSome (bracket1 : List s_bracket) (t : s_bracket) : Prop :=
  t.result ≠ 5 ∧ ∃ g ∈ bracket1, g.result ≠ 5 ∧ Crosses g t

instance (bracket1 : List s_bracket) (t : s_bracket) : Decidable (CrossesSome bracket1 t) := by
  unfold CrossesSome; infer_instance

/-- What the crossing loop reads of a bracket: its span and whether it is
deleted. -/
def span_del (b : s_bracket) : Int × Int × Bool :=
  (b.start, b.end_, b.result == 5)

/-- The crossing count that `calc_result` computes for two bracket lists:
`massage_data`, the matching loops, then the crossing loops. -/
def crossing_of (cfg : Config) (bracket1 bracket2 : List s_bracket) : Nat :=
  cross_loop
    (match_loop cfg (massage_data cfg bracket1 bracket2).bracket1
      (massage_data cfg bracket1 bracket2).bracket2).bracket1
    (match_loop cfg (massage_data cfg bracket1 bracket2).bracket1
      (massage_data cfg bracket1 bracket2).bracket2).bracket2

/-- The match count that `calc_result` computes for two bracket lists:
`massage_data`, then the matching loops. -/
def match_of (cfg : Config) (bracket1 bracket2 : List s_bracket) : Nat :=
  (match_loop cfg (massage_data cfg bracket1 bracket2).bracket1
    (massage_data cfg bracket1 bracket2).bracket2).match_

/-- Two brackets with the same start and end that `massage_data` marks alike
(both deleted or both not). -/
def SameSpanDel (cfg : Config) (a b : s_bracket) : Prop :=
  a.start = b.start ∧ a.end_ = b.end_ ∧
    (massage_bracket cfg a).result = (massage_bracket cfg b).result

/-- Two brackets with the same start and end. -/
def SameSpan (a b : s_bracket) : Prop :=
  a.start = b.start ∧ a.end_ = b.end_

/-- A gold and a test bracket with equal spans and labels that `label_comp`
accepts. -/
def SameBracket (cfg : Config) (g t : s_bracket) : Prop :=
  g.start = t.start ∧ g.end_ = t.end_ ∧ label_comp cfg g.label t.label = true

/-- Two bracket lists are identical as collections: the second can be
reordered so that it agrees with the first position by position, in span and,
up to `label_comp`, in label. -/
def SameCollection (cfg : Config) (gs ts : List s_bracket) : Prop :=
  ∃ ts', ts'.Perm ts ∧ List.Forall₂ (SameBracket cfg) gs ts'

/-- The label `-NONE-`. -/
def NONE_label : Str := ['-', 'N', 'O', 'N', 'E', '-']

/-- The relation that `label_comp` computes is transitive, as it is for an
empty registry. -/
def LabelTransitive (cfg : Config) : Prop :=
  ∀ a b c : Str, label_comp cfg a b = true → label_comp cfg b c = true →
    label_comp cfg a c = true

/-- Successive calls of `Error`, at most `n` of them, the run ending at the
call that exits: the globals after the last call made and whether it
exited. -/
def Error_run (cfg : Config) : Nat → Globals → Globals × Bool
  | 0, g => (g, false)
  | n + 1, g =>
    match Error cfg g with
    | (g', true) => (g', true)
    | (g', false) => Error_run cfg n g'

/-- Two sets of totals with the same gold-bracket, test-bracket, match,
complete-match, word, crossing, no-crossing, 2-or-less-crossing and
correct-tag counters. -/
def SameScores (a b : Totals) : Prop :=
  a.bn1 = b.bn1 ∧ a.bn2 = b.bn2 ∧ a.match_ = b.match_ ∧ a.comp_sent = b.comp_sent ∧
  a.word = b.word ∧ a.crossing = b.crossing ∧ a.no_crossing = b.no_crossing ∧
  a.crossing_2L = b.crossing_2L ∧ a.correct_tag = b.correct_tag

/-- The set of totals `b` is `a` with one more sentence and one more error
sentence, and nothing else changed. -/
def OneMoreError (a b : Totals) : Prop :=
  SameScores b a ∧ b.sent = a.sent + 1 ∧ b.error_sent = a.error_sent + 1 ∧
    b.skip_sent = a.skip_sent

/-- The set of totals `b` is `a` with one more sentence and one more skip
sentence, and nothing else changed. -/
def OneMoreSkip (a b : Totals) : Prop :=
  SameScores b a ∧ b.sent = a.sent + 1 ∧ b.skip_sent = a.skip_sent + 1 ∧
    b.error_sent = a.error_sent

/-- The increments from `a` to `a'` are the increments from `b` to `b'`, in
every counter. -/
def SameIncrements (a a' b b' : Totals) : Prop :=
  a'.bn1 + b.bn1 = b'.bn1 + a.bn1 ∧ a'.bn2 + b.bn2 = b'.bn2 + a.bn2 ∧
  a'.match_ + b.match_ = b'.match_ + a.match_ ∧ a'.sent + b.sent = b'.sent + a.sent ∧
  a'.error_sent + b.error_sent = b'.error_sent + a.error_sent ∧
  a'.skip_sent + b.skip_sent = b'.skip_sent + a.skip_sent ∧
  a'.comp_sent + b.comp_sent = b'.comp_sent + a.comp_sent ∧
  a'.word + b.word = b'.word + a.word ∧ a'.crossing + b.crossing = b'.crossing + a.crossing ∧
  a'.no_crossing + b.no_crossing = b'.no_crossing + a.no_crossing ∧
  a'.crossing_2L + b.crossing_2L = b'.crossing_2L + a.crossing_2L ∧
  a'.correct_tag + b.correct_tag = b'.correct_tag + a.correct_tag

/-- Two strings are paired in a registry table, in either order. -/
def Paired (tbl : List (Str × Str)) (a b : Str) : Prop :=
  ∃ e ∈ tbl, (a = e.1 ∧ b = e.2) ∨ (a = e.2 ∧ b = e.1)

instance (tbl : List (Str × Str)) (a b : Str) : Decidable (Paired tbl a b) := by
  unfold Paired; infer_instance

/-- Some position holds a gold and a test word that are neither identical nor
paired in the word registry. -/
def WordsDiffer (cfg : Config) (terminal1 terminal2 : List s_terminal) : Prop :=
  ∃ p ∈ List.zip terminal1 terminal2, ¬ (p.1.word = p.2.word ∨ Paired cfg.EQ_word p.1.word p.2.word)

/-- The gold and the test label of a position are identical or paired in the
label registry. -/
def TagAgrees (cfg : Config) (p : s_terminal × s_terminal) : Prop :=
  p.1.label = p.2.label ∨ Paired cfg.EQ_label p.1.label p.2.label

instance (cfg : Config) (p : s_terminal × s_terminal) : Decidable (TagAgrees cfg p) := by
  unfold TagAgrees; infer_instance

/-- What one sentence hands to `individual_result`: the globals `Status`,
`r_wn1`, `r_bn1`, `r_bn2` at the call and its six arguments. -/
structure SentResult where
  Status : Nat
  r_wn1 : Nat
  r_bn1 : Nat
  r_bn2 : Nat
  wn1 : Nat
  bn1 : Nat
  bn2 : Nat
  match_ : Nat
  crossing : Nat
  correct_tag : Nat
  deriving DecidableEq, Repr

/-- The totals after the call of `individual_result` for one sentence. -/
def add_sentence (cfg : Config) (tot : Totals × Totals) (x : SentResult) : Totals × Totals :=
  (individual_result cfg x.Status x.r_wn1 x.r_bn1 x.r_bn2 tot
    x.wn1 x.bn1 x.bn2 x.match_ x.crossing x.correct_tag).1

/-- The totals after `init_global` and the calls of `individual_result` for a
sequence of sentences, in turn. -/
def add_sentences (cfg : Config) (xs : List SentResult) : Totals × Totals :=
  xs.foldl (add_sentence cfg) init_global

/-- The mark of the two terminals at a position after tagging: 1 (match) when
their labels agree, 0 (unmatch) otherwise. -/
def tag_mark (cfg : Config) (p : s_terminal × s_terminal) : Nat :=
  if TagAgrees cfg p then 1 else 0

mutual

/-- The raw labels of the pre-terminals `(LABEL WORD)` of the tree, left to
right. -/
def Tree.preterminals : Tree → List Str
  | .pre l _ _ => [l]
  | .node _ ks _ => ks.preterminals

def Forest.preterminals : Forest → List Str
  | .nil => []
  | .cons _ t f => t.preterminals ++ f.preterminals
end

/-- A call of `individual_result` that is neither an error (`Status == 1`) nor
a skip (`Status == 2`). -/
def IsOk (x : SentResult) : Bool :=
  x.Status != 1 && x.Status != 2

/-- The relations between the counters of one set of totals, `ok` being the
number of calls that reached the `else` branch for that set: the valid
sentences `sent - error_sent - skip_sent`. -/
def ValidTotals (t : Totals) (ok : Nat) : Prop :=
  t.match_ ≤ t.bn1 ∧ t.match_ ≤ t.bn2 ∧ t.correct_tag ≤ t.word ∧
  t.no_crossing ≤ t.crossing_2L ∧ t.crossing_2L ≤ ok ∧ t.comp_sent ≤ ok ∧
  t.error_sent + t.skip_sent ≤ t.sent ∧ t.sent - t.error_sent - t.skip_sent = ok

/-- Every counter of `a` is at most the same counter of `b`. -/
def TotalsLe (a b : Totals) : Prop :=
  a.bn1 ≤ b.bn1 ∧ a.bn2 ≤ b.bn2 ∧ a.match_ ≤ b.match_ ∧ a.sent ≤ b.sent ∧
  a.error_sent ≤ b.error_sent ∧ a.skip_sent ≤ b.skip_sent ∧ a.comp_sent ≤ b.comp_sent ∧
  a.word ≤ b.word ∧ a.crossing ≤ b.crossing ∧ a.no_crossing ≤ b.no_crossing ∧
  a.crossing_2L ≤ b.crossing_2L ∧ a.correct_tag ≤ b.correct_tag

/-- The span of a bracket. -/
def span (b : s_bracket) : Int × Int :=
  (b.start, b.end_)

/-- The number of brackets of the list that are not deleted and have the
span `k`. -/
def span_count (bs : List s_bracket) (k : Int × Int) : Nat :=
  (real_brackets bs).countP (fun b => decide (span b = k))

/-- A bracket list as `massage_data` leaves it: every `result` is 0 or 5. -/
def IsMassaged (bs : List s_bracket) : Prop :=
  ∀ b ∈ bs, b.result = 0 ∨ b.result = 5

/-- A one-to-one pairing between gold brackets and test brackets that are not
deleted: each pair has equal start and end and labels that `label_comp`
accepts, and no bracket of either list is used twice. -/
def IsPairing (cfg : Config) (gs ts : List s_bracket) (ps : List (s_bracket × s_bracket)) :
    Prop :=
  (∀ p ∈ ps, SameBracket cfg p.1 p.2) ∧
  (ps.map Prod.fst).Subperm (real_brackets gs) ∧
  (ps.map Prod.snd).Subperm (real_brackets ts)

/-- A configuration in labeled mode whose label registry holds the pairs
`(B,A)` and `(B,C)`. -/
def greedy_cfg : Config :=
  ⟨10, 40, 1, [], [], [(['B'], ['A']), (['B'], ['C'])], []⟩

/-- The tree of the line `(B (A (N a)))`. -/
def greedy_gold : Tree :=
  .node ['B'] (.cons [' '] (.node ['A'] (.cons [' '] (.pre ['N'] [' '] ['a']) .nil) []) .nil) []

/-- The tree of the line `(A (C (N a)))`. -/
def greedy_test : Tree :=
  .node ['A'] (.cons [' '] (.node ['C'] (.cons [' '] (.pre ['N'] [' '] ['a']) .nil) []) .nil) []

/-- The tree of the line `(C (A (N a)))`. -/
def greedy_test2 : Tree :=
  .node ['C'] (.cons [' '] (.node ['A'] (.cons [' '] (.pre ['N'] [' '] ['a']) .nil) []) .nil) []

mutual

/-- The nodes of the tree that are not pre-terminals, in the order of their
opening parenthesis: the order of the brackets of `read_line`. -/
def Tree.nodes : Tree → List Tree
  | .pre _ _ _ => []
  | .node l ks c => .node l ks c :: ks.nodes

def Forest.nodes : Forest → List Tree
  | .nil => []
  | .cons _ t f => t.nodes ++ f.nodes
end

/-- The label of the root of a tree. -/
def Tree.label : Tree → Str
  | .pre l _ _ => l
  | .node l _ _ => l

/-- The tree of the line `(S (NP (-NONE- *)) (VP (V runs)))`. -/
def example_none : Tree :=
  .node ['S']
    (.cons [' '] (.node ['N', 'P']
        (.cons [' '] (.pre ['-', 'N', 'O', 'N', 'E', '-'] [' '] ['*']) .nil) [])
    (.cons [' '] (.node ['V', 'P']
        (.cons [' '] (.pre ['V'] [' '] ['r', 'u', 'n', 's']) .nil) []) .nil)) []

/-- Two spans are properly nested: they are disjoint or one contains the
other. -/
def Nested (a b : s_bracket) : Prop :=
  a.end_ ≤ b.start ∨ b.end_ ≤ a.start ∨ (a.start ≤ b.start ∧ b.end_ ≤ a.end_) ∨
    (b.start ≤ a.start ∧ a.end_ ≤ b.end_)

/-- What holds of the brackets and the stack of `read_line` at every turn,
with `wid` terminals read: the stack holds indices of brackets, the greatest on
top; every bracket starts within `0 .. wid`, after the brackets opened before
it; a bracket that is off the stack (closed) ends within `start .. wid`, and
a bracket opened after it either starts at its end or later, or is closed as
well and ends within it. -/
def BInv (wid : Nat) (br : List s_bracket) (st : List Nat) : Prop :=
  st.Pairwise (fun i j => j < i) ∧
  (∀ i ∈ st, i < br.length) ∧
  (∀ i b, br[i]? = some b →
    0 ≤ b.start ∧ b.start ≤ (wid : Int) ∧ (i ∉ st → b.start ≤ b.end_ ∧ b.end_ ≤ (wid : Int))) ∧
  (∀ i j a b, i < j → br[i]? = some a → br[j]? = some b →
    a.start ≤ b.start ∧ (i ∉ st → a.end_ ≤ b.start ∨ (j ∉ st ∧ b.end_ ≤ a.end_)))

/-! ## read_line past the ends of the stack

`popb` reads `stack[stack_top-1]` before it tests `stack_top`, and `pushb`
writes `stack[stack_top]` without a test, so that a `)` read on an empty stack
takes the run to the cells below `stack[0]`. The definitions of this section
follow the same source lines with the stack kept as memory: `cell i` is the
`int` at `stack[i]` for every index `i`, also the negative ones, which hold
what the memory held (`m`) until `pushb` writes them. The cells below
`stack[0]` are taken to be memory of their own, apart from the variables that
the model follows. -/

/-- The local state of `read_line` with the stack as memory: `stack_top`, the
cells `stack[i]`, and for the slots of the bracket array that are not opened
yet their field `end` (`spare`), which `init()` sets to -1. -/
structure Reader_mem where
  p : Str
  terminal : List s_terminal
  bracket : List s_bracket
  spare : Nat → Int
  stack_top : Int
  cell : Int → Int
  len : Nat
  g : Globals

/-- The function `pushb`: `stack[stack_top++] = item`. The new `stack_top` and
the new cells. -/
def pushb (stack_top : Int) (cell : Int → Int) (item : Int) : Int × (Int → Int) :=
  (stack_top + 1, fun i => if i = stack_top then item else cell i)

/-- The function `popb`: `item = stack[stack_top-1]`, then
`if(stack_top-- < 0) Error(...)`, then `return(item)`. The item, whether
`Error` is called, and the new `stack_top`. -/
def popb (stack_top : Int) (cell : Int → Int) : Int × Bool × Int :=
  (cell (stack_top - 1), decide (stack_top < 0), stack_top - 1)

/-- The function `stackempty`: `stack_top == 0`. -/
def stackempty (stack_top : Int) : Bool :=
  stack_top == 0

/-- The statement `bracket[b].end = wid` for the `b` that `popb` returned: on
an opened bracket; on a slot of the array that is not opened yet, whose `end`
stays until the slot is opened; `none` when `b` is no index of the array. -/
def write_end (bracket : List s_bracket) (spare : Nat → Int) (b : Int) (wid : Nat) :
    Option (List s_bracket × (Nat → Int)) :=
  if b < 0 ∨ (MAX_BRACKET_IN_SENT : Int) ≤ b then none
  else if b.toNat < bracket.length then
    some (bracket.modify (fun x => { x with end_ := (wid : Int) }) b.toNat, spare)
  else some (bracket, fun k => if k = b.toNat then (wid : Int) else spare k)

/-- The non-terminal branch of `read_line`: `bracket[bid].start = wid`, copy
the label, `pushb(bid)`, `bid++`; the field `end` of the slot is not
written. -/
def open_bracket_mem (s : Reader_mem) (label : Str) (p : Str) (g : Globals) :
    Outcome Reader_mem :=
  if MAX_BRACKET_IN_SENT ≤ s.bracket.length then .undefined g
  else .done { s with
    p := p
    bracket := s.bracket ++ [⟨(s.terminal.length : Int), s.spare s.bracket.length, label, 9⟩]
    stack_top := (pushb s.stack_top s.cell (s.bracket.length : Int)).1
    cell := (pushb s.stack_top s.cell (s.bracket.length : Int)).2
    g := g }

/-- The close branch of `read_line` after `popb`: `bracket[b].end = wid; p++`. -/
def close_bracket_mem (s : Reader_mem) (rest : Str) (g : Globals) : Outcome Reader_mem :=
  match write_end s.bracket s.spare (popb s.stack_top s.cell).1 s.terminal.length with
  | none => .undefined g
  | some (br, sp) =>
    .done { s with
      p := rest
      bracket := br
      spare := sp
      stack_top := (popb s.stack_top s.cell).2.2
      g := g }

/-- One turn of the `for` loop of `read_line` at a character `c` followed by
`rest`, with the stack as memory. -/
def read_step_mem (cfg : Config) (s : Reader_mem) (c : Char) (rest : Str) :
    Outcome Reader_mem :=
  if isspace c then .done { s with p := rest }
  else if c == '(' then
    match read_token rest with
    | none => .undefined s.g
    | some (label, p) =>
      if MAX_LABEL_LEN ≤ label.length then .undefined s.g
      else match p with
        | [] => .undefined s.g
        | q0 :: q1 =>
          if isspace q0 then
            match read_token (skip_space q1) with
            | none => .undefined s.g
            | some (word, q) =>
              if MAX_WORD_LEN ≤ word.length then .undefined s.g
              else match q with
                | [] => .undefined s.g
                | d :: q' =>
                  let len := count_length cfg label d s.len
                  if d == ')' && is_deletelabel cfg label then
                    .done { s with p := q', len := len }
                  else if d == ')' then
                    if MAX_WORD_IN_SENT ≤ s.terminal.length then .undefined s.g
                    else .done { s with
                      p := q'
                      len := len
                      terminal := s.terminal ++ [⟨word, label, 9⟩] }
                  else if d != '(' then
                    match Error cfg s.g with
                    | (g, true) => .exited g
                    | (g, false) => open_bracket_mem { s with len := len } label p g
                  else open_bracket_mem { s with len := len } label p s.g
          else open_bracket_mem s label p s.g
  else if c == ')' then
    if (popb s.stack_top s.cell).2.1 then
      match Error cfg s.g with
      | (g, true) => .exited g
      | (g, false) => close_bracket_mem s rest g
    else close_bracket_mem s rest s.g
  else
    match Error cfg s.g with
    | (g, true) => .exited g
    | (g, false) => .done { s with g := g }

/-- The `for` loop of `read_line` and what follows it, with the stack as
memory, run for at most `fuel` turns. -/
def scan_mem (cfg : Config) : Nat → Reader_mem → Outcome Parsed
  | 0, _ => .outOfFuel
  | fuel + 1, s =>
    match s.p with
    | [] =>
      if stackempty s.stack_top then .done ⟨s.len, s.terminal, s.bracket, s.g⟩
      else match Error cfg s.g with
        | (g, true) => .exited g
        | (g, false) => .done ⟨s.len, s.terminal, s.bracket, g⟩
    | c :: rest =>
      match read_step_mem cfg s c rest with
      | .done s' => scan_mem cfg fuel s'
      | .exited g => .exited g
      | .undefined g => .undefined g
      | .outOfFuel => .outOfFuel

/-- The function `read_line` on the line `buff` with the stack as memory,
entered after `init()` with the memory `m` at the cells of the stack;
`read_line` sets `stack_top = 0` itself. -/
def read_line_mem (m : Int → Int) (cfg : Config) (g : Globals) (buff : Str) : Outcome Parsed :=
  scan_mem cfg (read_fuel cfg g buff) ⟨buff, [], [], fun _ => -1, 0, m, 0, g⟩

/-- A state of `read_line` with the stack as a list and a state with the
stack as memory describe the same run: the same position, arrays, length and
globals; `stack_top` is the height of the list and the cells `0 .. stack_top-1`
hold its items, the oldest at `stack[0]`; no slot beyond the opened brackets
has been written; the items are indices of opened brackets, which are within
the array. -/
def Agrees (s : Reader) (t : Reader_mem) : Prop :=
  t.p = s.p ∧ t.terminal = s.terminal ∧ t.bracket = s.bracket ∧ t.len = s.len ∧ t.g = s.g ∧
  t.stack_top = (s.stack.length : Int) ∧
  (∀ k, s.bracket.length ≤ k → t.spare k = -1) ∧
  (∀ (i x : Nat), s.stack.reverse[i]? = some x → t.cell (i : Int) = (x : Int)) ∧
  (∀ x ∈ s.stack, x < s.bracket.length) ∧
  s.bracket.length ≤ MAX_BRACKET_IN_SENT

/-- An outcome with the stack as a list is borne out by the outcome with the
stack as memory: the same exit, or states that describe the same run. Nothing
is asked where the former leaves the arrays. -/
def OutRel (o : Outcome Reader) (o' : Outcome Reader_mem) : Prop :=
  match o with
  | .done s' => ∃ t', o' = .done t' ∧ Agrees s' t'
  | .exited g => o' = .exited g
  | .undefined _ => True
  | .outOfFuel => True

/-! # Theorems -/

/-! ## The reader on well-formed lines -/

theorem read_token_append (l : Str) (d : Char) (r : Str)
    (hl : ∀ c ∈ l, is_terminator c = false) (hd : is_terminator d = true) :
    read_token (l ++ d :: r) = some (l, d :: r) := by
  induction l with
  | nil => simp [read_token, hd]
  | cons c cs ih =>
    have hc : is_terminator c = false := hl c (by simp)
    have ih' := ih (fun x hx => hl x (by simp [hx]))
    simp [read_token, hc, ih']

theorem skip_space_append (x : Char) (r : Str) (hx : isspace x = false) :
    ∀ (ws : Str), allSpace ws → skip_space (ws ++ x :: r) = x :: r
  | [], _ => by simp [skip_space, hx]
  | c :: cs, h => by
    have hc : isspace c = true := h c (by simp)
    have ih := skip_space_append x r hx cs (fun y hy => h y (by simp [hy]))
    simp [skip_space, hc, ih]

theorem isspace_of_not_terminator {c : Char} (h : is_terminator c = false) :
    isspace c = false := by
  unfold is_terminator at h
  cases hs : isspace c <;> simp_all

theorem terminator_of_isspace {c : Char} (h : isspace c = true) : is_terminator c = true := by
  simp [is_terminator, h]

theorem Tree.render_head (t : Tree) : ∃ r, t.render = '(' :: r := by
  cases t <;> exact ⟨_, rfl⟩

theorem scan_space (cfg : Config) (fuel : Nat) (c : Char) (hc : isspace c = true) (rest : Str)
    (tm : List s_terminal) (br : List s_bracket) (st : List Nat) (len : Nat) (g : Globals) :
    scan cfg (fuel + 1) ⟨c :: rest, tm, br, st, len, g⟩ = scan cfg fuel ⟨rest, tm, br, st, len, g⟩ := by
  simp [scan, read_step, hc]

theorem scan_spaces (cfg : Config) (rest : Str) (tm : List s_terminal) (br : List s_bracket)
    (st : List Nat) (len : Nat) (g : Globals) : ∀ (ws : Str), allSpace ws → ∀ (fuel : Nat),
    scan cfg (fuel + ws.length) ⟨ws ++ rest, tm, br, st, len, g⟩
      = scan cfg fuel ⟨rest, tm, br, st, len, g⟩
  | [], _, fuel => rfl
  | c :: cs, h, fuel => by
    have ih := scan_spaces cfg rest tm br st len g cs (fun y hy => h y (by simp [hy])) fuel
    have e : fuel + (c :: cs).length = fuel + cs.length + 1 := by simp [Nat.add_assoc]
    rw [e, List.cons_append, scan_space cfg _ c (h c (by simp)), ih]

theorem scan_pre (cfg : Config) (fuel : Nat) (l s w : Str) (hl : okToken l) (hw : okToken w)
    (hs0 : s ≠ []) (hs : allSpace s)
    (rest : Str) (tm : List s_terminal) (br : List s_bracket) (st : List Nat) (len : Nat)
    (g : Globals) (hcap : tm.length + ((Tree.pre l s w).terminals cfg).length ≤ MAX_WORD_IN_SENT) :
    scan cfg (fuel + 1) ⟨(Tree.pre l s w).render ++ rest, tm, br, st, len, g⟩
      = scan cfg fuel ⟨rest, tm ++ (Tree.pre l s w).terminals cfg, br, st,
          len + (Tree.pre l s w).rawLength cfg, g⟩ := by
  obtain ⟨hl0, hl1, hl2⟩ := hl
  obtain ⟨hw0, hw1, hw2⟩ := hw
  obtain ⟨c, s', rfl⟩ : ∃ c s', s = c :: s' := by
    cases s with
    | nil => exact absurd rfl hs0
    | cons c s' => exact ⟨c, s', rfl⟩
  obtain ⟨x, w', rfl⟩ : ∃ x w', w = x :: w' := by
    cases w with
    | nil => exact absurd rfl hw0
    | cons x w' => exact ⟨x, w', rfl⟩
  have hc : isspace c = true := hs c (by simp)
  have e1 : read_token (l ++ c :: (s' ++ (x :: w' ++ ')' :: rest)))
      = some (l, c :: (s' ++ (x :: w' ++ ')' :: rest))) :=
    read_token_append l c _ (fun c hc => (hl2 c hc).1) (terminator_of_isspace hc)
  have e2 : read_token (x :: w' ++ ')' :: rest) = some (x :: w', ')' :: rest) :=
    read_token_append (x :: w') ')' _ (fun c hc => (hw2 c hc).1) (by decide)
  have e3 : skip_space (s' ++ (x :: w' ++ ')' :: rest)) = x :: w' ++ ')' :: rest :=
    skip_space_append x _ (isspace_of_not_terminator (hw2 x (by simp)).1) s'
      (fun y hy => hs y (by simp [hy]))
  have hsp : isspace '(' = false := by decide
  simp only [Tree.render, Tree.terminals, Tree.rawLength, List.cons_append, List.append_assoc,
    List.singleton_append, List.nil_append] at e1 e2 e3 hcap ⊢
  simp only [scan, read_step, count_length, hsp, hc, e1, e2, e3]
  unfold MAX_LABEL_LEN at hl1 hw1 ⊢
  unfold MAX_WORD_LEN MAX_WORD_IN_SENT
  unfold MAX_WORD_IN_SENT at hcap
  cases hd : is_deletelabel cfg l <;> cases hdl : is_deletelabel_for_length cfg l <;>
    simp_all
  all_goals (split_ifs <;> first | rfl | omega)

theorem modify_append_cons (f : s_bracket → s_bracket) (l : List s_bracket) (o : s_bracket)
    (r : List s_bracket) : (l ++ o :: r).modify f l.length = l ++ f o :: r := by
  induction l with
  | nil => rfl
  | cons a l ih => simpa [List.modify_succ_cons] using ih

/-- The turn at the `(` of a node: after the label comes whitespace and the
`(` of the first child, or at once a parenthesis. -/
theorem scan_open (cfg : Config) (fuel : Nat) (l : Str) (hl : okToken l) (ws : Str)
    (hws : allSpace ws) (x : Char) (r : Str)
    (hx : x = '(' ∨ (x = ')' ∧ ws = []))
    (tm : List s_terminal) (br : List s_bracket) (st : List Nat) (len : Nat)
    (g : Globals) (hcap : br.length < MAX_BRACKET_IN_SENT) :
    scan cfg (fuel + 1) ⟨'(' :: (l ++ (ws ++ x :: r)), tm, br, st, len, g⟩
      = scan cfg fuel ⟨ws ++ x :: r, tm,
          br ++ [⟨(tm.length : Int), -1, l, 9⟩], br.length :: st, len, g⟩ := by
  obtain ⟨hl0, hl1, hl2⟩ := hl
  have hsp : isspace '(' = false := by decide
  have hsp1 : isspace ')' = false := by decide
  have n1 : ¬ (MAX_LABEL_LEN ≤ l.length) := by omega
  have n2 : ¬ (MAX_BRACKET_IN_SENT ≤ br.length) := by omega
  have hxs : isspace x = false := by
    rcases hx with e | ⟨e, _⟩ <;> subst e <;> decide
  have hxt : is_terminator x = true := by
    rcases hx with e | ⟨e, _⟩ <;> subst e <;> decide
  cases ws with
  | nil =>
    have e1 : read_token (l ++ x :: r) = some (l, x :: r) :=
      read_token_append l x _ (fun c hc => (hl2 c hc).1) hxt
    simp [scan, read_step, hsp, hxs, e1, n1, n2, open_bracket]
  | cons c cs =>
    have hc : isspace c = true := hws c (by simp)
    have hx' : x = '(' := by
      rcases hx with e | ⟨_, e⟩
      · exact e
      · simp at e
    subst hx'
    have e1 : read_token (l ++ c :: (cs ++ '(' :: r)) = some (l, c :: (cs ++ '(' :: r)) :=
      read_token_append l c _ (fun c hc => (hl2 c hc).1) (terminator_of_isspace hc)
    have e2 : read_token ('(' :: r) = some ([], '(' :: r) := by
      simp [read_token, is_terminator]
    have e3 : skip_space (cs ++ '(' :: r) = '(' :: r :=
      skip_space_append '(' r hsp cs (fun y hy => hws y (by simp [hy]))
    simp [scan, read_step, count_length, hsp, hc, e1, e2, e3, n1, n2, open_bracket, MAX_WORD_LEN]

theorem scan_close (cfg : Config) (fuel : Nat) (rest : Str) (tm : List s_terminal)
    (br : List s_bracket) (o : s_bracket) (kb : List s_bracket) (st : List Nat) (len : Nat)
    (g : Globals) :
    scan cfg (fuel + 1) ⟨')' :: rest, tm, br ++ o :: kb, br.length :: st, len, g⟩
      = scan cfg fuel ⟨rest, tm, br ++ { o with end_ := (tm.length : Int) } :: kb, st, len, g⟩ := by
  have hsp1 : isspace ')' = false := by decide
  simp [scan, read_step, popb_live, hsp1, modify_append_cons]

/-- What follows the label of a well-formed node: whitespace and the `(` of
the first child, or at once the closing `)`. -/
theorem after_label (ks : Forest) (c rest : Str) (hk : ks.WellFormed) (hc : ks = .nil → c = []) :
    ∃ ws x r, ks.render ++ (c ++ ')' :: rest) = ws ++ x :: r ∧ allSpace ws ∧
      (x = '(' ∨ (x = ')' ∧ ws = [])) := by
  cases ks with
  | nil =>
    refine ⟨[], ')', rest, ?_, by simp [allSpace], Or.inr ⟨rfl, rfl⟩⟩
    simp [Forest.render, hc rfl]
  | cons s t f =>
    obtain ⟨r0, hr⟩ := t.render_head
    refine ⟨s, '(', r0 ++ (f.render ++ (c ++ ')' :: rest)), ?_, hk.1, Or.inl rfl⟩
    simp [Forest.render, hr]

mutual

theorem tree_scan_eq (cfg : Config) : ∀ (t : Tree), t.WellFormed →
    ∀ (fuel : Nat) (rest : Str) (tm : List s_terminal) (br : List s_bracket) (st : List Nat)
      (len : Nat) (g : Globals),
    tm.length + (t.terminals cfg).length ≤ MAX_WORD_IN_SENT →
    br.length + (t.brackets cfg tm.length).length ≤ MAX_BRACKET_IN_SENT →
    scan cfg (fuel + t.turns) ⟨t.render ++ rest, tm, br, st, len, g⟩
      = scan cfg fuel ⟨rest, tm ++ t.terminals cfg, br ++ t.brackets cfg tm.length, st,
          len + t.rawLength cfg, g⟩
  | .pre l s w, hwf, fuel, rest, tm, br, st, len, g, hw, _ => by
    have h := scan_pre cfg fuel l s w hwf.1 hwf.2.1 hwf.2.2.1 hwf.2.2.2 rest tm br st len g hw
    simpa [Tree.turns, Tree.brackets] using h
  | .node l ks c, hwf, fuel, rest, tm, br, st, len, g, hw, hb => by
    simp only [Tree.terminals] at hw
    simp only [Tree.brackets, List.length_cons] at hb
    obtain ⟨ws, x, r, hX, hws, hx⟩ := after_label ks c rest hwf.2.1 hwf.2.2.2
    have h1 := scan_open cfg (fuel + 1 + c.length + ks.turns) l hwf.1 ws hws x r hx tm br st len g
      (by unfold MAX_BRACKET_IN_SENT at hb ⊢; omega)
    rw [← hX] at h1
    have h2 := forest_scan_eq cfg ks hwf.2.1 (fuel + 1 + c.length) (c ++ ')' :: rest) tm
      (br ++ [⟨(tm.length : Int), -1, l, 9⟩]) (br.length :: st) len g hw
      (by simp only [List.length_append, List.length_singleton]; omega)
    have h3 := scan_spaces cfg (')' :: rest) (tm ++ ks.terminals cfg)
      (br ++ [⟨(tm.length : Int), -1, l, 9⟩] ++ ks.brackets cfg tm.length) (br.length :: st)
      (len + ks.rawLength cfg) g c hwf.2.2.1 (fuel + 1)
    have h4 := scan_close cfg fuel rest (tm ++ ks.terminals cfg) br ⟨(tm.length : Int), -1, l, 9⟩
      (ks.brackets cfg tm.length) st (len + ks.rawLength cfg) g
    have e : fuel + (ks.turns + c.length + 2) = fuel + 1 + c.length + ks.turns + 1 := by omega
    simp only [Tree.turns, Tree.render, Tree.terminals, Tree.brackets, Tree.rawLength,
      List.cons_append, List.append_assoc, List.singleton_append, List.nil_append, e]
      at h1 h2 h3 h4 ⊢
    rw [h1, h2, h3, h4]
    simp

theorem forest_scan_eq (cfg : Config) : ∀ (f : Forest), f.WellFormed →
    ∀ (fuel : Nat) (rest : Str) (tm : List s_terminal) (br : List s_bracket) (st : List Nat)
      (len : Nat) (g : Globals),
    tm.length + (f.terminals cfg).length ≤ MAX_WORD_IN_SENT →
    br.length + (f.brackets cfg tm.length).length ≤ MAX_BRACKET_IN_SENT →
    scan cfg (fuel + f.turns) ⟨f.render ++ rest, tm, br, st, len, g⟩
      = scan cfg fuel ⟨rest, tm ++ f.terminals cfg, br ++ f.brackets cfg tm.length, st,
          len + f.rawLength cfg, g⟩
  | .nil, _, fuel, rest, tm, br, st, len, g, _, _ => by
    simp [Forest.turns, Forest.render, Forest.terminals, Forest.brackets, Forest.rawLength]
  | .cons s t f, hwf, fuel, rest, tm, br, st, len, g, hw, hb => by
    simp only [Forest.terminals, List.length_append] at hw
    simp only [Forest.brackets, List.length_append] at hb
    have h1 := scan_spaces cfg (t.render ++ (f.render ++ rest)) tm br st len g s hwf.1
      (fuel + f.turns + t.turns)
    have h2 := tree_scan_eq cfg t hwf.2.1 (fuel + f.turns) (f.render ++ rest) tm br st len g
      (by omega) (by omega)
    have h3 := forest_scan_eq cfg f hwf.2.2 fuel rest (tm ++ t.terminals cfg)
      (br ++ t.brackets cfg tm.length) st (len + t.rawLength cfg) g
      (by simp only [List.length_append]; omega)
      (by simp only [List.length_append]; omega)
    have e : fuel + (s.length + t.turns + f.turns) = fuel + f.turns + t.turns + s.length := by
      omega
    simp only [Forest.turns, Forest.render, Forest.terminals, Forest.brackets, Forest.rawLength,
      List.cons_append, List.append_assoc, List.nil_append, e, List.length_append] at h1 h2 h3 ⊢
    rw [h1, h2, h3]
    simp [Nat.add_assoc]
end

mutual

theorem tree_turns_le (t : Tree) : t.turns ≤ t.render.length := by
  cases t with
  | pre l s w => simp [Tree.turns, Tree.render]
  | node l ks c =>
    have := forest_turns_le ks
    simp [Tree.turns, Tree.render]
    omega

theorem forest_turns_le (f : Forest) : f.turns ≤ f.render.length := by
  cases f with
  | nil => simp [Forest.turns]
  | cons s t f =>
    have := tree_turns_le t
    have := forest_turns_le f
    simp [Forest.turns, Forest.render]
    omega
end

theorem scan_trailing (cfg : Config) (tm : List s_terminal) (br : List s_bracket) (len : Nat)
    (g : Globals) : ∀ (ws : Str), allSpace ws → ∀ (fuel : Nat),
    ws.length < fuel → scan cfg fuel ⟨ws, tm, br, [], len, g⟩ = .done ⟨len, tm, br, g⟩
  | [], _, fuel, hf => by
    obtain ⟨n, rfl⟩ : ∃ n, fuel = n + 1 := ⟨fuel - 1, by simp at hf; omega⟩
    simp [scan]
  | c :: cs, hws, fuel, hf => by
    obtain ⟨n, rfl⟩ : ∃ n, fuel = n + 1 := ⟨fuel - 1, by simp at hf; omega⟩
    rw [scan_space cfg n c (hws c (by simp))]
    exact scan_trailing cfg tm br len g cs (fun x hx => hws x (by simp [hx])) n
      (by simp at hf; omega)

theorem read_line_render (cfg : Config) (g : Globals) (t : Tree) (ws0 ws : Str)
    (hwf : t.WellFormed)
    (hw : (t.terminals cfg).length ≤ MAX_WORD_IN_SENT)
    (hb : (t.brackets cfg 0).length ≤ MAX_BRACKET_IN_SENT)
    (hws0 : allSpace ws0) (hws : allSpace ws) :
    read_line cfg g (ws0 ++ (t.render ++ ws))
      = .done ⟨t.rawLength cfg, t.terminals cfg, t.brackets cfg 0, g⟩ := by
  have hle := tree_turns_le t
  have h0 := scan_spaces cfg (t.render ++ ws) [] [] [] 0 g ws0 hws0
    (ws.length + (cfg.Max_error + 2 - (g.Error_count : Int)).toNat + 1
      + (t.render.length - t.turns) + t.turns)
  have h := tree_scan_eq cfg t hwf
    (ws.length + (cfg.Max_error + 2 - (g.Error_count : Int)).toNat + 1 + (t.render.length - t.turns))
    ws [] [] [] 0 g (by simpa using hw) (by simpa using hb)
  have e : read_fuel cfg g (ws0 ++ (t.render ++ ws))
      = ws.length + (cfg.Max_error + 2 - (g.Error_count : Int)).toNat + 1
        + (t.render.length - t.turns) + t.turns + ws0.length := by
    simp only [read_fuel, List.length_append]
    omega
  unfold read_line
  rw [e, h0, h]
  simpa using scan_trailing cfg (t.terminals cfg) (t.brackets cfg 0) (t.rawLength cfg) g ws hws _
    (by omega)

/-- C1. For a well-formed tree within the capacities of the arrays, written in
bracket notation with any whitespace where the notation allows it, before
and after the line included (the newline that `fgets` keeps), and for every
delete-label set, `read_line` reports no error (the globals come back
unchanged) and returns the kept leaves left to right, the nodes in the order
of their opening parenthesis with `start` = kept leaves to the left and
`end` = `start` + kept leaves beneath, and the length that counts the
pre-terminals not deleted for length. -/
theorem read_line_wellformed (cfg : Config) (g : Globals) (t : Tree) (ws0 ws : Str)
    (hwf : t.WellFormed)
    (hw : (t.terminals cfg).length ≤ MAX_WORD_IN_SENT)
    (hb : (t.brackets cfg 0).length ≤ MAX_BRACKET_IN_SENT)
    (hws0 : allSpace ws0) (hws : allSpace ws) :
    read_line cfg g (ws0 ++ (t.render ++ ws))
      = .done ⟨t.rawLength cfg, t.terminals cfg, t.brackets cfg 0, g⟩ :=
  read_line_render cfg g t ws0 ws hwf hw hb hws0 hws

/-- C1, the line of the header comment: five terminals and the brackets
`(0,5,S) (0,1,NP) (1,4,VP) (2,4,NP)`. -/
theorem read_line_example1 :
    example1.WellFormed ∧
    example1.render = "(S (NP (NNX this)) (VP (VBX is) (NP (DT a) (NNX pen))) (SYM .))".data ∧
    read_line ⟨10, 40, 1, [], [], [], []⟩ ⟨0, 0⟩
        "(S (NP (NNX this)) (VP (VBX is) (NP (DT a) (NNX pen))) (SYM .))".data
      = .done ⟨5,
          [⟨"this".data, "NNX".data, 9⟩, ⟨"is".data, "VBX".data, 9⟩, ⟨"a".data, "DT".data, 9⟩,
           ⟨"pen".data, "NNX".data, 9⟩, ⟨".".data, "SYM".data, 9⟩],
          [⟨0, 5, "S".data, 9⟩, ⟨0, 1, "NP".data, 9⟩, ⟨1, 4, "VP".data, 9⟩,
           ⟨2, 4, "NP".data, 9⟩],
          ⟨0, 0⟩⟩ := by
  have hwf : example1.WellFormed := by
    simp [example1, Tree.WellFormed, Forest.WellFormed, okToken, allSpace, MAX_LABEL_LEN]
    decide
  refine ⟨hwf, by decide, ?_⟩
  have h := read_line_wellformed ⟨10, 40, 1, [], [], [], []⟩ ⟨0, 0⟩ example1 [] [] hwf
    (by decide) (by decide) (by simp [allSpace]) (by simp [allSpace])
  simpa using h

/-- Matching turns a `result` of 0 into 1 and nothing else. -/
theorem match_inner_count0 (cfg : Config) (b1 : s_bracket) :
    ∀ (l l' : List s_bracket), match_inner cfg b1 l = some l' →
      l'.countP (fun b => b.result == 0) + 1 = l.countP (fun b => b.result == 0)
  | [], l', h => by simp [match_inner] at h
  | b2 :: rest, l', h => by
    unfold match_inner at h
    split at h
    · rename_i hc
      injection h with h
      subst h
      have h0 : b2.result = 0 := by
        simp [match_cond] at hc
        exact hc.1.1.1.2
      simp [List.countP_cons, h0]
    · split at h
      · simp at h
      · rename_i rest' hr
        injection h with h
        subst h
        have ih := match_inner_count0 cfg b1 rest rest' hr
        simp only [List.countP_cons]
        omega

theorem match_inner_gold (cfg : Config) (b1 : s_bracket) :
    ∀ (l l' : List s_bracket), match_inner cfg b1 l = some l' → b1.result ≠ 5
  | [], l', h => by simp [match_inner] at h
  | b2 :: rest, l', h => by
    unfold match_inner at h
    split at h
    · rename_i hc
      simp [match_cond] at hc
      exact hc.1.1.1.1
    · split at h
      · simp at h
      · rename_i rest' hr
        exact match_inner_gold cfg b1 rest rest' hr

theorem match_loop_le (cfg : Config) : ∀ (l1 l2 : List s_bracket),
    (match_loop cfg l1 l2).match_ ≤ count_real l1 ∧
    (match_loop cfg l1 l2).match_ + (match_loop cfg l1 l2).bracket2.countP (fun b => b.result == 0)
      = l2.countP (fun b => b.result == 0)
  | [], l2 => by simp [match_loop]
  | b1 :: rest, l2 => by
    unfold match_loop
    cases h : match_inner cfg b1 l2 with
    | none =>
      have ih := match_loop_le cfg rest l2
      simp only [count_real, List.countP_cons] at ih ⊢
      exact ⟨by omega, ih.2⟩
    | some l2' =>
      have ih := match_loop_le cfg rest l2'
      have h0 := match_inner_count0 cfg b1 l2 l2' h
      have h5 := match_inner_gold cfg b1 l2 l2' h
      simp only [count_real, List.countP_cons] at ih ⊢
      have : (b1.result != 5) = true := by simpa using h5
      simp only [this, if_true]
      exact ⟨by omega, by omega⟩

theorem delete_loop_eq (cfg : Config) (label : Str) : ∀ (ds : List Str) (r : Nat),
    delete_loop cfg label ds r = if ds.any (fun d => label_comp cfg label d) then 5 else r
  | [], r => by simp [delete_loop]
  | d :: ds, r => by
    rw [delete_loop, delete_loop_eq cfg label ds]
    cases h1 : label_comp cfg label d <;> cases h2 : ds.any (fun d => label_comp cfg label d) <;>
      simp [h1, h2]

theorem massage_bracket_result (cfg : Config) (b : s_bracket) :
    (massage_bracket cfg b).result = 0 ∨ (massage_bracket cfg b).result = 5 := by
  unfold massage_bracket
  split
  · right; rfl
  · simp only [delete_loop_eq]
    split
    · right; rfl
    · left; rfl

theorem massage_bracket_start (cfg : Config) (b : s_bracket) :
    (massage_bracket cfg b).start = b.start := by
  unfold massage_bracket; split <;> rfl

theorem massage_bracket_end (cfg : Config) (b : s_bracket) :
    (massage_bracket cfg b).end_ = b.end_ := by
  unfold massage_bracket; split <;> rfl

/-- After `massage_data` the brackets that are not deleted are those with
`result == 0`. -/
theorem countP_zero_massaged (cfg : Config) (l : List s_bracket) :
    (l.map (massage_bracket cfg)).countP (fun b => b.result == 0)
      = count_real (l.map (massage_bracket cfg)) := by
  unfold count_real
  induction l with
  | nil => rfl
  | cons b rest ih =>
    simp only [List.map_cons, List.countP_cons, ih]
    rcases massage_bracket_result cfg b with h | h <;> simp [h]

/-- The report of `calc_result` when it reaches the scoring: either the
sentence is a skip or an error and the report carries zeros, or the report
carries the values of the loops. -/
theorem calc_result_report (cfg : Config) (g : Globals) (tot : Totals × Totals) (r_wn1 : Nat)
    (t1 t2 : List s_terminal) (b1 b2 : List s_bracket) (r : Scored)
    (h : calc_result cfg g tot r_wn1 t1 t2 b1 b2 = .done r) :
    (r.report.Status ≠ 0 ∧ r.report.match_ = 0 ∧ r.report.r_bn1 = 0 ∧ r.report.r_bn2 = 0 ∧
      r.report.crossing = 0 ∧ r.report.correct_tag = 0 ∧ r.report.wn1 = 0) ∨
    (r.report.Status = g.Status ∧ t2 ≠ [] ∧ t1.length = t2.length ∧
      words_unmatch cfg t1 t2 = false ∧
      r.report.r_bn1 = (massage_data cfg b1 b2).r_bn1 ∧
      r.report.r_bn2 = (massage_data cfg b1 b2).r_bn2 ∧
      r.report.match_ = (match_loop cfg (massage_data cfg b1 b2).bracket1
        (massage_data cfg b1 b2).bracket2).match_ ∧
      r.report.crossing = cross_loop
        (match_loop cfg (massage_data cfg b1 b2).bracket1 (massage_data cfg b1 b2).bracket2).bracket1
        (match_loop cfg (massage_data cfg b1 b2).bracket1 (massage_data cfg b1 b2).bracket2).bracket2 ∧
      r.report.correct_tag = (tag_loop cfg t1 t2).correct_tag ∧
      r.report.wn1 = t1.length ∧
      r.report.recall_pct = percent r.report.match_ r.report.r_bn1 ∧
      r.report.precision_pct = percent r.report.match_ r.report.r_bn2) := by
  unfold calc_result at h
  split at h
  · injection h with h; subst h
    left; simp [individual_result]
  · split at h
    · unfold Error at h
      split at h
      · simp at h
      · rename_i g' hg
        injection h with h; subst h
        injection hg with hg1 hg2
        subst hg1
        left; simp [individual_result]
    · split at h
      · unfold Error at h
        split at h
        · simp at h
        · rename_i g' hg
          injection h with h; subst h
          injection hg with hg1 hg2
          subst hg1
          left; simp [individual_result]
      · rename_i h1 h2 h3
        injection h with h; subst h
        right
        refine ⟨rfl, ?_, ?_, ?_, rfl, rfl, rfl, rfl, rfl, rfl, rfl, rfl⟩
        · intro e; simp [e] at h1
        · simpa using h2
        · simpa using h3

/-- C2. After `massage_data`, the match count of the matching loops of
`calc_result` is at most `r_bn1` and at most `r_bn2`, for all bracket lists
and every configuration; so it is in every line that `calc_result` reports. -/
theorem match_le_real (cfg : Config) (g : Globals) (tot : Totals × Totals) (r_wn1 : Nat)
    (t1 t2 : List s_terminal) (b1 b2 : List s_bracket) :
    (match_loop cfg (massage_data cfg b1 b2).bracket1 (massage_data cfg b1 b2).bracket2).match_
      ≤ (massage_data cfg b1 b2).r_bn1 ∧
    (match_loop cfg (massage_data cfg b1 b2).bracket1 (massage_data cfg b1 b2).bracket2).match_
      ≤ (massage_data cfg b1 b2).r_bn2 ∧
    ∀ r, calc_result cfg g tot r_wn1 t1 t2 b1 b2 = .done r →
      r.report.match_ ≤ r.report.r_bn1 ∧ r.report.match_ ≤ r.report.r_bn2 := by
  have h := match_loop_le cfg (massage_data cfg b1 b2).bracket1 (massage_data cfg b1 b2).bracket2
  have h0 := countP_zero_massaged cfg b2
  have e1 : (massage_data cfg b1 b2).r_bn1 = count_real (massage_data cfg b1 b2).bracket1 := rfl
  have e2 : (massage_data cfg b1 b2).r_bn2 = count_real (massage_data cfg b1 b2).bracket2 := rfl
  have e3 : (massage_data cfg b1 b2).bracket2 = b2.map (massage_bracket cfg) := rfl
  rw [e3] at h
  rw [h0] at h
  rw [← e3] at h
  have a1 : (match_loop cfg (massage_data cfg b1 b2).bracket1
      (massage_data cfg b1 b2).bracket2).match_ ≤ (massage_data cfg b1 b2).r_bn1 := by
    rw [e1]; exact h.1
  have a2 : (match_loop cfg (massage_data cfg b1 b2).bracket1
      (massage_data cfg b1 b2).bracket2).match_ ≤ (massage_data cfg b1 b2).r_bn2 := by
    rw [e2]; omega
  refine ⟨a1, a2, ?_⟩
  intro r hr
  rcases calc_result_report cfg g tot r_wn1 t1 t2 b1 b2 r hr with hz | hv
  · omega
  · obtain ⟨_, _, _, _, h1, h2, h3, _⟩ := hv
    rw [h1, h2, h3]
    exact ⟨a1, a2⟩

theorem cross_cond_iff (g t : s_bracket) :
    cross_cond g t = true ↔ g.result ≠ 5 ∧ t.result ≠ 5 ∧ Crosses g t := by
  simp only [cross_cond, Crosses, Bool.and_eq_true, Bool.or_eq_true, decide_eq_true_eq, bne_iff_ne,
    ne_eq, gt_iff_lt]
  constructor
  · rintro ⟨⟨h1, h2⟩, h3⟩
    exact ⟨h1, h2, by omega⟩
  · rintro ⟨h1, h2, h3⟩
    exact ⟨⟨h1, h2⟩, by omega⟩

theorem cross_inner_iff (t : s_bracket) : ∀ (l : List s_bracket),
    cross_inner t l = true ↔ CrossesSome l t
  | [] => by simp [cross_inner, CrossesSome]
  | g :: rest => by
    have ih := cross_inner_iff t rest
    unfold cross_inner
    by_cases hc : cross_cond g t = true
    · simp only [hc, if_true, true_iff]
      have := (cross_cond_iff g t).1 hc
      exact ⟨this.2.1, g, by simp, this.1, this.2.2⟩
    · simp only [hc, if_false, Bool.false_eq_true]
      rw [ih]
      unfold CrossesSome
      constructor
      · rintro ⟨h1, g', hg', h2⟩
        exact ⟨h1, g', by simp [hg'], h2⟩
      · rintro ⟨h1, g', hg', h2⟩
        refine ⟨h1, g', ?_, h2⟩
        rcases List.mem_cons.1 hg' with e | e
        · subst e
          exact absurd ((cross_cond_iff g' t).2 ⟨h2.1, h1, h2.2⟩) hc
        · exact e

theorem cross_loop_eq (l1 : List s_bracket) : ∀ (l2 : List s_bracket),
    cross_loop l1 l2 = (l2.filter (fun t => decide (CrossesSome l1 t))).length
  | [] => rfl
  | t :: rest => by
    have ih := cross_loop_eq l1 rest
    unfold cross_loop
    rw [ih, List.filter_cons]
    by_cases h : CrossesSome l1 t
    · have h' := (cross_inner_iff t l1).2 h
      simp [h, h']
      omega
    · have h' : cross_inner t l1 = false := by
        cases e : cross_inner t l1
        · rfl
        · exact absurd ((cross_inner_iff t l1).1 e) h
      simp [h, h']

/-- `CrossesSome` reads only the spans and the deleted flags. -/
theorem crossesSome_congr {l1 l1' : List s_bracket} {t t' : s_bracket}
    (h1 : l1.map span_del = l1'.map span_del) (h2 : span_del t = span_del t') :
    CrossesSome l1 t → CrossesSome l1' t' := by
  rintro ⟨ht, g, hg, hg5, hc⟩
  have ht' : t.start = t'.start ∧ t.end_ = t'.end_ ∧ (t.result == 5) = (t'.result == 5) := by
    simpa [span_del] using h2
  have hm : span_del g ∈ l1'.map span_del := h1 ▸ List.mem_map_of_mem span_del hg
  obtain ⟨g', hg', e⟩ := List.mem_map.1 hm
  have hg2 : g'.start = g.start ∧ g'.end_ = g.end_ ∧ (g'.result == 5) = (g.result == 5) := by
    simpa [span_del] using e
  refine ⟨?_, g', hg', ?_, ?_⟩
  · intro e5
    have : (t.result == 5) = true := by rw [ht'.2.2]; simp [e5]
    exact ht (by simpa using this)
  · intro e5
    have : (g.result == 5) = true := by rw [← hg2.2.2]; simp [e5]
    exact hg5 (by simpa using this)
  · unfold Crosses at hc ⊢
    rw [hg2.1, hg2.2.1, ← ht'.1, ← ht'.2.1]
    exact hc

theorem cross_loop_congr : ∀ (l1 l1' l2 l2' : List s_bracket),
    l1.map span_del = l1'.map span_del → l2.map span_del = l2'.map span_del →
    cross_loop l1 l2 = cross_loop l1' l2'
  | l1, l1', [], [], _, _ => rfl
  | l1, l1', [], _ :: _, _, h => by simp at h
  | l1, l1', _ :: _, [], _, h => by simp at h
  | l1, l1', t :: rest, t' :: rest', h1, h2 => by
    simp only [List.map_cons, List.cons.injEq] at h2
    have ih := cross_loop_congr l1 l1' rest rest' h1 h2.2
    have e : cross_inner t l1 = cross_inner t' l1' := by
      apply Bool.eq_iff_iff.2
      rw [cross_inner_iff, cross_inner_iff]
      exact ⟨crossesSome_congr h1 h2.1, crossesSome_congr h1.symm h2.1.symm⟩
    unfold cross_loop
    rw [ih, e]

theorem match_inner_span_del (cfg : Config) (b1 : s_bracket) :
    ∀ (l l' : List s_bracket), match_inner cfg b1 l = some l' →
      l'.map span_del = l.map span_del
  | [], l', h => by simp [match_inner] at h
  | b2 :: rest, l', h => by
    unfold match_inner at h
    split at h
    · rename_i hc
      injection h with h
      subst h
      have h0 : b2.result = 0 := by
        simp [match_cond] at hc
        exact hc.1.1.1.2
      simp [span_del, h0]
    · split at h
      · simp at h
      · rename_i rest' hr
        injection h with h
        subst h
        simp [match_inner_span_del cfg b1 rest rest' hr]

theorem match_loop_span_del (cfg : Config) : ∀ (l1 l2 : List s_bracket),
    (match_loop cfg l1 l2).bracket1.map span_del = l1.map span_del ∧
    (match_loop cfg l1 l2).bracket2.map span_del = l2.map span_del
  | [], l2 => by simp [match_loop]
  | b1 :: rest, l2 => by
    unfold match_loop
    cases h : match_inner cfg b1 l2 with
    | none =>
      have ih := match_loop_span_del cfg rest l2
      simp [ih.1, ih.2]
    | some l2' =>
      have ih := match_loop_span_del cfg rest l2'
      have h5 := match_inner_gold cfg b1 l2 l2' h
      have hs := match_inner_span_del cfg b1 l2 l2' h
      simp [ih.1, ih.2, hs, span_del, h5]

theorem crossesSome_perm {l1 l1' : List s_bracket} (h : l1.Perm l1') (t : s_bracket) :
    CrossesSome l1 t ↔ CrossesSome l1' t := by
  unfold CrossesSome
  constructor
  · rintro ⟨h1, g, hg, h2⟩
    exact ⟨h1, g, h.mem_iff.1 hg, h2⟩
  · rintro ⟨h1, g, hg, h2⟩
    exact ⟨h1, g, h.mem_iff.2 hg, h2⟩

theorem cross_after_match (cfg : Config) (l1 l2 : List s_bracket) :
    cross_loop (match_loop cfg l1 l2).bracket1 (match_loop cfg l1 l2).bracket2
      = (l2.filter (fun t => decide (CrossesSome l1 t))).length := by
  rw [← cross_loop_eq]
  exact cross_loop_congr _ _ _ _ (match_loop_span_del cfg l1 l2).1 (match_loop_span_del cfg l1 l2).2

/-- C5. Whatever `massage_data` left in the two arrays, the crossing count
that `calc_result` computes (after its matching loops) is the number of test
brackets that are not deleted and cross some gold bracket that is not deleted,
each counted once; it is at most the number of test brackets that are not
deleted (`r_bn2`) and does not change when either array is reordered. -/
theorem crossing_count_spec (cfg : Config) (l1 l2 : List s_bracket) :
    cross_loop (match_loop cfg l1 l2).bracket1 (match_loop cfg l1 l2).bracket2
      = (l2.filter (fun t => decide (CrossesSome l1 t))).length ∧
    cross_loop (match_loop cfg l1 l2).bracket1 (match_loop cfg l1 l2).bracket2 ≤ count_real l2 ∧
    ∀ l1' l2', l1.Perm l1' → l2.Perm l2' →
      cross_loop (match_loop cfg l1' l2').bracket1 (match_loop cfg l1' l2').bracket2
        = cross_loop (match_loop cfg l1 l2).bracket1 (match_loop cfg l1 l2).bracket2 := by
  refine ⟨cross_after_match cfg l1 l2, ?_, ?_⟩
  · rw [cross_after_match, count_real, List.countP_eq_length_filter]
    apply List.Sublist.length_le
    apply List.monotone_filter_right
    intro t ht
    have : CrossesSome l1 t := by simpa using ht
    simpa using this.1
  · intro l1' l2' h1 h2
    rw [cross_after_match, cross_after_match]
    have e : (fun t => decide (CrossesSome l1' t)) = (fun t => decide (CrossesSome l1 t)) := by
      funext t
      exact decide_eq_decide.2 (crossesSome_perm h1 t).symm
    rw [e]
    exact (h2.symm.filter _).length_eq

theorem map_span_del_massage (cfg : Config) (l l' : List s_bracket)
    (h : List.Forall₂ (SameSpanDel cfg) l l') :
    (l.map (massage_bracket cfg)).map span_del = (l'.map (massage_bracket cfg)).map span_del := by
  induction h with
  | nil => rfl
  | cons hab _ ih =>
    simp only [List.map_cons, ih, List.cons.injEq, and_true]
    obtain ⟨h1, h2, h3⟩ := hab
    simp [span_del, massage_bracket_start, massage_bracket_end, h1, h2, h3]

/-- C6, amended. Replacing labels of gold and test brackets while every start
and end stays and while `massage_data` marks the same brackets deleted as
before does not change the crossing count that `calc_result` computes after
`massage_data`. -/
theorem crossing_relabel (cfg : Config) (b1 b1' b2 b2' : List s_bracket)
    (h1 : List.Forall₂ (SameSpanDel cfg) b1 b1')
    (h2 : List.Forall₂ (SameSpanDel cfg) b2 b2') :
    crossing_of cfg b1' b2' = crossing_of cfg b1 b2 := by
  unfold crossing_of
  apply cross_loop_congr
  · rw [(match_loop_span_del cfg _ _).1, (match_loop_span_del cfg _ _).1]
    exact (map_span_del_massage cfg b1 b1' h1).symm
  · rw [(match_loop_span_del cfg _ _).2, (match_loop_span_del cfg _ _).2]
    exact (map_span_del_massage cfg b2 b2' h2).symm

/-- C6 as stated fails: with the delete label `X`, the gold bracket `(0,2)`
crosses the test bracket `(1,3)` under the label `A` and is deleted, so that
nothing crosses, under the label `X`. -/
theorem crossing_relabel_counterexample :
    List.Forall₂ SameSpan [⟨0, 3, ['S'], 9⟩, ⟨0, 2, ['A'], 9⟩] [⟨0, 3, ['S'], 9⟩, ⟨0, 2, ['X'], 9⟩] ∧
    crossing_of ⟨10, 40, 1, [['X']], [], [], []⟩
      [⟨0, 3, ['S'], 9⟩, ⟨0, 2, ['A'], 9⟩] [⟨0, 3, ['S'], 9⟩, ⟨1, 3, ['B'], 9⟩] = 1 ∧
    crossing_of ⟨10, 40, 1, [['X']], [], [], []⟩
      [⟨0, 3, ['S'], 9⟩, ⟨0, 2, ['X'], 9⟩] [⟨0, 3, ['S'], 9⟩, ⟨1, 3, ['B'], 9⟩] = 0 := by
  refine ⟨?_, by decide, by decide⟩
  exact .cons ⟨rfl, rfl⟩ (.cons ⟨rfl, rfl⟩ .nil)

theorem crossing_relabel_witness :
    List.Forall₂ (SameSpanDel ⟨10, 40, 1, [['X']], [], [], []⟩)
      [⟨0, 3, ['S'], 9⟩, ⟨0, 2, ['A'], 9⟩] [⟨0, 3, ['T'], 9⟩, ⟨0, 2, ['C'], 9⟩] ∧
    crossing_of ⟨10, 40, 1, [['X']], [], [], []⟩
        [⟨0, 3, ['T'], 9⟩, ⟨0, 2, ['C'], 9⟩] [⟨0, 3, ['S'], 9⟩, ⟨1, 3, ['B'], 9⟩]
      = crossing_of ⟨10, 40, 1, [['X']], [], [], []⟩
        [⟨0, 3, ['S'], 9⟩, ⟨0, 2, ['A'], 9⟩] [⟨0, 3, ['S'], 9⟩, ⟨1, 3, ['B'], 9⟩] :=
  have h1 : List.Forall₂ (SameSpanDel ⟨10, 40, 1, [['X']], [], [], []⟩)
      [⟨0, 3, ['S'], 9⟩, ⟨0, 2, ['A'], 9⟩] [⟨0, 3, ['T'], 9⟩, ⟨0, 2, ['C'], 9⟩] :=
    .cons ⟨rfl, rfl, by decide⟩ (.cons ⟨rfl, rfl, by decide⟩ .nil)
  have h2 : List.Forall₂ (SameSpanDel ⟨10, 40, 1, [['X']], [], [], []⟩)
      [⟨0, 3, ['S'], 9⟩, ⟨1, 3, ['B'], 9⟩] [⟨0, 3, ['S'], 9⟩, ⟨1, 3, ['B'], 9⟩] :=
    .cons ⟨rfl, rfl, rfl⟩ (.cons ⟨rfl, rfl, rfl⟩ .nil)
  ⟨h1, crossing_relabel _ _ _ _ _ h1 h2⟩

theorem equiv_comp_nil (s1 s2 : Str) : equiv_comp [] s1 s2 = (s1 == s2) := by
  unfold equiv_comp
  cases h : s1 == s2 <;> simp

theorem massage_bracket_deleted_iff (cfg : Config) (b : s_bracket) :
    (massage_bracket cfg b).result = 5 ↔
      (b.start = b.end_ ∨ ∃ d ∈ cfg.Delete_label, label_comp cfg (modify_label b.label) d = true) := by
  unfold massage_bracket
  by_cases h : b.start = b.end_
  · simp [h]
  · have h' : (b.start == b.end_) = false := by simpa using h
    simp only [h', Bool.false_eq_true, if_false, delete_loop_eq, h, false_or]
    by_cases hd : (cfg.Delete_label.any fun d => label_comp cfg (modify_label b.label) d) = true
    · simp only [hd, if_true, true_iff]
      simpa using hd
    · simp only [hd, if_false, Bool.false_eq_true]
      constructor
      · intro e; simp at e
      · intro e
        exact absurd (by simpa using e) hd

theorem count_real_eq (l : List s_bracket) :
    count_real l = (l.filter (fun b => decide (b.result ≠ 5))).length := by
  have e : (fun b : s_bracket => b.result != 5) = (fun b => decide (b.result ≠ 5)) := by
    funext b
    by_cases h : b.result = 5 <;> simp [h]
  rw [count_real, List.countP_eq_length_filter, e]

/-- C7, amended. After `massage_data` a bracket is Deleted (5) if and only if
`start == end` or `label_comp` accepts its normalized label and some delete
label (the two are identical or paired in the label registry), and it is
Unmatched (0) otherwise; with an empty registry this is membership of the
normalized label in the delete-label set. `r_bn1` and `r_bn2` are the numbers
of gold and test brackets that are not Deleted. -/
theorem massage_data_spec (cfg : Config) (b1 b2 : List s_bracket) :
    (massage_data cfg b1 b2).bracket1 = b1.map (massage_bracket cfg) ∧
    (massage_data cfg b1 b2).bracket2 = b2.map (massage_bracket cfg) ∧
    (∀ b : s_bracket,
      ((massage_bracket cfg b).result = 5 ↔
        (b.start = b.end_ ∨
          ∃ d ∈ cfg.Delete_label, label_comp cfg (modify_label b.label) d = true)) ∧
      ((massage_bracket cfg b).result ≠ 5 → (massage_bracket cfg b).result = 0) ∧
      (cfg.EQ_label = [] →
        ((massage_bracket cfg b).result = 5 ↔
          (b.start = b.end_ ∨ modify_label b.label ∈ cfg.Delete_label)))) ∧
    (massage_data cfg b1 b2).r_bn1
      = ((massage_data cfg b1 b2).bracket1.filter (fun b => decide (b.result ≠ 5))).length ∧
    (massage_data cfg b1 b2).r_bn2
      = ((massage_data cfg b1 b2).bracket2.filter (fun b => decide (b.result ≠ 5))).length := by
  refine ⟨rfl, rfl, ?_, ?_, ?_⟩
  · intro b
    refine ⟨massage_bracket_deleted_iff cfg b, ?_, ?_⟩
    · intro h
      rcases massage_bracket_result cfg b with h0 | h5
      · exact h0
      · exact absurd h5 h
    · intro he
      rw [massage_bracket_deleted_iff]
      simp [label_comp, he, equiv_comp_nil]
  · exact count_real_eq _
  · exact count_real_eq _

/-- C7 as stated fails with a non-empty registry: with the pair `X`, `Y`
registered and the delete label `Y`, the bracket `(0,1,X)` read from the line
`(X (N a))` is marked Deleted although `0 != 1` and `X` is no delete label. -/
theorem massage_data_counterexample :
    read_line ⟨10, 40, 1, [['Y']], [], [(['X'], ['Y'])], []⟩ ⟨0, 0⟩ "(X (N a))".data
      = .done ⟨1, [⟨['a'], ['N'], 9⟩], [⟨0, 1, ['X'], 9⟩], ⟨0, 0⟩⟩ ∧
    (massage_data ⟨10, 40, 1, [['Y']], [], [(['X'], ['Y'])], []⟩
      [⟨0, 1, ['X'], 9⟩] [⟨0, 1, ['X'], 9⟩]).bracket1 = [⟨0, 1, ['X'], 5⟩] ∧
    ¬ ((0 : Int) = 1 ∨ modify_label ['X'] ∈ [['Y']]) := by
  refine ⟨by decide, by decide, by decide⟩

theorem equiv_comp_self (tbl : List (Str × Str)) (s : Str) : equiv_comp tbl s s = true := by
  simp [equiv_comp]

theorem match_inner_deleted (cfg : Config) (b1 : s_bracket) (h : b1.result = 5) :
    ∀ (l : List s_bracket), match_inner cfg b1 l = none
  | [] => rfl
  | b2 :: rest => by
    have ih := match_inner_deleted cfg b1 h rest
    simp [match_inner, match_cond, h, ih]

theorem match_inner_self (cfg : Config) (b : s_bracket) (hb : b.result = 0)
    (rest : List s_bracket) : ∀ (pre : List s_bracket), (∀ x ∈ pre, x.result ≠ 0) →
    match_inner cfg b (pre ++ b :: rest) = some (pre ++ { b with result := 1 } :: rest)
  | [], _ => by
    simp [match_inner, match_cond, hb, label_comp, equiv_comp_self]
  | x :: pre, h => by
    have ih := match_inner_self cfg b hb rest pre (fun y hy => h y (by simp [hy]))
    have hx : x.result ≠ 0 := h x (by simp)
    simp [match_inner, match_cond, hx, ih]

theorem match_loop_self (cfg : Config) : ∀ (l pre : List s_bracket),
    (∀ x ∈ pre, x.result ≠ 0) → (∀ b ∈ l, b.result = 0 ∨ b.result = 5) →
    (match_loop cfg l (pre ++ l)).match_ = count_real l
  | [], pre, _, _ => by simp [match_loop, count_real]
  | b :: rest, pre, hp, hl => by
    have hrest : ∀ x ∈ rest, x.result = 0 ∨ x.result = 5 := fun x hx => hl x (by simp [hx])
    unfold match_loop
    rcases hl b (by simp) with h0 | h5
    · rw [match_inner_self cfg b h0 rest pre hp]
      have ih := match_loop_self cfg rest (pre ++ [{ b with result := 1 }])
        (by
          intro x hx
          rcases List.mem_append.1 hx with h | h
          · exact hp x h
          · simp at h; subst h; simp)
        hrest
      simp only [List.append_assoc, List.singleton_append] at ih
      simp [ih, count_real, List.countP_cons, h0]
    · rw [match_inner_deleted cfg b h5]
      have ih := match_loop_self cfg rest (pre ++ [b])
        (by
          intro x hx
          rcases List.mem_append.1 hx with h | h
          · exact hp x h
          · simp at h; subst h; simp [h5])
        hrest
      simp only [List.append_assoc, List.singleton_append] at ih
      simp [ih, count_real, List.countP_cons, h5]

theorem tag_loop_self (cfg : Config) : ∀ (l : List s_terminal),
    (tag_loop cfg l l).correct_tag = l.length
  | [] => rfl
  | t :: rest => by
    have ih := tag_loop_self cfg rest
    simp [tag_loop, label_comp, equiv_comp_self, ih]

theorem words_unmatch_self (cfg : Config) : ∀ (l : List s_terminal),
    words_unmatch cfg l l = false
  | [] => rfl
  | t :: rest => by
    have ih := words_unmatch_self cfg rest
    simp [words_unmatch, word_comp, equiv_comp_self, ih]

/-- The brackets of a list lie between `lo` and `hi`. -/
theorem inside_append {lo hi lo' hi' : Int} {l l' : List s_bracket}
    (h : ∀ b ∈ l, lo ≤ b.start ∧ b.start ≤ b.end_ ∧ b.end_ ≤ hi)
    (h' : ∀ b ∈ l', lo' ≤ b.start ∧ b.start ≤ b.end_ ∧ b.end_ ≤ hi')
    (h1 : lo ≤ lo') (h2 : hi ≤ hi') :
    ∀ b ∈ l ++ l', lo ≤ b.start ∧ b.start ≤ b.end_ ∧ b.end_ ≤ hi' := by
  intro b hb
  rcases List.mem_append.1 hb with hb | hb
  · have := h b hb; omega
  · have := h' b hb; omega

mutual

theorem tree_brackets_inside (cfg : Config) : ∀ (t : Tree) (off : Nat),
    ∀ b ∈ t.brackets cfg off, (off : Int) ≤ b.start ∧ b.start ≤ b.end_ ∧
      b.end_ ≤ ((off + (t.terminals cfg).length : Nat) : Int)
  | .pre l s w, off => by simp [Tree.brackets]
  | .node l ks c, off => by
    intro b hb
    simp only [Tree.brackets, List.mem_cons] at hb
    rcases hb with e | hb
    · subst e
      simp only [Tree.terminals]
      push_cast
      omega
    · exact forest_brackets_inside cfg ks off b hb

theorem forest_brackets_inside (cfg : Config) : ∀ (f : Forest) (off : Nat),
    ∀ b ∈ f.brackets cfg off, (off : Int) ≤ b.start ∧ b.start ≤ b.end_ ∧
      b.end_ ≤ ((off + (f.terminals cfg).length : Nat) : Int)
  | .nil, off => by simp [Forest.brackets]
  | .cons s t f, off => by
    simp only [Forest.brackets, Forest.terminals, List.length_append]
    have h1 := tree_brackets_inside cfg t off
    have h2 := forest_brackets_inside cfg f (off + (t.terminals cfg).length)
    rw [← Nat.add_assoc]
    apply inside_append h1 h2
    · push_cast; omega
    · push_cast; omega
end

mutual

theorem tree_brackets_nocross (cfg : Config) : ∀ (t : Tree) (off : Nat),
    ∀ a ∈ t.brackets cfg off, ∀ b ∈ t.brackets cfg off, ¬ Crosses a b
  | .pre l s w, off => by simp [Tree.brackets]
  | .node l ks c, off => by
    intro a ha b hb
    have hin := forest_brackets_inside cfg ks off
    have ih := forest_brackets_nocross cfg ks off
    simp only [Tree.brackets, List.mem_cons] at ha hb
    unfold Crosses
    rcases ha with e | ha <;> rcases hb with e' | hb
    · subst e; subst e'; simp
    · subst e
      have := hin b hb
      simp only
      omega
    · subst e'
      have := hin a ha
      simp only
      omega
    · exact ih a ha b hb

theorem forest_brackets_nocross (cfg : Config) : ∀ (f : Forest) (off : Nat),
    ∀ a ∈ f.brackets cfg off, ∀ b ∈ f.brackets cfg off, ¬ Crosses a b
  | .nil, off => by simp [Forest.brackets]
  | .cons s t f, off => by
    intro a ha b hb
    have h1 := tree_brackets_inside cfg t off
    have h2 := forest_brackets_inside cfg f (off + (t.terminals cfg).length)
    have i1 := tree_brackets_nocross cfg t off
    have i2 := forest_brackets_nocross cfg f (off + (t.terminals cfg).length)
    simp only [Forest.brackets, List.mem_append] at ha hb
    rcases ha with ha | ha <;> rcases hb with hb | hb
    · exact i1 a ha b hb
    · have := h1 a ha
      have := h2 b hb
      unfold Crosses
      omega
    · have := h2 a ha
      have := h1 b hb
      unfold Crosses
      omega
    · exact i2 a ha b hb
end

theorem calc_result_self (cfg : Config) (g : Globals) (tot : Totals × Totals) (r_wn1 : Nat)
    (tm : List s_terminal) (br : List s_bracket) (hne : tm ≠ [])
    (hnc : ∀ a ∈ br, ∀ b ∈ br, ¬ Crosses a b) :
    ∃ r, calc_result cfg g tot r_wn1 tm tm br br = .done r ∧ r.g = g ∧
      r.report.Status = g.Status ∧ r.report.match_ = r.report.r_bn1 ∧
      r.report.r_bn1 = r.report.r_bn2 ∧ r.report.crossing = 0 ∧
      r.report.correct_tag = r.report.wn1 ∧ r.report.wn1 = tm.length := by
  have h1 : (tm.length == 0) = false := by
    cases tm with
    | nil => exact absurd rfl hne
    | cons a l => simp
  have hm : (match_loop cfg (massage_data cfg br br).bracket1
      (massage_data cfg br br).bracket2).match_ = (massage_data cfg br br).r_bn1 := by
    have := match_loop_self cfg (br.map (massage_bracket cfg)) [] (by simp)
      (by
        intro b hb
        obtain ⟨x, _, rfl⟩ := List.mem_map.1 hb
        exact massage_bracket_result cfg x)
    simpa [massage_data] using this
  have hc : cross_loop
      (match_loop cfg (massage_data cfg br br).bracket1 (massage_data cfg br br).bracket2).bracket1
      (match_loop cfg (massage_data cfg br br).bracket1 (massage_data cfg br br).bracket2).bracket2
        = 0 := by
    rw [cross_after_match, List.length_eq_zero, List.filter_eq_nil_iff]
    intro t ht hcs
    have hcs' : CrossesSome (massage_data cfg br br).bracket1 t := by simpa using hcs
    obtain ⟨_, g', hg', _, hcr⟩ := hcs'
    obtain ⟨x, hx, rfl⟩ := List.mem_map.1 (show t ∈ br.map (massage_bracket cfg) from ht)
    obtain ⟨y, hy, rfl⟩ := List.mem_map.1 (show g' ∈ br.map (massage_bracket cfg) from hg')
    apply hnc y hy x hx
    unfold Crosses at hcr ⊢
    simpa only [massage_bracket_start, massage_bracket_end] using hcr
  refine Exists.intro ?r (And.intro ?a ?b)
  case a =>
    unfold calc_result
    simp only [h1, Bool.false_eq_true, if_false, bne_self_eq_false, words_unmatch_self]
    exact rfl
  case b =>
    exact ⟨rfl, rfl, hm, rfl, hc, tag_loop_self cfg tm, rfl⟩

/-- C4. A well-formed line with at least one kept terminal (with any
whitespace around it), scored against an identical copy of itself, under any
configuration: the status is Ok, `match = r_bn1 = r_bn2`, `crossing = 0` and
`correct_tag = wn1`, the number of kept terminals. -/
theorem score_identical (cfg : Config) (g : Globals) (tot : Totals × Totals) (t : Tree)
    (ws0 ws : Str) (hwf : t.WellFormed)
    (hw : (t.terminals cfg).length ≤ MAX_WORD_IN_SENT)
    (hb : (t.brackets cfg 0).length ≤ MAX_BRACKET_IN_SENT)
    (hws0 : allSpace ws0) (hws : allSpace ws)
    (hk : t.terminals cfg ≠ []) :
    ∃ r, score_pair cfg g tot (ws0 ++ (t.render ++ ws)) (ws0 ++ (t.render ++ ws)) = .done r ∧
      r.g.Status = 0 ∧ r.report.Status = 0 ∧
      r.report.match_ = r.report.r_bn1 ∧ r.report.r_bn1 = r.report.r_bn2 ∧
      r.report.crossing = 0 ∧ r.report.correct_tag = r.report.wn1 ∧
      r.report.wn1 = (t.terminals cfg).length := by
  obtain ⟨r, hr, hg, hs, h⟩ := calc_result_self cfg { g with Status := 0 } tot (t.rawLength cfg)
    (t.terminals cfg) (t.brackets cfg 0) hk (tree_brackets_nocross cfg t 0)
  refine ⟨r, ?_, by rw [hg], hs, h⟩
  unfold score_pair
  rw [read_line_render cfg _ t ws0 ws hwf hw hb hws0 hws]
  simp only
  rw [read_line_render cfg _ t ws0 ws hwf hw hb hws0 hws]
  exact hr

/-- C4 on the line of the header comment: 4 of 4 brackets matched, no
crossing, 5 of 5 tags correct. -/
theorem score_identical_example1 :
    example1.WellFormed ∧ example1.terminals ⟨10, 40, 1, [], [], [], []⟩ ≠ [] ∧
    ∃ r, score_pair ⟨10, 40, 1, [], [], [], []⟩ ⟨0, 0⟩ init_global
        "(S (NP (NNX this)) (VP (VBX is) (NP (DT a) (NNX pen))) (SYM .))".data
        "(S (NP (NNX this)) (VP (VBX is) (NP (DT a) (NNX pen))) (SYM .))".data = .done r ∧
      r.report.Status = 0 ∧ r.report.match_ = 4 ∧ r.report.r_bn1 = 4 ∧ r.report.r_bn2 = 4 ∧
      r.report.crossing = 0 ∧ r.report.correct_tag = 5 ∧ r.report.wn1 = 5 := by
  have hwf : example1.WellFormed := by
    simp [example1, Tree.WellFormed, Forest.WellFormed, okToken, allSpace, MAX_LABEL_LEN]
    decide
  have hk : example1.terminals ⟨10, 40, 1, [], [], [], []⟩ ≠ [] := by decide
  obtain ⟨r, hr, _, hs, h1, h2, h3, h4, h5⟩ :=
    score_identical ⟨10, 40, 1, [], [], [], []⟩ ⟨0, 0⟩ init_global example1 [] [] hwf
      (by decide) (by decide) (by simp [allSpace]) (by simp [allSpace]) hk
  have e : [] ++ (example1.render ++ [])
      = "(S (NP (NNX this)) (VP (VBX is) (NP (DT a) (NNX pen))) (SYM .))".data := by decide
  rw [e] at hr
  have hn : r.report.r_bn1 = 4 := by
    have e2 : (match score_pair ⟨10, 40, 1, [], [], [], []⟩ ⟨0, 0⟩ init_global
        "(S (NP (NNX this)) (VP (VBX is) (NP (DT a) (NNX pen))) (SYM .))".data
        "(S (NP (NNX this)) (VP (VBX is) (NP (DT a) (NNX pen))) (SYM .))".data with
        | .done r => r.report.r_bn1
        | _ => 0) = 4 := by decide
    rw [hr] at e2
    exact e2
  have hl : (example1.terminals ⟨10, 40, 1, [], [], [], []⟩).length = 5 := by decide
  refine ⟨hwf, hk, r, hr, hs, ?_, hn, ?_, h3, ?_, ?_⟩ <;> omega

theorem match_cond_true (cfg : Config) (b1 b2 : s_bracket) (h : match_cond cfg b1 b2 = true) :
    b1.result ≠ 5 ∧ b2.result = 0 ∧ b1.start = b2.start ∧ b1.end_ = b2.end_ ∧
      (cfg.F_label = 0 ∨ label_comp cfg b1.label b2.label = true) := by
  simpa [match_cond, and_assoc] using h

theorem free_cons_zero (b : s_bracket) (l : List s_bracket) (h : b.result = 0) :
    free_brackets (b :: l) = b :: free_brackets l := by
  simp [free_brackets, h]

theorem free_cons_nonzero (b : s_bracket) (l : List s_bracket) (h : b.result ≠ 0) :
    free_brackets (b :: l) = free_brackets l := by
  simp [free_brackets, h]

theorem real_cons_deleted (b : s_bracket) (l : List s_bracket) (h : b.result = 5) :
    real_brackets (b :: l) = real_brackets l := by
  simp [real_brackets, h]

theorem real_cons_kept (b : s_bracket) (l : List s_bracket) (h : b.result ≠ 5) :
    real_brackets (b :: l) = b :: real_brackets l := by
  simp [real_brackets, h]

theorem count_real_length (l : List s_bracket) : count_real l = (real_brackets l).length := by
  simp [count_real, real_brackets, List.countP_eq_length_filter]

theorem real_eq_free_massaged (cfg : Config) (l : List s_bracket) :
    real_brackets (l.map (massage_bracket cfg)) = free_brackets (l.map (massage_bracket cfg)) := by
  induction l with
  | nil => rfl
  | cons b rest ih =>
    rw [List.map_cons]
    rcases massage_bracket_result cfg b with h | h
    · rw [real_cons_kept _ _ (by simp [h]), free_cons_zero _ _ h, ih]
    · rw [real_cons_deleted _ _ h, free_cons_nonzero _ _ (by simp [h]), ih]

/-- A match of the inner loop takes one free test bracket that passes the
test. -/
theorem match_inner_pair (cfg : Config) (b1 : s_bracket) :
    ∀ (l l' : List s_bracket), match_inner cfg b1 l = some l' →
      ∃ t, match_cond cfg b1 t = true ∧ (free_brackets l).Perm (t :: free_brackets l')
  | [], l', h => by simp [match_inner] at h
  | b2 :: rest, l', h => by
    unfold match_inner at h
    split at h
    · rename_i hc
      injection h with h
      subst h
      have h0 := (match_cond_true cfg b1 b2 hc).2.1
      refine ⟨b2, hc, ?_⟩
      rw [free_cons_zero _ _ h0, free_cons_nonzero _ _ (by simp)]
    · split at h
      · simp at h
      · rename_i rest' hr
        injection h with h
        subst h
        obtain ⟨t, ht, hp⟩ := match_inner_pair cfg b1 rest rest' hr
        refine ⟨t, ht, ?_⟩
        by_cases h0 : b2.result = 0
        · rw [free_cons_zero _ _ h0, free_cons_zero _ _ h0]
          exact (hp.cons b2).trans (List.Perm.swap t b2 _)
        · rw [free_cons_nonzero _ _ h0, free_cons_nonzero _ _ h0]
          exact hp

/-- The pairs that the matching loops make: as many as `match`, each passing
the test, the gold sides a sublist of the gold brackets that are not deleted,
the test sides taken from the free test brackets. -/
theorem match_loop_pairs (cfg : Config) : ∀ (l1 l2 : List s_bracket),
    ∃ ps : List (s_bracket × s_bracket),
      ps.length = (match_loop cfg l1 l2).match_ ∧
      (∀ p ∈ ps, match_cond cfg p.1 p.2 = true) ∧
      (ps.map Prod.fst).Sublist (real_brackets l1) ∧
      (free_brackets l2).Perm
        (ps.map Prod.snd ++ free_brackets (match_loop cfg l1 l2).bracket2)
  | [], l2 => ⟨[], by simp [match_loop, real_brackets]⟩
  | b1 :: rest, l2 => by
    unfold match_loop
    cases h : match_inner cfg b1 l2 with
    | none =>
      obtain ⟨ps, h1, h2, h3, h4⟩ := match_loop_pairs cfg rest l2
      refine ⟨ps, h1, h2, ?_, h4⟩
      by_cases h5 : b1.result = 5
      · rw [real_cons_deleted _ _ h5]; exact h3
      · rw [real_cons_kept _ _ h5]; exact h3.cons b1
    | some l2' =>
      obtain ⟨ps, h1, h2, h3, h4⟩ := match_loop_pairs cfg rest l2'
      obtain ⟨t, ht, hp⟩ := match_inner_pair cfg b1 l2 l2' h
      have h5 := match_inner_gold cfg b1 l2 l2' h
      refine ⟨(b1, t) :: ps, by simp [h1], ?_, ?_, ?_⟩
      · intro p hp'
        rcases List.mem_cons.1 hp' with e | e
        · subst e; exact ht
        · exact h2 p e
      · rw [real_cons_kept _ _ h5]
        simpa using h3.cons₂ b1
      · simpa using hp.trans (h4.cons t)

theorem forall₂_pairs {R : s_bracket → s_bracket → Prop} :
    ∀ (ps : List (s_bracket × s_bracket)), (∀ p ∈ ps, R p.1 p.2) →
      List.Forall₂ R (ps.map Prod.fst) (ps.map Prod.snd)
  | [], _ => .nil
  | p :: ps, h =>
    .cons (h p (by simp)) (forall₂_pairs ps (fun q hq => h q (by simp [hq])))

/-- When the labeled matching pairs every gold bracket that is not deleted
and uses up every free test bracket, the two collections are identical. -/
theorem same_of_all_matched (cfg : Config) (hl : cfg.F_label ≠ 0) (l1 l2 : List s_bracket)
    (h1 : (match_loop cfg l1 l2).match_ = (real_brackets l1).length)
    (h2 : (match_loop cfg l1 l2).match_ = (free_brackets l2).length) :
    SameCollection cfg (real_brackets l1) (free_brackets l2) := by
  obtain ⟨ps, e1, e2, e3, e4⟩ := match_loop_pairs cfg l1 l2
  have hf : ps.map Prod.fst = real_brackets l1 :=
    e3.eq_of_length (by simp [e1, h1])
  have hlen := e4.length_eq
  simp only [List.length_append, List.length_map] at hlen
  have hnil : free_brackets (match_loop cfg l1 l2).bracket2 = [] :=
    List.length_eq_zero.1 (by omega)
  rw [hnil, List.append_nil] at e4
  refine ⟨ps.map Prod.snd, e4.symm, ?_⟩
  rw [← hf]
  apply forall₂_pairs
  intro p hp
  obtain ⟨_, _, a, b, c⟩ := match_cond_true cfg p.1 p.2 (e2 p hp)
  exact ⟨a, b, c.resolve_left hl⟩

/-- When the test of the matching loop is equality of a key `k`, a gold
bracket that is not deleted takes the first free test bracket with its key. -/
theorem match_inner_key {κ : Type} [DecidableEq κ] (cfg : Config) (k : s_bracket → κ)
    (hk : ∀ g t, match_cond cfg g t = true ↔ (g.result ≠ 5 ∧ t.result = 0 ∧ k g = k t))
    (b1 : s_bracket) (h5 : b1.result ≠ 5) :
    ∀ (l : List s_bracket), k b1 ∈ (free_brackets l).map k →
      ∃ l', match_inner cfg b1 l = some l' ∧
        (free_brackets l').map k = ((free_brackets l).map k).erase (k b1)
  | [], h => by simp [free_brackets] at h
  | b2 :: rest, h => by
    unfold match_inner
    by_cases hc : match_cond cfg b1 b2 = true
    · obtain ⟨_, h0, e⟩ := (hk b1 b2).1 hc
      refine ⟨_, by rw [if_pos hc], ?_⟩
      rw [free_cons_nonzero _ _ (by simp), free_cons_zero _ _ h0, List.map_cons, e,
        List.erase_cons_head]
    · simp only [hc, if_false, Bool.false_eq_true]
      by_cases h0 : b2.result = 0
      · have hne : k b2 ≠ k b1 := fun e => hc ((hk b1 b2).2 ⟨h5, h0, e.symm⟩)
        rw [free_cons_zero _ _ h0, List.map_cons, List.mem_cons] at h
        have hm : k b1 ∈ (free_brackets rest).map k := h.resolve_left (fun e => hne e.symm)
        obtain ⟨l'', e1, e2⟩ := match_inner_key cfg k hk b1 h5 rest hm
        refine ⟨b2 :: l'', by simp [e1], ?_⟩
        rw [free_cons_zero _ _ h0, free_cons_zero _ _ h0, List.map_cons, List.map_cons, e2,
          List.erase_cons_tail (by simpa using hne)]
      · rw [free_cons_nonzero _ _ h0] at h
        obtain ⟨l'', e1, e2⟩ := match_inner_key cfg k hk b1 h5 rest h
        refine ⟨b2 :: l'', by simp [e1], ?_⟩
        rw [free_cons_nonzero _ _ h0, free_cons_nonzero _ _ h0, e2]

/-- When the test of the matching loop is equality of a key `k` and the gold
brackets that are not deleted carry the same keys as the free test brackets,
every such gold bracket is matched. -/
theorem match_loop_key_perm {κ : Type} [DecidableEq κ] (cfg : Config) (k : s_bracket → κ)
    (hk : ∀ g t, match_cond cfg g t = true ↔ (g.result ≠ 5 ∧ t.result = 0 ∧ k g = k t)) :
    ∀ (l1 l2 : List s_bracket),
      ((real_brackets l1).map k).Perm ((free_brackets l2).map k) →
      (match_loop cfg l1 l2).match_ = (real_brackets l1).length
  | [], l2, _ => by simp [match_loop, real_brackets]
  | b1 :: rest, l2, hp => by
    unfold match_loop
    by_cases h5 : b1.result = 5
    · rw [match_inner_deleted cfg b1 h5]
      rw [real_cons_deleted _ _ h5] at hp ⊢
      exact match_loop_key_perm cfg k hk rest l2 hp
    · rw [real_cons_kept _ _ h5] at hp ⊢
      have hm : k b1 ∈ (free_brackets l2).map k := hp.mem_iff.1 (by simp)
      obtain ⟨l2', e1, e2⟩ := match_inner_key cfg k hk b1 h5 l2 hm
      rw [e1]
      have hp' : ((real_brackets rest).map k).Perm ((free_brackets l2').map k) := by
        have := hp.erase (k b1)
        rw [List.map_cons, List.erase_cons_head] at this
        rw [e2]
        exact this
      have ih := match_loop_key_perm cfg k hk rest l2' hp'
      simp [ih]

/-- The key of labeled matching under an empty registry. -/
theorem match_cond_labeled (cfg : Config) (hl : cfg.F_label ≠ 0) (he : cfg.EQ_label = [])
    (g t : s_bracket) :
    match_cond cfg g t = true ↔
      (g.result ≠ 5 ∧ t.result = 0 ∧ (g.start, g.end_, g.label) = (t.start, t.end_, t.label)) := by
  simp [match_cond, label_comp, he, equiv_comp_nil, hl, and_assoc]

theorem same_collection_keys (cfg : Config) (he : cfg.EQ_label = []) (gs ts : List s_bracket)
    (h : SameCollection cfg gs ts) :
    (gs.map (fun b => (b.start, b.end_, b.label))).Perm
      (ts.map (fun b => (b.start, b.end_, b.label))) := by
  have e : ∀ (xs ys : List s_bracket), List.Forall₂ (SameBracket cfg) xs ys →
      xs.map (fun b => (b.start, b.end_, b.label))
        = ys.map (fun b => (b.start, b.end_, b.label)) := by
    intro xs ys hf
    induction hf with
    | nil => rfl
    | @cons x y _ _ hab _ ih =>
      obtain ⟨a, b, c⟩ := hab
      have c' : x.label = y.label := by simpa [label_comp, he, equiv_comp_nil] using c
      simp [a, b, c', ih]
  obtain ⟨ts', hp, hf⟩ := h
  rw [e gs ts' hf]
  exact hp.map _

theorem percent_eq_100 (a c : Nat) : percent a c = 100 ↔ (c ≠ 0 ∧ a = c) := by
  unfold percent
  by_cases h : c = 0
  · simp [h]
  · have hc : (c : ℚ) ≠ 0 := by exact_mod_cast h
    simp only [beq_iff_eq, h, if_false, ne_eq, not_false_eq_true, true_and]
    rw [div_eq_iff hc]
    constructor
    · intro e
      have : (a : ℚ) = c := by linarith
      exact_mod_cast this
    · intro e
      rw [e]

theorem equiv_comp_symm (tbl : List (Str × Str)) (s1 s2 : Str) :
    equiv_comp tbl s1 s2 = equiv_comp tbl s2 s1 := by
  unfold equiv_comp
  by_cases h : s1 = s2
  · subst h; rfl
  · have h' : ¬ s2 = s1 := fun e => h e.symm
    simp only [beq_iff_eq, h, h', if_false]
    congr 1
    funext e
    rw [Bool.or_comm, Bool.and_comm (s1 == e.2), Bool.and_comm (s1 == e.1)]

theorem sameBracket_symm_trans (cfg : Config) (ht : LabelTransitive cfg) (b1 g t a : s_bracket)
    (h1 : SameBracket cfg g t) (h2 : SameBracket cfg b1 t) (h3 : SameBracket cfg b1 a) :
    SameBracket cfg g a := by
  obtain ⟨a1, a2, a3⟩ := h1
  obtain ⟨b1', b2, b3⟩ := h2
  obtain ⟨c1, c2, c3⟩ := h3
  refine ⟨by omega, by omega, ?_⟩
  have b3' : label_comp cfg t.label b1.label = true := by
    unfold label_comp at b3 ⊢
    rw [equiv_comp_symm]; exact b3
  exact ht _ _ _ (ht _ _ _ a3 b3') c3

theorem labelTransitive_of_nil (cfg : Config) (he : cfg.EQ_label = []) : LabelTransitive cfg := by
  intro a b c h1 h2
  simp only [label_comp, he, equiv_comp_nil, beq_iff_eq] at h1 h2 ⊢
  exact h1.trans h2

/-- In a position-by-position agreement one test bracket `t` can be replaced
by a bracket `a` that agrees with everything `t` agrees with. -/
theorem forall₂_replace (cfg : Config) (t a : s_bracket)
    (h : ∀ g, SameBracket cfg g t → SameBracket cfg g a) :
    ∀ (gs ts : List s_bracket), List.Forall₂ (SameBracket cfg) gs ts → t ∈ ts →
      ∃ ts3, ts3.Perm (a :: ts.erase t) ∧ List.Forall₂ (SameBracket cfg) gs ts3
  | _, _, .nil, hm => by simp at hm
  | g :: gs, x :: ts, .cons hgx hrest, hm => by
    by_cases hx : x = t
    · subst hx
      refine ⟨a :: ts, ?_, .cons (h g hgx) hrest⟩
      rw [List.erase_cons_head]
    · have hm' : t ∈ ts := by
        rcases List.mem_cons.1 hm with e | e
        · exact absurd e.symm hx
        · exact e
      obtain ⟨ts3, hp, hf⟩ := forall₂_replace cfg t a h gs ts hrest hm'
      refine ⟨x :: ts3, ?_, .cons hgx hf⟩
      rw [List.erase_cons_tail (by simpa using hx)]
      exact (hp.cons x).trans (List.Perm.swap a x _)

/-- With a transitive label relation the labeled matching pairs every gold
bracket that is not deleted as soon as the gold brackets that are not deleted
and the free test brackets are identical collections. -/
theorem match_loop_same (cfg : Config) (hl : cfg.F_label ≠ 0) (ht : LabelTransitive cfg) :
    ∀ (l1 l2 : List s_bracket),
      SameCollection cfg (real_brackets l1) (free_brackets l2) →
      (match_loop cfg l1 l2).match_ = (real_brackets l1).length
  | [], l2, _ => by simp [match_loop, real_brackets]
  | b1 :: rest, l2, hs => by
    unfold match_loop
    by_cases h5 : b1.result = 5
    · rw [match_inner_deleted cfg b1 h5]
      rw [real_cons_deleted _ _ h5] at hs ⊢
      exact match_loop_same cfg hl ht rest l2 hs
    · rw [real_cons_kept _ _ h5] at hs ⊢
      obtain ⟨ts', hp, hf⟩ := hs
      cases hf with
      | @cons _ a _ ts'' hba hrest =>
        have ha : a ∈ free_brackets l2 := hp.mem_iff.1 (by simp)
        have ha0 : a.result = 0 := by
          have := (List.mem_filter.1 ha).2
          simpa using this
        have hc : match_cond cfg b1 a = true := by
          obtain ⟨x1, x2, x3⟩ := hba
          simp [match_cond, h5, ha0, x1, x2, x3]
        have hsome : ∃ l2', match_inner cfg b1 l2 = some l2' := by
          have hmem : a ∈ l2 := (List.mem_filter.1 ha).1
          clear hp ha
          induction l2 with
          | nil => simp at hmem
          | cons y ys ih =>
            unfold match_inner
            by_cases hy : match_cond cfg b1 y = true
            · exact ⟨_, by rw [if_pos hy]⟩
            · rcases List.mem_cons.1 hmem with e | e
              · subst e; exact absurd hc hy
              · obtain ⟨l2', hl2⟩ := ih e
                exact ⟨y :: l2', by simp [hy, hl2]⟩
        obtain ⟨l2', hin⟩ := hsome
        obtain ⟨t, htc, hpt⟩ := match_inner_pair cfg b1 l2 l2' hin
        have hbt : SameBracket cfg b1 t := by
          obtain ⟨_, _, x1, x2, x3⟩ := match_cond_true cfg b1 t htc
          exact ⟨x1, x2, x3.resolve_left hl⟩
        have hperm : (a :: ts'').Perm (t :: free_brackets l2') := hp.trans hpt
        have hs' : SameCollection cfg (real_brackets rest) (free_brackets l2') := by
          by_cases hat : a = t
          · subst hat
            exact ⟨ts'', hperm.cons_inv, hrest⟩
          · have htm : t ∈ ts'' := by
              have : t ∈ a :: ts'' := hperm.mem_iff.2 (by simp)
              rcases List.mem_cons.1 this with e | e
              · exact absurd e.symm hat
              · exact e
            obtain ⟨ts3, hp3, hf3⟩ := forall₂_replace cfg t a
              (fun g hg => sameBracket_symm_trans cfg ht b1 g t a hg hbt hba) _ _ hrest htm
            refine ⟨ts3, ?_, hf3⟩
            have e1 := hperm.erase t
            rw [List.erase_cons_head, List.erase_cons_tail (by simpa using hat)] at e1
            exact hp3.trans e1
        have ih := match_loop_same cfg hl ht rest l2' hs'
        rw [hin]
        simp [ih]

/-- C3, amended. For a sentence pair that `calc_result` scores with Ok status
in labeled mode: if recall and precision are both 100, then there is a gold
bracket that is not deleted and the gold and test brackets that are not
deleted are identical as collections of (start, end, normalized label), labels
compared by `label_comp`; when the relation of `label_comp` is transitive (as
it is with an empty registry) the converse holds too, so that both are 100 if
and only if the two collections are identical and not empty. -/
theorem recall_precision_100 (cfg : Config) (g : Globals) (tot : Totals × Totals) (r_wn1 : Nat)
    (t1 t2 : List s_terminal) (b1 b2 : List s_bracket) (r : Scored)
    (h : calc_result cfg g tot r_wn1 t1 t2 b1 b2 = .done r)
    (hs : r.report.Status = 0) (hl : cfg.F_label ≠ 0) :
    ((r.report.recall_pct = 100 ∧ r.report.precision_pct = 100) →
      (real_brackets (massage_data cfg b1 b2).bracket1 ≠ [] ∧
        SameCollection cfg (real_brackets (massage_data cfg b1 b2).bracket1)
          (real_brackets (massage_data cfg b1 b2).bracket2))) ∧
    (LabelTransitive cfg →
      ((r.report.recall_pct = 100 ∧ r.report.precision_pct = 100) ↔
        (real_brackets (massage_data cfg b1 b2).bracket1 ≠ [] ∧
          SameCollection cfg (real_brackets (massage_data cfg b1 b2).bracket1)
            (real_brackets (massage_data cfg b1 b2).bracket2)))) ∧
    (cfg.EQ_label = [] → LabelTransitive cfg) := by
  rcases calc_result_report cfg g tot r_wn1 t1 t2 b1 b2 r h with hz | hv
  · exact absurd hs hz.1
  obtain ⟨_, _, _, _, e1, e2, e3, _, _, _, e4, e5⟩ := hv
  have f2 : real_brackets (massage_data cfg b1 b2).bracket2
      = free_brackets (massage_data cfg b1 b2).bracket2 := real_eq_free_massaged cfg b2
  have r1 : (massage_data cfg b1 b2).r_bn1
      = (real_brackets (massage_data cfg b1 b2).bracket1).length := count_real_length _
  have r2 : (massage_data cfg b1 b2).r_bn2
      = (real_brackets (massage_data cfg b1 b2).bracket2).length := count_real_length _
  have fwd : (r.report.recall_pct = 100 ∧ r.report.precision_pct = 100) →
      (real_brackets (massage_data cfg b1 b2).bracket1 ≠ [] ∧
        SameCollection cfg (real_brackets (massage_data cfg b1 b2).bracket1)
          (real_brackets (massage_data cfg b1 b2).bracket2)) := by
    rintro ⟨p1, p2⟩
    rw [e4, percent_eq_100, e1, e3, r1] at p1
    rw [e5, percent_eq_100, e2, e3, r2] at p2
    refine ⟨?_, ?_⟩
    · intro e
      rw [e] at p1
      exact p1.1 rfl
    · rw [f2]
      apply same_of_all_matched cfg hl
      · exact p1.2
      · rw [← f2]; exact p2.2
  refine ⟨fwd, fun ht => ⟨fwd, ?_⟩, labelTransitive_of_nil cfg⟩
  rintro ⟨hne, hsame⟩
  have hlen : (real_brackets (massage_data cfg b1 b2).bracket1).length
      = (real_brackets (massage_data cfg b1 b2).bracket2).length := by
    obtain ⟨ts', hp, hf⟩ := hsame
    rw [hf.length_eq, hp.length_eq]
  rw [f2] at hsame
  have hm := match_loop_same cfg hl ht _ _ hsame
  have hpos : (real_brackets (massage_data cfg b1 b2).bracket1).length ≠ 0 := by
    simpa using hne
  rw [e4, e5, percent_eq_100, percent_eq_100, e1, e2, e3, r1, r2, hm]
  exact ⟨⟨hpos, rfl⟩, by omega, hlen⟩

theorem score_pair_eq (cfg : Config) (g : Globals) (tot : Totals × Totals) (l1 l2 : Str)
    (p1 p2 : Parsed) (h1 : read_line cfg { g with Status := 0 } l1 = .done p1)
    (h2 : read_line cfg p1.g l2 = .done p2) :
    score_pair cfg g tot l1 l2
      = calc_result cfg p2.g tot p1.len p1.terminal p2.terminal p1.bracket p2.bracket := by
  unfold score_pair
  rw [h1]
  simp only
  rw [h2]

theorem calc_result_ok (cfg : Config) (g : Globals) (tot : Totals × Totals) (r_wn1 : Nat)
    (t1 t2 : List s_terminal) (b1 b2 : List s_bracket) (h1 : t2 ≠ [])
    (h2 : t1.length = t2.length) (h3 : words_unmatch cfg t1 t2 = false) :
    ∃ r, calc_result cfg g tot r_wn1 t1 t2 b1 b2 = .done r ∧ r.report.Status = g.Status ∧
      r.g = g := by
  have e1 : (t2.length == 0) = false := by
    cases t2 with
    | nil => exact absurd rfl h1
    | cons a l => simp
  refine Exists.intro ?r (And.intro ?a ?b)
  case a =>
    unfold calc_result
    simp only [e1, Bool.false_eq_true, if_false, h2, bne_self_eq_false, h3]
    exact rfl
  case b => exact ⟨rfl, rfl⟩

/-- C3 as stated fails in two ways. The line `(NN a)` scored against itself
has Ok status and two identical (empty) bracket collections, yet recall and
precision are 0. With the label pairs `A X`, `A Y`, `B X` registered, the gold
line `(A (B (N a)))` and the test line `(X (Y (N a)))` have identical
collections (`A` with `Y`, `B` with `X`), yet the matcher pairs `A` with `X`
and leaves `B`, so that recall and precision are 50. -/
theorem recall_precision_100_counterexample :
    (∃ r, score_pair ⟨10, 40, 1, [], [], [], []⟩ ⟨0, 0⟩ init_global "(NN a)".data "(NN a)".data
        = .done r ∧ r.report.Status = 0 ∧
      read_line ⟨10, 40, 1, [], [], [], []⟩ ⟨0, 0⟩ "(NN a)".data
        = .done ⟨1, [⟨['a'], ['N', 'N'], 9⟩], [], ⟨0, 0⟩⟩ ∧
      SameCollection ⟨10, 40, 1, [], [], [], []⟩
        (real_brackets (massage_data ⟨10, 40, 1, [], [], [], []⟩ [] []).bracket1)
        (real_brackets (massage_data ⟨10, 40, 1, [], [], [], []⟩ [] []).bracket2) ∧
      r.report.recall_pct = 0 ∧ r.report.precision_pct = 0) ∧
    (∃ r, score_pair ⟨10, 40, 1, [], [], [(['A'], ['X']), (['A'], ['Y']), (['B'], ['X'])], []⟩
        ⟨0, 0⟩ init_global "(A (B (N a)))".data "(X (Y (N a)))".data = .done r ∧
      r.report.Status = 0 ∧
      read_line ⟨10, 40, 1, [], [], [(['A'], ['X']), (['A'], ['Y']), (['B'], ['X'])], []⟩ ⟨0, 0⟩
        "(A (B (N a)))".data
        = .done ⟨1, [⟨['a'], ['N'], 9⟩], [⟨0, 1, ['A'], 9⟩, ⟨0, 1, ['B'], 9⟩], ⟨0, 0⟩⟩ ∧
      read_line ⟨10, 40, 1, [], [], [(['A'], ['X']), (['A'], ['Y']), (['B'], ['X'])], []⟩ ⟨0, 0⟩
        "(X (Y (N a)))".data
        = .done ⟨1, [⟨['a'], ['N'], 9⟩], [⟨0, 1, ['X'], 9⟩, ⟨0, 1, ['Y'], 9⟩], ⟨0, 0⟩⟩ ∧
      SameCollection ⟨10, 40, 1, [], [], [(['A'], ['X']), (['A'], ['Y']), (['B'], ['X'])], []⟩
        (real_brackets (massage_data
          ⟨10, 40, 1, [], [], [(['A'], ['X']), (['A'], ['Y']), (['B'], ['X'])], []⟩
          [⟨0, 1, ['A'], 9⟩, ⟨0, 1, ['B'], 9⟩] [⟨0, 1, ['X'], 9⟩, ⟨0, 1, ['Y'], 9⟩]).bracket1)
        (real_brackets (massage_data
          ⟨10, 40, 1, [], [], [(['A'], ['X']), (['A'], ['Y']), (['B'], ['X'])], []⟩
          [⟨0, 1, ['A'], 9⟩, ⟨0, 1, ['B'], 9⟩] [⟨0, 1, ['X'], 9⟩, ⟨0, 1, ['Y'], 9⟩]).bracket2) ∧
      r.report.recall_pct = 50 ∧ r.report.precision_pct = 50) := by
  constructor
  · have h1 : read_line ⟨10, 40, 1, [], [], [], []⟩ ⟨0, 0⟩ "(NN a)".data
        = .done ⟨1, [⟨['a'], ['N', 'N'], 9⟩], [], ⟨0, 0⟩⟩ := by decide
    have hsp := score_pair_eq ⟨10, 40, 1, [], [], [], []⟩ ⟨0, 0⟩ init_global _ _ _ _ h1 h1
    obtain ⟨r, hr, hst, _⟩ := calc_result_ok ⟨10, 40, 1, [], [], [], []⟩ ⟨0, 0⟩ init_global 1
      [⟨['a'], ['N', 'N'], 9⟩] [⟨['a'], ['N', 'N'], 9⟩] [] [] (by simp) rfl (by decide)
    rcases calc_result_report _ _ _ _ _ _ _ _ r hr with hz | hv
    · exact absurd hst hz.1
    obtain ⟨_, _, _, _, e1, e2, e3, _, _, _, e4, e5⟩ := hv
    refine ⟨r, hsp.trans hr, hst, h1, ⟨[], .refl _, .nil⟩, ?_, ?_⟩
    · rw [e4, e1]; rfl
    · rw [e5, e2]; rfl
  · have h1 : read_line ⟨10, 40, 1, [], [], [(['A'], ['X']), (['A'], ['Y']), (['B'], ['X'])], []⟩
        ⟨0, 0⟩ "(A (B (N a)))".data
        = .done ⟨1, [⟨['a'], ['N'], 9⟩], [⟨0, 1, ['A'], 9⟩, ⟨0, 1, ['B'], 9⟩], ⟨0, 0⟩⟩ := by
      decide
    have h2 : read_line ⟨10, 40, 1, [], [], [(['A'], ['X']), (['A'], ['Y']), (['B'], ['X'])], []⟩
        ⟨0, 0⟩ "(X (Y (N a)))".data
        = .done ⟨1, [⟨['a'], ['N'], 9⟩], [⟨0, 1, ['X'], 9⟩, ⟨0, 1, ['Y'], 9⟩], ⟨0, 0⟩⟩ := by
      decide
    have hsp := score_pair_eq _ ⟨0, 0⟩ init_global _ _ _ _ h1 h2
    obtain ⟨r, hr, hst, _⟩ := calc_result_ok
      ⟨10, 40, 1, [], [], [(['A'], ['X']), (['A'], ['Y']), (['B'], ['X'])], []⟩ ⟨0, 0⟩ init_global 1
      [⟨['a'], ['N'], 9⟩] [⟨['a'], ['N'], 9⟩]
      [⟨0, 1, ['A'], 9⟩, ⟨0, 1, ['B'], 9⟩] [⟨0, 1, ['X'], 9⟩, ⟨0, 1, ['Y'], 9⟩]
      (by simp) rfl (by decide)
    rcases calc_result_report _ _ _ _ _ _ _ _ r hr with hz | hv
    · exact absurd hst hz.1
    obtain ⟨_, _, _, _, e1, e2, e3, _, _, _, e4, e5⟩ := hv
    have m1 : r.report.match_ = 1 := by rw [e3]; decide
    have n1 : r.report.r_bn1 = 2 := by rw [e1]; decide
    have n2 : r.report.r_bn2 = 2 := by rw [e2]; decide
    refine ⟨r, hsp.trans hr, hst, h1, h2, ?_, ?_, ?_⟩
    · refine ⟨[⟨0, 1, ['Y'], 0⟩, ⟨0, 1, ['X'], 0⟩], ?_, ?_⟩
      · exact List.Perm.swap _ _ _
      · exact .cons ⟨rfl, rfl, by decide⟩ (.cons ⟨rfl, rfl, by decide⟩ .nil)
    · rw [e4, m1, n1]; norm_num [percent]
    · rw [e5, m1, n2]; norm_num [percent]

theorem read_token_length : ∀ (x l r : Str), read_token x = some (l, r) → r.length ≤ x.length
  | [], l, r, h => by simp [read_token] at h
  | c :: cs, l, r, h => by
    unfold read_token at h
    split at h
    · injection h with h
      injection h with h1 h2
      subst h2; simp
    · split at h
      · simp at h
      · rename_i l' r' hr
        injection h with h
        injection h with h1 h2
        subst h2
        have := read_token_length cs l' r' hr
        simp only [List.length_cons]
        omega

theorem skip_space_length : ∀ (x : Str), (skip_space x).length ≤ x.length
  | [] => by simp [skip_space]
  | c :: cs => by
    unfold skip_space
    split
    · have := skip_space_length cs
      simp only [List.length_cons]
      omega
    · simp

theorem read_token_skip_length (x l r : Str) (h : read_token (skip_space x) = some (l, r)) :
    r.length ≤ x.length :=
  Nat.le_trans (read_token_length _ l r h) (skip_space_length x)

theorem error_measure (cfg : Config) (g g' : Globals) (h : Error cfg g = (g', false)) :
    (cfg.Max_error + 2 - (g'.Error_count : Int)).toNat + 1
      ≤ (cfg.Max_error + 2 - (g.Error_count : Int)).toNat := by
  unfold Error at h
  injection h with h1 h2
  subst h1
  have : ¬ ((g.Error_count : Int) > cfg.Max_error) := by simpa using h2
  simp only
  push_cast
  omega

/-- Every turn of the loop that goes on consumes a character or uses up one
of the errors left before `Error` exits. -/
theorem read_step_measure (cfg : Config) (s s' : Reader) (c : Char) (rest : Str)
    (hp : s.p = c :: rest) (h : read_step cfg s c rest = .done s') :
    s'.p.length + (cfg.Max_error + 2 - (s'.g.Error_count : Int)).toNat
      < (c :: rest).length + (cfg.Max_error + 2 - (s.g.Error_count : Int)).toNat := by
  unfold read_step at h
  unfold open_bracket popb_live at h
  dsimp only at h
  repeat' split at h
  all_goals first
    | (simp at h; done)
    | (injection h with h
       subst h
       try have hm := error_measure cfg _ _ ‹Error cfg s.g = _›
       try have ht1 := read_token_length _ _ _ ‹read_token rest = some _›
       try have ht2 := read_token_skip_length _ _ _ ‹read_token (skip_space _) = some _›
       simp only [List.length_cons, hp] at *
       omega)

theorem read_step_fuel (cfg : Config) (s : Reader) (c : Char) (rest : Str) :
    read_step cfg s c rest ≠ .outOfFuel := by
  intro h
  unfold read_step at h
  unfold open_bracket popb_live at h
  dsimp only at h
  repeat' split at h
  all_goals simp at h

theorem scan_total (cfg : Config) : ∀ (fuel : Nat) (s : Reader),
    s.p.length + (cfg.Max_error + 2 - (s.g.Error_count : Int)).toNat < fuel →
    scan cfg fuel s ≠ .outOfFuel
  | 0, s, h => by omega
  | fuel + 1, s, h => by
    unfold scan
    split
    · split
      · simp
      · split <;> simp
    · rename_i c rest hp
      split
      · rename_i s' hs'
        have hm := read_step_measure cfg s s' c rest hp hs'
        rw [hp] at h
        exact scan_total cfg fuel s' (by omega)
      · simp
      · simp
      · rename_i hs'
        exact absurd hs' (read_step_fuel cfg s c rest)

/-- The loop of `read_line` always comes to an end within `read_fuel` turns:
at the end of the line, at `exit(1)` inside `Error`, or where the behaviour is
no longer defined. -/
theorem read_line_total (cfg : Config) (g : Globals) (buff : Str) :
    read_line cfg g buff ≠ .outOfFuel := by
  unfold read_line
  apply scan_total
  simp only [read_fuel]
  omega

/-- C9 at the failing input: when the first `)` of a line is read the stack
is empty; `popb` does not call `Error` there, it reads `stack[-1]`. The run
leaves defined behaviour with `Status` and `Error_count` as they were, for
every configuration, whatever follows on the line (as on `) (S (NN a)`). -/
theorem close_on_empty_stack (cfg : Config) (g : Globals) (rest : Str) :
    read_line cfg g (')' :: rest) = .undefined g ∧
    read_line cfg g ") (S (NN a)".data = .undefined g := by
  have h : ∀ r : Str, read_line cfg g (')' :: r) = .undefined g := by
    intro r
    have hsp : isspace ')' = false := by decide
    simp [read_line, read_fuel, scan, read_step, popb_live, hsp]
  exact ⟨h rest, h _⟩

/-- At a character that is neither whitespace nor a parenthesis the loop of
`read_line` calls `Error` without moving on, turn after turn, until `Error`
exits. -/
theorem scan_stuck (cfg : Config) (c : Char) (h1 : isspace c = false) (h2 : (c == '(') = false)
    (h3 : (c == ')') = false) (rest : Str) (tm : List s_terminal) (br : List s_bracket)
    (st : List Nat) (len : Nat) :
    ∀ (d fuel : Nat) (g : Globals), (cfg.Max_error + 1 - (g.Error_count : Int)).toNat = d →
      (g.Error_count : Int) ≤ cfg.Max_error + 1 → d < fuel →
      scan cfg fuel ⟨c :: rest, tm, br, st, len, g⟩ = .exited ⟨1, (cfg.Max_error + 2).toNat⟩
  | 0, fuel, g, hd, hle, hf => by
    obtain ⟨n, rfl⟩ : ∃ n, fuel = n + 1 := ⟨fuel - 1, by omega⟩
    have hgt : (g.Error_count : Int) > cfg.Max_error := by omega
    have e : g.Error_count + 1 = (cfg.Max_error + 2).toNat := by omega
    simp [scan, read_step, h1, h2, h3, Error, hgt, e]
  | d + 1, fuel, g, hd, hle, hf => by
    obtain ⟨n, rfl⟩ : ∃ n, fuel = n + 1 := ⟨fuel - 1, by omega⟩
    have hgt : ¬ ((g.Error_count : Int) > cfg.Max_error) := by omega
    have ih := scan_stuck cfg c h1 h2 h3 rest tm br st len d n ⟨1, g.Error_count + 1⟩
      (by simp only; push_cast; omega) (by simp only; push_cast; omega) (by omega)
    simp [scan, read_step, h1, h2, h3, Error, hgt, ih]

/-- C10 at the failing input: on the line `(NP a b)` the loop of `read_line`
does not reach the end of the line. `Error` is called for the second element
`a`, the bracket `NP` is opened with the pointer left before ` a b)`, and at
`a` the loop calls `Error` again and again without advancing, until
`Error_count` is above `Max_error` and the process exits: no result is handed
to `calc_result` and no further sentence is read. -/
theorem read_line_stuck (cfg : Config) (g : Globals) :
    ∃ g', read_line cfg g "(NP a b)".data = .exited g' ∧ g'.Status = 1 ∧
      (g'.Error_count : Int) = max ((g.Error_count : Int) + 1) (cfg.Max_error + 2) := by
  have hd : "(NP a b)".data = ['(', 'N', 'P', ' ', 'a', ' ', 'b', ')'] := by decide
  have t1 : read_token ['N', 'P', ' ', 'a', ' ', 'b', ')'] = some (['N', 'P'], [' ', 'a', ' ', 'b', ')']) := by
    decide
  have t2 : read_token ['a', ' ', 'b', ')'] = some (['a'], [' ', 'b', ')']) := by decide
  have t3 : skip_space ['a', ' ', 'b', ')'] = ['a', ' ', 'b', ')'] := by decide
  have s1 : isspace '(' = false := by decide
  have s2 : isspace ' ' = true := by decide
  have s3 : isspace 'a' = false := by decide
  rw [hd]
  by_cases hgt : (g.Error_count : Int) > cfg.Max_error
  · refine ⟨⟨1, g.Error_count + 1⟩, ?_, rfl, ?_⟩
    · simp [read_line, read_fuel, scan, read_step, count_length, s1, s2, t1, t2, t3, Error, hgt,
        MAX_LABEL_LEN, MAX_WORD_LEN]
    · simp only; push_cast; omega
  · refine ⟨⟨1, (cfg.Max_error + 2).toNat⟩, ?_, rfl, ?_⟩
    · have k1 : (cfg.Max_error + 1 - ((g.Error_count : Int) + 1)).toNat
          ≤ (cfg.Max_error + 2 - (g.Error_count : Int)).toNat :=
        Int.toNat_le_toNat (by omega)
      have hs := scan_stuck cfg 'a' s3 (by decide) (by decide) [' ', 'b', ')'] []
        [⟨0, -1, ['N', 'P'], 9⟩] [0] 0
        (cfg.Max_error + 1 - ((g.Error_count : Int) + 1)).toNat
        (7 + (cfg.Max_error + 2 - (g.Error_count : Int)).toNat) ⟨1, g.Error_count + 1⟩
        (by simp only; push_cast; rfl) (by simp only; push_cast; omega) (by omega)
      have ef : read_fuel cfg g ['(', 'N', 'P', ' ', 'a', ' ', 'b', ')']
          = (7 + (cfg.Max_error + 2 - (g.Error_count : Int)).toNat) + 1 + 1 := by
        simp only [read_fuel, List.length_cons, List.length_nil]
        generalize (cfg.Max_error + 2 - (g.Error_count : Int)).toNat = k
        omega
      rw [read_line, ef]
      simp [scan, read_step, count_length, s1, s2, t1, t2, t3, Error, hgt, open_bracket,
        MAX_LABEL_LEN, MAX_WORD_LEN, MAX_BRACKET_IN_SENT]
      simpa using hs
    · simp only; omega

/-- C2 on the line `(S (N a))` scored against itself. -/
theorem match_le_real_witness :
    ∃ r, calc_result ⟨10, 40, 1, [], [], [], []⟩ ⟨0, 0⟩ init_global 1
        [⟨['a'], ['N'], 9⟩] [⟨['a'], ['N'], 9⟩] [⟨0, 1, ['S'], 9⟩] [⟨0, 1, ['S'], 9⟩] = .done r ∧
      r.report.match_ ≤ r.report.r_bn1 ∧ r.report.match_ ≤ r.report.r_bn2 := by
  obtain ⟨r, hr, _⟩ := calc_result_ok ⟨10, 40, 1, [], [], [], []⟩ ⟨0, 0⟩ init_global 1
    [⟨['a'], ['N'], 9⟩] [⟨['a'], ['N'], 9⟩] [⟨0, 1, ['S'], 9⟩] [⟨0, 1, ['S'], 9⟩]
    (by simp) rfl (by decide)
  exact ⟨r, hr, (match_le_real _ _ _ _ _ _ _ _).2.2 r hr⟩

/-- C3 on the line `(S (N a))` scored against itself with an empty registry:
recall and precision are 100 and the collections are identical and not
empty. -/
theorem recall_precision_100_witness :
    ∃ r, calc_result ⟨10, 40, 1, [], [], [], []⟩ ⟨0, 0⟩ init_global 1
        [⟨['a'], ['N'], 9⟩] [⟨['a'], ['N'], 9⟩] [⟨0, 1, ['S'], 9⟩] [⟨0, 1, ['S'], 9⟩] = .done r ∧
      r.report.Status = 0 ∧
      ((r.report.recall_pct = 100 ∧ r.report.precision_pct = 100) ↔
        (real_brackets (massage_data ⟨10, 40, 1, [], [], [], []⟩
            [⟨0, 1, ['S'], 9⟩] [⟨0, 1, ['S'], 9⟩]).bracket1 ≠ [] ∧
          SameCollection ⟨10, 40, 1, [], [], [], []⟩
            (real_brackets (massage_data ⟨10, 40, 1, [], [], [], []⟩
              [⟨0, 1, ['S'], 9⟩] [⟨0, 1, ['S'], 9⟩]).bracket1)
            (real_brackets (massage_data ⟨10, 40, 1, [], [], [], []⟩
              [⟨0, 1, ['S'], 9⟩] [⟨0, 1, ['S'], 9⟩]).bracket2))) := by
  obtain ⟨r, hr, hs, _⟩ := calc_result_ok ⟨10, 40, 1, [], [], [], []⟩ ⟨0, 0⟩ init_global 1
    [⟨['a'], ['N'], 9⟩] [⟨['a'], ['N'], 9⟩] [⟨0, 1, ['S'], 9⟩] [⟨0, 1, ['S'], 9⟩]
    (by simp) rfl (by decide)
  exact ⟨r, hr, hs, (recall_precision_100 _ _ _ _ _ _ _ _ r hr hs (by decide)).2.1
    (labelTransitive_of_nil _ rfl)⟩

/-- C5 on a crossing pair, with the gold array reordered. -/
theorem crossing_count_spec_witness :
    [(⟨0, 3, ['S'], 0⟩ : s_bracket), ⟨0, 2, ['A'], 0⟩].Perm [⟨0, 2, ['A'], 0⟩, ⟨0, 3, ['S'], 0⟩] ∧
    cross_loop
      (match_loop ⟨10, 40, 1, [], [], [], []⟩ [⟨0, 2, ['A'], 0⟩, ⟨0, 3, ['S'], 0⟩]
        [⟨0, 3, ['S'], 0⟩, ⟨1, 3, ['B'], 0⟩]).bracket1
      (match_loop ⟨10, 40, 1, [], [], [], []⟩ [⟨0, 2, ['A'], 0⟩, ⟨0, 3, ['S'], 0⟩]
        [⟨0, 3, ['S'], 0⟩, ⟨1, 3, ['B'], 0⟩]).bracket2
    = cross_loop
      (match_loop ⟨10, 40, 1, [], [], [], []⟩ [⟨0, 3, ['S'], 0⟩, ⟨0, 2, ['A'], 0⟩]
        [⟨0, 3, ['S'], 0⟩, ⟨1, 3, ['B'], 0⟩]).bracket1
      (match_loop ⟨10, 40, 1, [], [], [], []⟩ [⟨0, 3, ['S'], 0⟩, ⟨0, 2, ['A'], 0⟩]
        [⟨0, 3, ['S'], 0⟩, ⟨1, 3, ['B'], 0⟩]).bracket2 :=
  ⟨List.Perm.swap _ _ _,
    (crossing_count_spec ⟨10, 40, 1, [], [], [], []⟩ [⟨0, 3, ['S'], 0⟩, ⟨0, 2, ['A'], 0⟩]
      [⟨0, 3, ['S'], 0⟩, ⟨1, 3, ['B'], 0⟩]).2.2 _ _ (List.Perm.swap _ _ _) (List.Perm.refl _)⟩

/-- C7 with an empty registry and the delete label `TOP`: the bracket
`(0,2,TOP-1)` is deleted. -/
theorem massage_data_spec_witness :
    (⟨10, 40, 1, [['T', 'O', 'P']], [], [], []⟩ : Config).EQ_label = [] ∧
    ((massage_bracket ⟨10, 40, 1, [['T', 'O', 'P']], [], [], []⟩
        ⟨0, 2, ['T', 'O', 'P', '-', '1'], 9⟩).result = 5 ↔
      ((0 : Int) = 2 ∨ modify_label ['T', 'O', 'P', '-', '1'] ∈ [['T', 'O', 'P']])) :=
  ⟨rfl, ((massage_data_spec ⟨10, 40, 1, [['T', 'O', 'P']], [], [], []⟩ [] []).2.2.1
    ⟨0, 2, ['T', 'O', 'P', '-', '1'], 9⟩).2.2 rfl⟩

theorem add_result_error (t : Totals) (wn1 bn1 bn2 m c ct : Nat) :
    OneMoreError t (add_result 1 t wn1 bn1 bn2 m c ct) := by
  simp [add_result, OneMoreError, SameScores]

theorem add_result_skip (t : Totals) (wn1 bn1 bn2 m c ct : Nat) :
    OneMoreSkip t (add_result 2 t wn1 bn1 bn2 m c ct) := by
  simp [add_result, OneMoreSkip, SameScores]

/-- C12. When the status is Error (1) or Skip (2), `individual_result` adds
one to the sentence counter and to the error or skip counter of the
unconditional totals, does the same to the totals for length `<= TOT_cut_len`
or leaves them as they are, and changes no bracket, match, complete-match,
word, crossing or tag counter of either, whatever arguments are passed. -/
theorem individual_result_error_skip (cfg : Config) (Status r_wn1 r_bn1 r_bn2 : Nat)
    (tot : Totals × Totals) (wn1 bn1 bn2 m c ct : Nat) (h : Status = 1 ∨ Status = 2) :
    SameScores (individual_result cfg Status r_wn1 r_bn1 r_bn2 tot wn1 bn1 bn2 m c ct).1.1 tot.1 ∧
    SameScores (individual_result cfg Status r_wn1 r_bn1 r_bn2 tot wn1 bn1 bn2 m c ct).1.2 tot.2 ∧
    (Status = 1 →
      OneMoreError tot.1 (individual_result cfg Status r_wn1 r_bn1 r_bn2 tot wn1 bn1 bn2 m c ct).1.1 ∧
      ((individual_result cfg Status r_wn1 r_bn1 r_bn2 tot wn1 bn1 bn2 m c ct).1.2 = tot.2 ∨
        OneMoreError tot.2
          (individual_result cfg Status r_wn1 r_bn1 r_bn2 tot wn1 bn1 bn2 m c ct).1.2)) ∧
    (Status = 2 →
      OneMoreSkip tot.1 (individual_result cfg Status r_wn1 r_bn1 r_bn2 tot wn1 bn1 bn2 m c ct).1.1 ∧
      ((individual_result cfg Status r_wn1 r_bn1 r_bn2 tot wn1 bn1 bn2 m c ct).1.2 = tot.2 ∨
        OneMoreSkip tot.2
          (individual_result cfg Status r_wn1 r_bn1 r_bn2 tot wn1 bn1 bn2 m c ct).1.2)) := by
  have e1 := add_result_error tot.1 wn1 bn1 bn2 m c ct
  have e2 := add_result_error tot.2 wn1 bn1 bn2 m c ct
  have s1 := add_result_skip tot.1 wn1 bn1 bn2 m c ct
  have s2 := add_result_skip tot.2 wn1 bn1 bn2 m c ct
  have hs : ∀ a : Totals, SameScores a a := fun a => ⟨rfl, rfl, rfl, rfl, rfl, rfl, rfl, rfl, rfl⟩
  unfold individual_result
  rcases h with h | h <;> subst h <;> by_cases hc : (r_wn1 : Int) ≤ cfg.TOT_cut_len <;>
    simp only [hc, if_true, if_false]
  · exact ⟨e1.1, e2.1, fun _ => ⟨e1, Or.inr e2⟩, fun h => absurd h (by decide)⟩
  · exact ⟨e1.1, hs _, fun _ => ⟨e1, Or.inl trivial⟩, fun h => absurd h (by decide)⟩
  · exact ⟨s1.1, s2.1, fun h => absurd h (by decide), fun _ => ⟨s1, Or.inr s2⟩⟩
  · exact ⟨s1.1, hs _, fun h => absurd h (by decide), fun _ => ⟨s1, Or.inl trivial⟩⟩

theorem add_result_increments (Status : Nat) (a b : Totals) (wn1 bn1 bn2 m c ct : Nat) :
    SameIncrements a (add_result Status a wn1 bn1 bn2 m c ct)
      b (add_result Status b wn1 bn1 bn2 m c ct) := by
  unfold SameIncrements add_result
  by_cases h1 : (Status == 1) = true
  · simp only [h1, if_true]
    refine ⟨?_, ?_, ?_, ?_, ?_, ?_, ?_, ?_, ?_, ?_, ?_, ?_⟩ <;> omega
  · by_cases h2 : (Status == 2) = true
    · simp only [h1, h2, if_true, if_false, Bool.false_eq_true]
      refine ⟨?_, ?_, ?_, ?_, ?_, ?_, ?_, ?_, ?_, ?_, ?_, ?_⟩ <;> omega
    · simp only [h1, h2, if_false, Bool.false_eq_true]
      refine ⟨?_, ?_, ?_, ?_, ?_, ?_, ?_, ?_, ?_, ?_, ?_, ?_⟩ <;> (try split_ifs) <;> omega

/-- C13. `individual_result` always updates the unconditional totals (one
more sentence); when `r_wn1 <= TOT_cut_len` it applies to the totals for
length `<= TOT_cut_len` the same increments, counter by counter, and when
`r_wn1 > TOT_cut_len` it leaves every counter of those totals unchanged. -/
theorem individual_result_cutoff (cfg : Config) (Status r_wn1 r_bn1 r_bn2 : Nat)
    (tot : Totals × Totals) (wn1 bn1 bn2 m c ct : Nat) :
    (individual_result cfg Status r_wn1 r_bn1 r_bn2 tot wn1 bn1 bn2 m c ct).1.1.sent
      = tot.1.sent + 1 ∧
    ((r_wn1 : Int) ≤ cfg.TOT_cut_len →
      SameIncrements tot.2 (individual_result cfg Status r_wn1 r_bn1 r_bn2 tot wn1 bn1 bn2 m c ct).1.2
        tot.1 (individual_result cfg Status r_wn1 r_bn1 r_bn2 tot wn1 bn1 bn2 m c ct).1.1) ∧
    (cfg.TOT_cut_len < (r_wn1 : Int) →
      (individual_result cfg Status r_wn1 r_bn1 r_bn2 tot wn1 bn1 bn2 m c ct).1.2 = tot.2) := by
  refine ⟨?_, ?_, ?_⟩
  · unfold individual_result add_result
    simp only
    split_ifs <;> rfl
  · intro h
    unfold individual_result
    simp only [h, if_true]
    exact add_result_increments Status tot.2 tot.1 wn1 bn1 bn2 m c ct
  · intro h
    have h' : ¬ ((r_wn1 : Int) ≤ cfg.TOT_cut_len) := by omega
    unfold individual_result
    simp only [h', if_false]

theorem equiv_comp_iff (tbl : List (Str × Str)) (a b : Str) :
    equiv_comp tbl a b = true ↔ (a = b ∨ Paired tbl a b) := by
  unfold equiv_comp Paired
  by_cases h : a = b
  · simp [h]
  · simp only [beq_iff_eq, h, if_false, false_or, List.any_eq_true, Bool.or_eq_true,
      Bool.and_eq_true]

theorem words_unmatch_iff (cfg : Config) : ∀ (t1 t2 : List s_terminal),
    words_unmatch cfg t1 t2 = true ↔ WordsDiffer cfg t1 t2
  | [], _ => by simp [words_unmatch, WordsDiffer]
  | _ :: _, [] => by simp [words_unmatch, WordsDiffer]
  | a :: r1, b :: r2 => by
    have ih := words_unmatch_iff cfg r1 r2
    unfold words_unmatch
    unfold WordsDiffer at ih ⊢
    by_cases hc : word_comp cfg a.word b.word = true
    · have hc' := (equiv_comp_iff cfg.EQ_word a.word b.word).1 hc
      simp only [hc, if_true, ih, List.zip_cons_cons, List.mem_cons]
      constructor
      · rintro ⟨p, hp, hn⟩
        exact ⟨p, Or.inr hp, hn⟩
      · rintro ⟨p, hp | hp, hn⟩
        · subst hp; exact absurd hc' hn
        · exact ⟨p, hp, hn⟩
    · simp only [hc, if_false, Bool.false_eq_true, true_iff]
      refine ⟨(a, b), by simp, ?_⟩
      intro h
      exact hc ((equiv_comp_iff cfg.EQ_word a.word b.word).2 h)

theorem calc_result_skip (cfg : Config) (g : Globals) (tot : Totals × Totals) (r_wn1 : Nat)
    (t1 : List s_terminal) (b1 b2 : List s_bracket) :
    calc_result cfg g tot r_wn1 t1 [] b1 b2
      = .done ⟨t1, [], b1, b2, { g with Status := 2 },
          (individual_result cfg 2 r_wn1 0 0 tot 0 0 0 0 0 0).1,
          (individual_result cfg 2 r_wn1 0 0 tot 0 0 0 0 0 0).2⟩ := by
  simp [calc_result]

/-- The two error returns of `calc_result`: `Error`, then, unless it exits,
`individual_result(0,0,0,0,0,0)` with the arrays as they were. -/
theorem calc_result_error (cfg : Config) (g : Globals) (tot : Totals × Totals) (r_wn1 : Nat)
    (t1 t2 : List s_terminal) (b1 b2 : List s_bracket) (h1 : t2 ≠ [])
    (h2 : t1.length ≠ t2.length ∨ words_unmatch cfg t1 t2 = true) :
    calc_result cfg g tot r_wn1 t1 t2 b1 b2
      = if (Error cfg g).2 = true then .exited (Error cfg g).1
        else .done ⟨t1, t2, b1, b2, (Error cfg g).1,
          (individual_result cfg 1 r_wn1 0 0 tot 0 0 0 0 0 0).1,
          (individual_result cfg 1 r_wn1 0 0 tot 0 0 0 0 0 0).2⟩ := by
  have e1 : (t2.length == 0) = false := by
    cases t2 with
    | nil => exact absurd rfl h1
    | cons a l => simp
  unfold calc_result
  simp only [e1, Bool.false_eq_true, if_false]
  by_cases hl : t1.length = t2.length
  · have hw : words_unmatch cfg t1 t2 = true := h2.resolve_left (fun h => h hl)
    simp only [hl, bne_self_eq_false, Bool.false_eq_true, if_false, hw, if_true]
    by_cases he : (g.Error_count : Int) > cfg.Max_error <;> simp [Error, he]
  · have hl' : (t1.length != t2.length) = true := by simpa using hl
    simp only [hl', if_true]
    by_cases he : (g.Error_count : Int) > cfg.Max_error <;> simp [Error, he]

/-- The scoring return of `calc_result`. -/
theorem calc_result_scored (cfg : Config) (g : Globals) (tot : Totals × Totals) (r_wn1 : Nat)
    (t1 t2 : List s_terminal) (b1 b2 : List s_bracket) (h1 : t2 ≠ [])
    (h2 : t1.length = t2.length) (h3 : words_unmatch cfg t1 t2 = false) :
    calc_result cfg g tot r_wn1 t1 t2 b1 b2
      = .done ⟨(tag_loop cfg t1 t2).terminal1, (tag_loop cfg t1 t2).terminal2,
          (match_loop cfg (massage_data cfg b1 b2).bracket1
            (massage_data cfg b1 b2).bracket2).bracket1,
          (match_loop cfg (massage_data cfg b1 b2).bracket1
            (massage_data cfg b1 b2).bracket2).bracket2,
          g,
          (individual_result cfg g.Status r_wn1 (massage_data cfg b1 b2).r_bn1
            (massage_data cfg b1 b2).r_bn2 tot t1.length (massage_data cfg b1 b2).r_bn1
            (massage_data cfg b1 b2).r_bn2 (match_of cfg b1 b2) (crossing_of cfg b1 b2)
            (tag_loop cfg t1 t2).correct_tag).1,
          (individual_result cfg g.Status r_wn1 (massage_data cfg b1 b2).r_bn1
            (massage_data cfg b1 b2).r_bn2 tot t1.length (massage_data cfg b1 b2).r_bn1
            (massage_data cfg b1 b2).r_bn2 (match_of cfg b1 b2) (crossing_of cfg b1 b2)
            (tag_loop cfg t1 t2).correct_tag).2⟩ := by
  have e1 : (t2.length == 0) = false := by
    cases t2 with
    | nil => exact absurd rfl h1
    | cons a l => simp
  unfold calc_result
  simp only [e1, Bool.false_eq_true, if_false, h2, bne_self_eq_false, h3]
  rfl

theorem individual_result_error (cfg : Config) (r_wn1 r_bn1 r_bn2 : Nat) (tot : Totals × Totals)
    (wn1 bn1 bn2 m c ct : Nat) :
    OneMoreError tot.1 (individual_result cfg 1 r_wn1 r_bn1 r_bn2 tot wn1 bn1 bn2 m c ct).1.1 ∧
    ((r_wn1 : Int) ≤ cfg.TOT_cut_len →
      OneMoreError tot.2 (individual_result cfg 1 r_wn1 r_bn1 r_bn2 tot wn1 bn1 bn2 m c ct).1.2) ∧
    (cfg.TOT_cut_len < (r_wn1 : Int) →
      (individual_result cfg 1 r_wn1 r_bn1 r_bn2 tot wn1 bn1 bn2 m c ct).1.2 = tot.2) := by
  unfold individual_result
  refine ⟨add_result_error tot.1 wn1 bn1 bn2 m c ct, ?_, ?_⟩
  · intro h
    simp only [h, if_true]
    exact add_result_error tot.2 wn1 bn1 bn2 m c ct
  · intro h
    have h' : ¬ ((r_wn1 : Int) ≤ cfg.TOT_cut_len) := by omega
    simp only [h', if_false]

theorem individual_result_skip (cfg : Config) (r_wn1 r_bn1 r_bn2 : Nat) (tot : Totals × Totals)
    (wn1 bn1 bn2 m c ct : Nat) :
    OneMoreSkip tot.1 (individual_result cfg 2 r_wn1 r_bn1 r_bn2 tot wn1 bn1 bn2 m c ct).1.1 ∧
    ((r_wn1 : Int) ≤ cfg.TOT_cut_len →
      OneMoreSkip tot.2 (individual_result cfg 2 r_wn1 r_bn1 r_bn2 tot wn1 bn1 bn2 m c ct).1.2) ∧
    (cfg.TOT_cut_len < (r_wn1 : Int) →
      (individual_result cfg 2 r_wn1 r_bn1 r_bn2 tot wn1 bn1 bn2 m c ct).1.2 = tot.2) := by
  unfold individual_result
  refine ⟨add_result_skip tot.1 wn1 bn1 bn2 m c ct, ?_, ?_⟩
  · intro h
    simp only [h, if_true]
    exact add_result_skip tot.2 wn1 bn1 bn2 m c ct
  · intro h
    have h' : ¬ ((r_wn1 : Int) ≤ cfg.TOT_cut_len) := by omega
    simp only [h', if_false]

theorem calc_result_skip_spec (cfg : Config) (g : Globals) (tot : Totals × Totals) (r_wn1 : Nat)
    (t1 t2 : List s_terminal) (b1 b2 : List s_bracket) (h : t2.length = 0) :
    ∃ r, calc_result cfg g tot r_wn1 t1 t2 b1 b2 = .done r ∧
      r.g.Status = 2 ∧ r.g.Error_count = g.Error_count ∧ r.report.Status = 2 ∧
      OneMoreSkip tot.1 r.tot.1 ∧
      ((r_wn1 : Int) ≤ cfg.TOT_cut_len → OneMoreSkip tot.2 r.tot.2) ∧
      (cfg.TOT_cut_len < (r_wn1 : Int) → r.tot.2 = tot.2) := by
  have e : t2 = [] := List.length_eq_zero.1 h
  subst e
  have hs := individual_result_skip cfg r_wn1 0 0 tot 0 0 0 0 0 0
  exact ⟨_, calc_result_skip cfg g tot r_wn1 t1 b1 b2, rfl, rfl, rfl, hs.1, hs.2.1, hs.2.2⟩

/-- C16. When the test sentence has no terminal (`wn2 == 0`), whatever the
gold sentence holds, `calc_result` sets the status Skip (2), calls no `Error`,
and `individual_result` adds one to the sentence counter and one to the skip
counter of the unconditional totals and nothing else; the totals for length
`<= TOT_cut_len` get the same two increments when `r_wn1 <= TOT_cut_len` and
are unchanged otherwise. -/
theorem skip_on_empty_test (cfg : Config) (g : Globals) (tot : Totals × Totals) (r_wn1 : Nat)
    (t1 t2 : List s_terminal) (b1 b2 : List s_bracket) (h : t2.length = 0) :
    ∃ r, calc_result cfg g tot r_wn1 t1 t2 b1 b2 = .done r ∧
      r.g.Status = 2 ∧ r.g.Error_count = g.Error_count ∧ r.report.Status = 2 ∧
      OneMoreSkip tot.1 r.tot.1 ∧
      ((r_wn1 : Int) ≤ cfg.TOT_cut_len → OneMoreSkip tot.2 r.tot.2) ∧
      (cfg.TOT_cut_len < (r_wn1 : Int) → r.tot.2 = tot.2) :=
  calc_result_skip_spec cfg g tot r_wn1 t1 t2 b1 b2 h

theorem calc_result_error_spec (cfg : Config) (g : Globals) (tot : Totals × Totals) (r_wn1 : Nat)
    (t1 t2 : List s_terminal) (b1 b2 : List s_bracket) (h1 : t2.length ≠ 0)
    (h2 : t1.length ≠ t2.length ∨ words_unmatch cfg t1 t2 = true) :
    (Error cfg g).1.Status = 1 ∧
    ((Error cfg g).2 = true → calc_result cfg g tot r_wn1 t1 t2 b1 b2 = .exited (Error cfg g).1) ∧
    ((Error cfg g).2 = false →
      ∃ r, calc_result cfg g tot r_wn1 t1 t2 b1 b2 = .done r ∧
        r.g = (Error cfg g).1 ∧ r.report.Status = 1 ∧
        r.terminal1 = t1 ∧ r.terminal2 = t2 ∧ r.bracket1 = b1 ∧ r.bracket2 = b2 ∧
        r.report.wn1 = 0 ∧ r.report.r_bn1 = 0 ∧ r.report.r_bn2 = 0 ∧ r.report.match_ = 0 ∧
        r.report.crossing = 0 ∧ r.report.correct_tag = 0 ∧
        OneMoreError tot.1 r.tot.1 ∧
        ((r_wn1 : Int) ≤ cfg.TOT_cut_len → OneMoreError tot.2 r.tot.2) ∧
        (cfg.TOT_cut_len < (r_wn1 : Int) → r.tot.2 = tot.2)) := by
  have hne : t2 ≠ [] := fun e => h1 (by simp [e])
  have hc := calc_result_error cfg g tot r_wn1 t1 t2 b1 b2 hne h2
  have hs := individual_result_error cfg r_wn1 0 0 tot 0 0 0 0 0 0
  refine ⟨rfl, ?_, ?_⟩
  · intro he
    rw [hc, if_pos he]
  · intro he
    have he' : ¬ ((Error cfg g).2 = true) := by simp [he]
    rw [hc, if_neg he']
    exact ⟨_, rfl, rfl, rfl, rfl, rfl, rfl, rfl, rfl, rfl, rfl, rfl, rfl, rfl, hs.1, hs.2.1, hs.2.2⟩

/-- C17, amended. For a sentence pair with equal non-zero terminal counts
and no parse error (status 0 on entry): when no position holds words that
differ (neither identical nor paired in the word registry), `calc_result`
scores the pair with Ok status; when some position does, `calc_result` calls
`Error`, which sets the status Error, and, unless `Error` exits the process
(the counter was above `Max_error`), hands an all-zero result to
`individual_result` with the arrays untouched by massaging, matching or
tagging. So a returning `calc_result` reports Error status exactly when some
position holds differing words. -/
theorem words_unmatch_spec (cfg : Config) (g : Globals) (tot : Totals × Totals) (r_wn1 : Nat)
    (t1 t2 : List s_terminal) (b1 b2 : List s_bracket) (h1 : t2.length ≠ 0)
    (h2 : t1.length = t2.length) (h0 : g.Status = 0) :
    (¬ WordsDiffer cfg t1 t2 →
      ∃ r, calc_result cfg g tot r_wn1 t1 t2 b1 b2 = .done r ∧ r.g = g ∧
        r.report.Status = 0 ∧ r.report.wn1 = t1.length ∧
        r.report.match_ = match_of cfg b1 b2 ∧ r.report.crossing = crossing_of cfg b1 b2 ∧
        r.report.correct_tag = (tag_loop cfg t1 t2).correct_tag) ∧
    (WordsDiffer cfg t1 t2 →
      (Error cfg g).1.Status = 1 ∧
      ((Error cfg g).2 = true →
        calc_result cfg g tot r_wn1 t1 t2 b1 b2 = .exited (Error cfg g).1) ∧
      ((Error cfg g).2 = false →
        ∃ r, calc_result cfg g tot r_wn1 t1 t2 b1 b2 = .done r ∧
          r.g = (Error cfg g).1 ∧ r.report.Status = 1 ∧
          r.terminal1 = t1 ∧ r.terminal2 = t2 ∧ r.bracket1 = b1 ∧ r.bracket2 = b2 ∧
          r.report.wn1 = 0 ∧ r.report.r_bn1 = 0 ∧ r.report.r_bn2 = 0 ∧ r.report.match_ = 0 ∧
          r.report.crossing = 0 ∧ r.report.correct_tag = 0 ∧
          OneMoreError tot.1 r.tot.1 ∧
          ((r_wn1 : Int) ≤ cfg.TOT_cut_len → OneMoreError tot.2 r.tot.2) ∧
          (cfg.TOT_cut_len < (r_wn1 : Int) → r.tot.2 = tot.2))) ∧
    (∀ r, calc_result cfg g tot r_wn1 t1 t2 b1 b2 = .done r →
      (r.report.Status = 1 ↔ WordsDiffer cfg t1 t2)) := by
  have hne : t2 ≠ [] := fun e => h1 (by simp [e])
  have ok : ¬ WordsDiffer cfg t1 t2 →
      ∃ r, calc_result cfg g tot r_wn1 t1 t2 b1 b2 = .done r ∧ r.g = g ∧
        r.report.Status = 0 ∧ r.report.wn1 = t1.length ∧
        r.report.match_ = match_of cfg b1 b2 ∧ r.report.crossing = crossing_of cfg b1 b2 ∧
        r.report.correct_tag = (tag_loop cfg t1 t2).correct_tag := by
    intro hw
    have hw' : words_unmatch cfg t1 t2 = false := by
      cases e : words_unmatch cfg t1 t2
      · rfl
      · exact absurd ((words_unmatch_iff cfg t1 t2).1 e) hw
    exact ⟨_, calc_result_scored cfg g tot r_wn1 t1 t2 b1 b2 hne h2 hw', rfl, h0, rfl, rfl, rfl,
      rfl⟩
  have bad := fun (hw : WordsDiffer cfg t1 t2) =>
    calc_result_error_spec cfg g tot r_wn1 t1 t2 b1 b2 h1
      (Or.inr ((words_unmatch_iff cfg t1 t2).2 hw))
  refine ⟨ok, bad, ?_⟩
  intro r hr
  by_cases hw : WordsDiffer cfg t1 t2
  · obtain ⟨_, b, c⟩ := bad hw
    cases he : (Error cfg g).2
    · obtain ⟨r', hr', _, hs, _⟩ := c he
      rw [hr] at hr'
      injection hr' with hr'
      subst hr'
      simp [hs, hw]
    · rw [b he] at hr
      simp at hr
  · obtain ⟨r', hr', _, hs, _⟩ := ok hw
    rw [hr] at hr'
    injection hr' with hr'
    subst hr'
    simp [hs, hw]

/-- C17 as stated fails where `Error` exits. With `Max_error = 0` and one
error counted before, the lines `(S (N a))` and `(S (N b))` have one terminal
each and parse without error, their words differ, and `calc_result` ends the
process inside `Error`: nothing is handed to `individual_result`. -/
theorem words_unmatch_counterexample :
    read_line ⟨0, 40, 1, [], [], [], []⟩ ⟨0, 1⟩ "(S (N a))".data
      = .done ⟨1, [⟨['a'], ['N'], 9⟩], [⟨0, 1, ['S'], 9⟩], ⟨0, 1⟩⟩ ∧
    read_line ⟨0, 40, 1, [], [], [], []⟩ ⟨0, 1⟩ "(S (N b))".data
      = .done ⟨1, [⟨['b'], ['N'], 9⟩], [⟨0, 1, ['S'], 9⟩], ⟨0, 1⟩⟩ ∧
    WordsDiffer ⟨0, 40, 1, [], [], [], []⟩ [⟨['a'], ['N'], 9⟩] [⟨['b'], ['N'], 9⟩] ∧
    score_pair ⟨0, 40, 1, [], [], [], []⟩ ⟨1, 1⟩ init_global "(S (N a))".data "(S (N b))".data
      = .exited ⟨1, 2⟩ := by
  have h1 : read_line ⟨0, 40, 1, [], [], [], []⟩ ⟨0, 1⟩ "(S (N a))".data
      = .done ⟨1, [⟨['a'], ['N'], 9⟩], [⟨0, 1, ['S'], 9⟩], ⟨0, 1⟩⟩ := by decide
  have h2 : read_line ⟨0, 40, 1, [], [], [], []⟩ ⟨0, 1⟩ "(S (N b))".data
      = .done ⟨1, [⟨['b'], ['N'], 9⟩], [⟨0, 1, ['S'], 9⟩], ⟨0, 1⟩⟩ := by decide
  have hw : WordsDiffer ⟨0, 40, 1, [], [], [], []⟩ [⟨['a'], ['N'], 9⟩] [⟨['b'], ['N'], 9⟩] :=
    ⟨(⟨['a'], ['N'], 9⟩, ⟨['b'], ['N'], 9⟩), by simp, by decide⟩
  refine ⟨h1, h2, hw, ?_⟩
  rw [score_pair_eq _ ⟨1, 1⟩ init_global _ _ _ _ h1 h2]
  have hc := calc_result_error ⟨0, 40, 1, [], [], [], []⟩ ⟨0, 1⟩ init_global 1
    [⟨['a'], ['N'], 9⟩] [⟨['b'], ['N'], 9⟩] [⟨0, 1, ['S'], 9⟩] [⟨0, 1, ['S'], 9⟩] (by simp)
    (Or.inr (by decide))
  rw [hc]
  decide

/-- C17 on the lines `(S (N a))` and `(S (N b))` with no error counted
before: the words differ and the pair is reported with Error status. -/
theorem words_unmatch_witness :
    ([⟨['b'], ['N'], 9⟩] : List s_terminal).length ≠ 0 ∧
    ([⟨['a'], ['N'], 9⟩] : List s_terminal).length = ([⟨['b'], ['N'], 9⟩] : List s_terminal).length ∧
    (⟨0, 0⟩ : Globals).Status = 0 ∧
    ∃ r, calc_result ⟨10, 40, 1, [], [], [], []⟩ ⟨0, 0⟩ init_global 1
        [⟨['a'], ['N'], 9⟩] [⟨['b'], ['N'], 9⟩] [⟨0, 1, ['S'], 9⟩] [⟨0, 1, ['S'], 9⟩] = .done r ∧
      r.report.Status = 1 := by
  have hw : WordsDiffer ⟨10, 40, 1, [], [], [], []⟩ [⟨['a'], ['N'], 9⟩] [⟨['b'], ['N'], 9⟩] :=
    ⟨(⟨['a'], ['N'], 9⟩, ⟨['b'], ['N'], 9⟩), by simp, by decide⟩
  obtain ⟨r, hr, _, hs, _⟩ := ((words_unmatch_spec ⟨10, 40, 1, [], [], [], []⟩ ⟨0, 0⟩ init_global 1
    [⟨['a'], ['N'], 9⟩] [⟨['b'], ['N'], 9⟩] [⟨0, 1, ['S'], 9⟩] [⟨0, 1, ['S'], 9⟩]
    (by simp) rfl rfl).2.1 hw).2.2 (by decide)
  exact ⟨by simp, rfl, rfl, r, hr, hs⟩

/-- C16 on the gold terminals of `(S (N a))` against a test sentence without
terminals. -/
theorem skip_on_empty_test_witness :
    ([] : List s_terminal).length = 0 ∧
    ∃ r, calc_result ⟨10, 40, 1, [], [], [], []⟩ ⟨1, 3⟩ init_global 1
        [⟨['a'], ['N'], 9⟩] [] [⟨0, 1, ['S'], 9⟩] [⟨0, 0, ['S'], 9⟩] = .done r ∧
      r.g.Status = 2 ∧ r.g.Error_count = 3 ∧ OneMoreSkip init_global.1 r.tot.1 := by
  obtain ⟨r, hr, a, b, _, c, _⟩ := skip_on_empty_test ⟨10, 40, 1, [], [], [], []⟩ ⟨1, 3⟩
    init_global 1 [⟨['a'], ['N'], 9⟩] [] [⟨0, 1, ['S'], 9⟩] [⟨0, 0, ['S'], 9⟩] rfl
  exact ⟨rfl, r, hr, a, b, c⟩

/-- C12 on an Error result with non-zero arguments. -/
theorem individual_result_error_skip_witness :
    ((1 : Nat) = 1 ∨ (1 : Nat) = 2) ∧
    SameScores (individual_result ⟨10, 40, 1, [], [], [], []⟩ 1 5 4 4 init_global 5 4 4 3 1 5).1.1
      init_global.1 ∧
    SameScores (individual_result ⟨10, 40, 1, [], [], [], []⟩ 1 5 4 4 init_global 5 4 4 3 1 5).1.2
      init_global.2 :=
  ⟨Or.inl rfl,
    (individual_result_error_skip ⟨10, 40, 1, [], [], [], []⟩ 1 5 4 4 init_global 5 4 4 3 1 5
      (Or.inl rfl)).1,
    (individual_result_error_skip ⟨10, 40, 1, [], [], [], []⟩ 1 5 4 4 init_global 5 4 4 3 1 5
      (Or.inl rfl)).2.1⟩

/-- C13 on a sentence of length 41 with the cut-off length 40: the totals
for length `<= 40` stay as they were. -/
theorem individual_result_cutoff_witness :
    (40 : Int) < ((41 : Nat) : Int) ∧
    (individual_result ⟨10, 40, 1, [], [], [], []⟩ 0 41 4 4 init_global 41 4 4 3 1 40).1.2
      = init_global.2 :=
  ⟨by decide,
    (individual_result_cutoff ⟨10, 40, 1, [], [], [], []⟩ 0 41 4 4 init_global 41 4 4 3 1 40).2.2
      (by decide)⟩

theorem Error_count_succ (cfg : Config) (g : Globals) :
    (Error cfg g).1.Error_count = g.Error_count + 1 ∧ (Error cfg g).1.Status = 1 ∧
      ((Error cfg g).2 = true ↔ cfg.Max_error < (g.Error_count : Int)) := by
  simp [Error]

/-- From a counter at 0 the run of `Error` calls goes on through call
number `Max_error + 1` and exits at call number `Max_error + 2`. -/
theorem Error_run_spec (cfg : Config) (hm : -1 ≤ cfg.Max_error) :
    ∀ (n : Nat) (g : Globals), (g.Error_count : Int) + n ≤ cfg.Max_error + 1 →
      Error_run cfg n g = (if n = 0 then g else ⟨1, g.Error_count + n⟩, false)
  | 0, g, _ => by simp [Error_run]
  | n + 1, g, h => by
    have hlt : ¬ ((g.Error_count : Int) > cfg.Max_error) := by push_cast at h; omega
    have ih := Error_run_spec cfg hm n ⟨1, g.Error_count + 1⟩ (by push_cast at h ⊢; omega)
    unfold Error_run
    simp only [Error, hlt, decide_False, ih]
    by_cases hn : n = 0
    · subst hn; simp
    · simp [hn, Nat.add_assoc, Nat.add_comm 1 n]

theorem Error_run_step (cfg : Config) (n : Nat) (g : Globals) :
    Error_run cfg (n + 1) g
      = if (g.Error_count : Int) > cfg.Max_error then (⟨1, g.Error_count + 1⟩, true)
        else Error_run cfg n ⟨1, g.Error_count + 1⟩ := by
  conv_lhs => rw [Error_run]
  simp only [Error]
  by_cases h : (g.Error_count : Int) > cfg.Max_error <;> simp [h]

theorem Error_run_succ (cfg : Config) : ∀ (n : Nat) (g : Globals),
    Error_run cfg (n + 1) g
      = if (Error_run cfg n g).2 = true then Error_run cfg n g
        else Error cfg (Error_run cfg n g).1
  | 0, g => by
    rw [Error_run_step]
    by_cases h : (g.Error_count : Int) > cfg.Max_error <;> simp [Error_run, Error, h]
  | n + 1, g => by
    have ih := Error_run_succ cfg n ⟨1, g.Error_count + 1⟩
    have e1 := Error_run_step cfg (n + 1) g
    have e2 := Error_run_step cfg n g
    rw [e1, e2]
    by_cases h : (g.Error_count : Int) > cfg.Max_error
    · simp [h]
    · simp only [h, if_false]
      exact ih

/-- C11 at the failing input: with `Max_error = 1` and the counter at 0, the
second call of `Error` leaves the counter at 2, above `Max_error`, and does
not exit; the run exits at the third call. In general a call of `Error` adds
one to the counter and exits exactly when the counter before the call was
above `Max_error`, so that from 0 the exit comes at call `Max_error + 2`.
In a run: three sentence pairs with different terminal counts, each calling
`Error` once; the first two are reported and the process ends in the third. -/
theorem error_limit_off_by_one :
    (∀ (cfg : Config) (g : Globals),
      (Error cfg g).1.Error_count = g.Error_count + 1 ∧
      ((Error cfg g).2 = true ↔ cfg.Max_error < (g.Error_count : Int))) ∧
    (∀ (cfg : Config) (g : Globals), -1 ≤ cfg.Max_error → g.Error_count = 0 →
      Error_run cfg (cfg.Max_error + 1).toNat g
        = (if (cfg.Max_error + 1).toNat = 0 then g else ⟨1, (cfg.Max_error + 1).toNat⟩, false) ∧
      Error_run cfg ((cfg.Max_error + 1).toNat + 1) g
        = (⟨1, (cfg.Max_error + 1).toNat + 1⟩, true)) ∧
    Error_run ⟨1, 40, 1, [], [], [], []⟩ 2 ⟨0, 0⟩ = (⟨1, 2⟩, false) ∧
    Error_run ⟨1, 40, 1, [], [], [], []⟩ 3 ⟨0, 0⟩ = (⟨1, 3⟩, true) ∧
    (∃ r1 r2, score_pair ⟨1, 40, 1, [], [], [], []⟩ ⟨0, 0⟩ init_global
        "(S (N a))".data "(S (N a) (N b))".data = .done r1 ∧ r1.g = ⟨1, 1⟩ ∧
      score_pair ⟨1, 40, 1, [], [], [], []⟩ r1.g r1.tot
        "(S (N a))".data "(S (N a) (N b))".data = .done r2 ∧ r2.g = ⟨1, 2⟩ ∧
      score_pair ⟨1, 40, 1, [], [], [], []⟩ r2.g r2.tot
        "(S (N a))".data "(S (N a) (N b))".data = .exited ⟨1, 3⟩) := by
  refine ⟨fun cfg g => ⟨(Error_count_succ cfg g).1, (Error_count_succ cfg g).2.2⟩, ?_,
    by decide, by decide, ?_⟩
  · intro cfg g hm h0
    have hn : ((cfg.Max_error + 1).toNat : Int) = cfg.Max_error + 1 := Int.toNat_of_nonneg (by omega)
    have h1 := Error_run_spec cfg hm (cfg.Max_error + 1).toNat g (by rw [h0]; push_cast; omega)
    have h2 := Error_run_succ cfg (cfg.Max_error + 1).toNat g
    rw [h0, Nat.zero_add] at h1
    refine ⟨h1, ?_⟩
    rw [h2, h1]
    simp only [Bool.false_eq_true, if_false]
    by_cases hz : (cfg.Max_error + 1).toNat = 0
    · have hlt : cfg.Max_error < 0 := by omega
      simp [hz, Error, h0, hlt]
    · have hgt : (((cfg.Max_error + 1).toNat : Nat) : Int) > cfg.Max_error := by omega
      simp [hz, Error, hgt]
  · have h1 : ∀ k : Nat, read_line ⟨1, 40, 1, [], [], [], []⟩ ⟨0, k⟩ "(S (N a))".data
        = .done ⟨1, [⟨['a'], ['N'], 9⟩], [⟨0, 1, ['S'], 9⟩], ⟨0, k⟩⟩ := by
      intro k
      have := read_line_render ⟨1, 40, 1, [], [], [], []⟩ ⟨0, k⟩
        (.node ['S'] (.cons [' '] (.pre ['N'] [' '] ['a']) .nil) []) [] []
        (by simp [Tree.WellFormed, Forest.WellFormed, okToken, allSpace, MAX_LABEL_LEN]; decide)
        (by decide) (by decide) (by simp [allSpace]) (by simp [allSpace])
      simpa [Tree.render, Forest.render, Tree.rawLength, Forest.rawLength, Tree.terminals,
        Forest.terminals, Tree.brackets, Forest.brackets, is_deletelabel,
        is_deletelabel_for_length] using this
    have h2 : ∀ k : Nat, read_line ⟨1, 40, 1, [], [], [], []⟩ ⟨0, k⟩ "(S (N a) (N b))".data
        = .done ⟨2, [⟨['a'], ['N'], 9⟩, ⟨['b'], ['N'], 9⟩], [⟨0, 2, ['S'], 9⟩], ⟨0, k⟩⟩ := by
      intro k
      have := read_line_render ⟨1, 40, 1, [], [], [], []⟩ ⟨0, k⟩
        (.node ['S'] (.cons [' '] (.pre ['N'] [' '] ['a'])
          (.cons [' '] (.pre ['N'] [' '] ['b']) .nil)) []) [] []
        (by simp [Tree.WellFormed, Forest.WellFormed, okToken, allSpace, MAX_LABEL_LEN]; decide)
        (by decide) (by decide) (by simp [allSpace]) (by simp [allSpace])
      simpa [Tree.render, Forest.render, Tree.rawLength, Forest.rawLength, Tree.terminals,
        Forest.terminals, Tree.brackets, Forest.brackets, is_deletelabel,
        is_deletelabel_for_length] using this
    have hc : ∀ (k : Nat) (tot : Totals × Totals),
        score_pair ⟨1, 40, 1, [], [], [], []⟩ ⟨1, k⟩ tot "(S (N a))".data "(S (N a) (N b))".data
          = if (Error ⟨1, 40, 1, [], [], [], []⟩ ⟨0, k⟩).2 = true
            then .exited (Error ⟨1, 40, 1, [], [], [], []⟩ ⟨0, k⟩).1
            else .done ⟨[⟨['a'], ['N'], 9⟩], [⟨['a'], ['N'], 9⟩, ⟨['b'], ['N'], 9⟩],
              [⟨0, 1, ['S'], 9⟩], [⟨0, 2, ['S'], 9⟩],
              (Error ⟨1, 40, 1, [], [], [], []⟩ ⟨0, k⟩).1,
              (individual_result ⟨1, 40, 1, [], [], [], []⟩ 1 1 0 0 tot 0 0 0 0 0 0).1,
              (individual_result ⟨1, 40, 1, [], [], [], []⟩ 1 1 0 0 tot 0 0 0 0 0 0).2⟩ := by
      intro k tot
      rw [score_pair_eq _ ⟨1, k⟩ tot _ _ _ _ (h1 k) (h2 k)]
      exact calc_result_error _ _ _ _ _ _ _ _ (by simp) (Or.inl (by simp))
    have hc0 : score_pair ⟨1, 40, 1, [], [], [], []⟩ ⟨0, 0⟩ init_global
        "(S (N a))".data "(S (N a) (N b))".data = _ :=
      (score_pair_eq _ ⟨0, 0⟩ init_global _ _ _ _ (h1 0) (h2 0)).trans
        (calc_result_error _ _ _ _ _ _ _ _ (by simp) (Or.inl (by simp)))
    exact ⟨_, _, hc0.trans (if_neg (by decide)), rfl, (hc 1 _).trans (if_neg (by decide)), rfl,
      (hc 2 _).trans (if_pos (by decide))⟩

theorem add_result_comm (s1 s2 : Nat) (t : Totals) (w1 a1 b1 m1 c1 g1 w2 a2 b2 m2 c2 g2 : Nat) :
    add_result s2 (add_result s1 t w1 a1 b1 m1 c1 g1) w2 a2 b2 m2 c2 g2
      = add_result s1 (add_result s2 t w2 a2 b2 m2 c2 g2) w1 a1 b1 m1 c1 g1 := by
  unfold add_result
  by_cases h1 : (s1 == 1) = true <;> by_cases h1' : (s1 == 2) = true <;>
    by_cases h2 : (s2 == 1) = true <;> by_cases h2' : (s2 == 2) = true <;>
    simp only [h1, h1', h2, h2', if_true, if_false, Bool.false_eq_true, Totals.mk.injEq] <;>
    (refine ⟨?_, ?_, ?_, ?_, ?_, ?_, ?_, ?_, ?_, ?_, ?_, ?_⟩ <;> (try split_ifs) <;> first | omega | trivial)

theorem add_sentence_comm (cfg : Config) (t : Totals × Totals) (x y : SentResult) :
    add_sentence cfg (add_sentence cfg t x) y = add_sentence cfg (add_sentence cfg t y) x := by
  unfold add_sentence individual_result
  simp only
  by_cases hx : (x.r_wn1 : Int) ≤ cfg.TOT_cut_len <;>
    by_cases hy : (y.r_wn1 : Int) ≤ cfg.TOT_cut_len <;>
    simp only [hx, hy, if_true, if_false, Prod.mk.injEq, and_true, true_and] <;>
    first
      | exact ⟨add_result_comm _ _ _ _ _ _ _ _ _ _ _ _ _ _ _, add_result_comm _ _ _ _ _ _ _ _ _ _ _ _ _ _ _⟩
      | exact add_result_comm _ _ _ _ _ _ _ _ _ _ _ _ _ _ _

theorem add_sentences_perm (cfg : Config) (xs ys : List SentResult) (h : xs.Perm ys) :
    add_sentences cfg xs = add_sentences cfg ys :=
  h.foldl_eq' (fun x _ y _ z => add_sentence_comm cfg z x y) init_global

/-- C14. The totals that `init_global` and the calls of `individual_result`
produce for a finite sequence of per-sentence results are the same, in every
counter of both sets, for every permutation of the sequence. -/
theorem totals_perm_invariant (cfg : Config) (xs ys : List SentResult) (h : xs.Perm ys) :
    add_sentences cfg xs = add_sentences cfg ys :=
  add_sentences_perm cfg xs ys h

/-- C14 on an Ok result and an Error result in both orders. -/
theorem totals_perm_invariant_witness :
    [(⟨0, 5, 4, 4, 5, 4, 4, 3, 1, 5⟩ : SentResult), ⟨1, 41, 0, 0, 0, 0, 0, 0, 0, 0⟩].Perm
      [⟨1, 41, 0, 0, 0, 0, 0, 0, 0, 0⟩, ⟨0, 5, 4, 4, 5, 4, 4, 3, 1, 5⟩] ∧
    add_sentences ⟨10, 40, 1, [], [], [], []⟩
        [⟨0, 5, 4, 4, 5, 4, 4, 3, 1, 5⟩, ⟨1, 41, 0, 0, 0, 0, 0, 0, 0, 0⟩]
      = add_sentences ⟨10, 40, 1, [], [], [], []⟩
        [⟨1, 41, 0, 0, 0, 0, 0, 0, 0, 0⟩, ⟨0, 5, 4, 4, 5, 4, 4, 3, 1, 5⟩] :=
  ⟨List.Perm.swap _ _ _, totals_perm_invariant _ _ _ (List.Perm.swap _ _ _)⟩

theorem modify_label_isPrefix : ∀ l : Str, modify_label l <+: l
  | [] => List.nil_prefix
  | c :: cs => by
    unfold modify_label
    split
    · exact List.nil_prefix
    · exact (List.prefix_cons_inj c).2 (modify_label_isPrefix cs)

theorem modify_label_clean : ∀ l : Str, ∀ c ∈ modify_label l, c ≠ '-' ∧ c ≠ '='
  | [], c, h => by simp [modify_label] at h
  | d :: ds, c, h => by
    unfold modify_label at h
    split at h
    · simp at h
    · rename_i hd
      rcases List.mem_cons.1 h with rfl | h'
      · simpa using hd
      · exact modify_label_clean ds c h'

theorem modify_label_longest : ∀ l p : Str, p <+: l → (∀ c ∈ p, c ≠ '-' ∧ c ≠ '=') →
    p <+: modify_label l
  | [], p, hp, _ => by
    rw [List.prefix_nil] at hp
    subst hp
    exact List.nil_prefix
  | d :: ds, [], _, _ => List.nil_prefix
  | d :: ds, c :: p, hp, hc => by
    rw [List.cons_prefix_cons] at hp
    obtain ⟨rfl, hp⟩ := hp
    have hd := hc c (List.mem_cons_self _ _)
    unfold modify_label
    have : (c == '-' || c == '=') = false := by simp [hd.1, hd.2]
    rw [this]
    simp only [Bool.false_eq_true, if_false]
    exact (List.prefix_cons_inj c).2
      (modify_label_longest ds p hp (fun x hx => hc x (List.mem_cons_of_mem _ hx)))

theorem modify_label_of_clean (l : Str) (h : ∀ c ∈ l, c ≠ '-' ∧ c ≠ '=') : modify_label l = l :=
  List.IsPrefix.eq_of_length_le (modify_label_isPrefix l)
    (modify_label_longest l l (List.prefix_refl l) h).length_le

/-- C20. For every label, `modify_label` yields a prefix of the label that
contains neither `-` nor `=`, and every prefix of the label with neither
character is a prefix of it (so it is the longest one); a label with neither
character comes back unchanged, and `modify_label` applied twice gives what
it gives applied once. -/
theorem modify_label_spec (l : Str) :
    modify_label l <+: l ∧
    (∀ c ∈ modify_label l, c ≠ '-' ∧ c ≠ '=') ∧
    (∀ p : Str, p <+: l → (∀ c ∈ p, c ≠ '-' ∧ c ≠ '=') →
      p <+: modify_label l ∧ p.length ≤ (modify_label l).length) ∧
    ((∀ c ∈ l, c ≠ '-' ∧ c ≠ '=') → modify_label l = l) ∧
    modify_label (modify_label l) = modify_label l :=
  ⟨modify_label_isPrefix l, modify_label_clean l,
    fun p hp hc => ⟨modify_label_longest l p hp hc, (modify_label_longest l p hp hc).length_le⟩,
    modify_label_of_clean l,
    modify_label_of_clean _ (modify_label_clean l)⟩

/-- C20 on labels of the treebank: `NP-SBJ-1` and `NP=2` become `NP`, `NP`
stays, and `-NONE-` becomes the empty label. -/
theorem modify_label_examples :
    modify_label "NP-SBJ-1".data = "NP".data ∧ modify_label "NP=2".data = "NP".data ∧
    modify_label "NP".data = "NP".data ∧ modify_label "-NONE-".data = [] := by
  decide

theorem label_comp_iff (cfg : Config) (a b : s_terminal) :
    label_comp cfg a.label b.label = true ↔ TagAgrees cfg (a, b) := by
  unfold label_comp TagAgrees
  exact equiv_comp_iff cfg.EQ_label a.label b.label

theorem tag_loop_spec (cfg : Config) : ∀ (t1 t2 : List s_terminal), t1.length = t2.length →
    (tag_loop cfg t1 t2).correct_tag
      = (List.zip t1 t2).countP (fun p => decide (TagAgrees cfg p)) ∧
    (tag_loop cfg t1 t2).terminal1
      = (List.zip t1 t2).map (fun p => { p.1 with result := tag_mark cfg p }) ∧
    (tag_loop cfg t1 t2).terminal2
      = (List.zip t1 t2).map (fun p => { p.2 with result := tag_mark cfg p })
  | [], [], _ => by simp [tag_loop]
  | [], _ :: _, h => by simp at h
  | _ :: _, [], h => by simp at h
  | a :: r1, b :: r2, h => by
    have ih := tag_loop_spec cfg r1 r2 (by simpa using h)
    unfold tag_loop
    by_cases hc : label_comp cfg a.label b.label = true
    · have ha : TagAgrees cfg (a, b) := (label_comp_iff cfg a b).1 hc
      simp only [hc, if_true, List.zip_cons_cons, List.map_cons, tag_mark, ha, ih.1, ih.2.1,
        ih.2.2, List.countP_cons_of_pos, decide_True]
      exact ⟨trivial, trivial, trivial⟩
    · have ha : ¬ TagAgrees cfg (a, b) := fun x => hc ((label_comp_iff cfg a b).2 x)
      simp only [hc, if_false, List.zip_cons_cons, List.map_cons, tag_mark, ha, ih.1, ih.2.1,
        ih.2.2, decide_False, Bool.false_eq_true, not_false_eq_true, List.countP_cons_of_neg]
      exact ⟨trivial, trivial, trivial⟩

/-- C18. On the scoring path of `calc_result` (a non-empty test sentence,
`wn1 = wn2`, no word mismatch) the `correct_tag` passed to
`individual_result` is the number of positions at which the two terminal
labels, as they stand in the arrays that `read_line` filled (no
`modify_label`), are identical or paired in `EQ_label`; both terminals of a
position get `result` 1 when this holds and 0 otherwise; and
`0 <= correct_tag <= wn1`. With `Status` 0 the totals take that number. -/
theorem correct_tag_spec (cfg : Config) (g : Globals) (tot : Totals × Totals) (r_wn1 : Nat)
    (t1 t2 : List s_terminal) (b1 b2 : List s_bracket) (h1 : t2.length ≠ 0)
    (h2 : t1.length = t2.length) (h3 : ¬ WordsDiffer cfg t1 t2) :
    ∃ r, calc_result cfg g tot r_wn1 t1 t2 b1 b2 = .done r ∧
      r.report.Status = g.Status ∧ r.report.wn1 = t1.length ∧
      r.report.correct_tag = (List.zip t1 t2).countP (fun p => decide (TagAgrees cfg p)) ∧
      r.terminal1 = (List.zip t1 t2).map (fun p => { p.1 with result := tag_mark cfg p }) ∧
      r.terminal2 = (List.zip t1 t2).map (fun p => { p.2 with result := tag_mark cfg p }) ∧
      (∀ i (hi : i < t1.length) (hj : i < t2.length) (hk : i < r.terminal1.length)
          (hl : i < r.terminal2.length),
        (r.terminal1.get ⟨i, hk⟩).result = tag_mark cfg (t1.get ⟨i, hi⟩, t2.get ⟨i, hj⟩) ∧
        (r.terminal2.get ⟨i, hl⟩).result = tag_mark cfg (t1.get ⟨i, hi⟩, t2.get ⟨i, hj⟩)) ∧
      r.terminal1.length = t1.length ∧ r.terminal2.length = t2.length ∧
      0 ≤ r.report.correct_tag ∧ r.report.correct_tag ≤ t1.length ∧
      (g.Status = 0 → r.tot.1.correct_tag = tot.1.correct_tag + r.report.correct_tag) := by
  have hne : t2 ≠ [] := fun h => h1 (by rw [h]; rfl)
  have hw : words_unmatch cfg t1 t2 = false := by
    cases hx : words_unmatch cfg t1 t2 with
    | false => rfl
    | true => exact absurd ((words_unmatch_iff cfg t1 t2).1 hx) h3
  have hs := tag_loop_spec cfg t1 t2 h2
  have hle : (List.zip t1 t2).countP (fun p => decide (TagAgrees cfg p)) ≤ t1.length := by
    refine le_trans (List.countP_le_length _) ?_
    simp [List.length_zip, h2]
  refine ⟨_, calc_result_scored cfg g tot r_wn1 t1 t2 b1 b2 hne h2 hw, rfl, rfl, hs.1, hs.2.1,
    hs.2.2, ?_, ?_, ?_, Nat.zero_le _, ?_, ?_⟩
  · intro i hi hj hk hl
    constructor
    · simp only [hs.2.1, List.get_eq_getElem, List.getElem_map, List.getElem_zip]
    · simp only [hs.2.2, List.get_eq_getElem, List.getElem_map, List.getElem_zip]
  · simp only [hs.2.1, List.length_map, List.length_zip, h2, min_self]
  · simp only [hs.2.2, List.length_map, List.length_zip, h2, min_self]
  · show (tag_loop cfg t1 t2).correct_tag ≤ t1.length
    rw [hs.1]
    exact hle
  · intro h0
    simp [individual_result, add_result, h0]

/-- C18 on two sentences of two terminals whose labels are `NN-1`/`NN` and
`VB`/`VB`: the first position does not agree (the labels are compared as
read, `NN-1` is not cut to `NN`), the second does, so `correct_tag` is 1 and
the marks are 0 and 1. -/
theorem correct_tag_witness :
    ([⟨['a'], ['N', 'N'], 9⟩, ⟨['b'], ['V', 'B'], 9⟩] : List s_terminal).length ≠ 0 ∧
    ([⟨['a'], ['N', 'N', '-', '1'], 9⟩, ⟨['b'], ['V', 'B'], 9⟩] : List s_terminal).length
      = ([⟨['a'], ['N', 'N'], 9⟩, ⟨['b'], ['V', 'B'], 9⟩] : List s_terminal).length ∧
    ¬ WordsDiffer ⟨10, 40, 1, [], [], [], []⟩
      [⟨['a'], ['N', 'N', '-', '1'], 9⟩, ⟨['b'], ['V', 'B'], 9⟩]
      [⟨['a'], ['N', 'N'], 9⟩, ⟨['b'], ['V', 'B'], 9⟩] ∧
    ∃ r, calc_result ⟨10, 40, 1, [], [], [], []⟩ ⟨0, 0⟩ init_global 2
        [⟨['a'], ['N', 'N', '-', '1'], 9⟩, ⟨['b'], ['V', 'B'], 9⟩]
        [⟨['a'], ['N', 'N'], 9⟩, ⟨['b'], ['V', 'B'], 9⟩] [] [] = .done r ∧
      r.report.correct_tag = 1 ∧
      r.terminal1 = [⟨['a'], ['N', 'N', '-', '1'], 0⟩, ⟨['b'], ['V', 'B'], 1⟩] ∧
      r.terminal2 = [⟨['a'], ['N', 'N'], 0⟩, ⟨['b'], ['V', 'B'], 1⟩] := by
  have hw : ¬ WordsDiffer ⟨10, 40, 1, [], [], [], []⟩
      [⟨['a'], ['N', 'N', '-', '1'], 9⟩, ⟨['b'], ['V', 'B'], 9⟩]
      [⟨['a'], ['N', 'N'], 9⟩, ⟨['b'], ['V', 'B'], 9⟩] := by
    rw [← words_unmatch_iff]
    decide
  obtain ⟨r, hr, _, _, hc, ht1, ht2, _⟩ := correct_tag_spec ⟨10, 40, 1, [], [], [], []⟩ ⟨0, 0⟩
    init_global 2 [⟨['a'], ['N', 'N', '-', '1'], 9⟩, ⟨['b'], ['V', 'B'], 9⟩]
    [⟨['a'], ['N', 'N'], 9⟩, ⟨['b'], ['V', 'B'], 9⟩] [] [] (by simp) rfl hw
  refine ⟨by simp, rfl, hw, r, hr, hc.trans (by decide), ht1.trans (by decide),
    ht2.trans (by decide)⟩

/-- C18 from the input lines: the gold line tags `a` as `NN-1` and the test
line as `NN`; the pair is scored with `correct_tag` 1 of 2. -/
theorem correct_tag_example :
    ∃ r, score_pair ⟨10, 40, 1, [], [], [], []⟩ ⟨0, 0⟩ init_global
        "(S (NN-1 a) (VB b))".data "(S (NN a) (VB b))".data = .done r ∧
      r.report.Status = 0 ∧ r.report.wn1 = 2 ∧ r.report.correct_tag = 1 ∧
      r.terminal1 = [⟨['a'], ['N', 'N', '-', '1'], 0⟩, ⟨['b'], ['V', 'B'], 1⟩] ∧
      r.terminal2 = [⟨['a'], ['N', 'N'], 0⟩, ⟨['b'], ['V', 'B'], 1⟩] := by
  have h1 : read_line ⟨10, 40, 1, [], [], [], []⟩ ⟨0, 0⟩ "(S (NN-1 a) (VB b))".data
      = .done ⟨2, [⟨['a'], ['N', 'N', '-', '1'], 9⟩, ⟨['b'], ['V', 'B'], 9⟩],
          [⟨0, 2, ['S'], 9⟩], ⟨0, 0⟩⟩ := by decide
  have h2 : read_line ⟨10, 40, 1, [], [], [], []⟩ ⟨0, 0⟩ "(S (NN a) (VB b))".data
      = .done ⟨2, [⟨['a'], ['N', 'N'], 9⟩, ⟨['b'], ['V', 'B'], 9⟩],
          [⟨0, 2, ['S'], 9⟩], ⟨0, 0⟩⟩ := by decide
  have hc := (score_pair_eq _ ⟨0, 0⟩ init_global _ _ _ _ h1 h2).trans
    (calc_result_scored ⟨10, 40, 1, [], [], [], []⟩ ⟨0, 0⟩ init_global 2
      [⟨['a'], ['N', 'N', '-', '1'], 9⟩, ⟨['b'], ['V', 'B'], 9⟩]
      [⟨['a'], ['N', 'N'], 9⟩, ⟨['b'], ['V', 'B'], 9⟩] [⟨0, 2, ['S'], 9⟩] [⟨0, 2, ['S'], 9⟩]
      (by simp) rfl (by decide))
  exact ⟨_, hc, rfl, rfl, by decide, by decide, by decide⟩

theorem is_deletelabel_for_length_iff (cfg : Config) (l : Str) :
    is_deletelabel_for_length cfg l = true ↔ l ∈ cfg.Delete_label_for_length := by
  unfold is_deletelabel_for_length
  simp only [List.any_eq_true, beq_iff_eq]
  constructor
  · rintro ⟨d, hd, rfl⟩
    exact hd
  · intro h
    exact ⟨l, h, rfl⟩

theorem is_deletelabel_iff (cfg : Config) (l : Str) :
    is_deletelabel cfg l = true ↔ l ∈ cfg.Delete_label := by
  unfold is_deletelabel
  simp only [List.any_eq_true, beq_iff_eq]
  constructor
  · rintro ⟨d, hd, rfl⟩
    exact hd
  · intro h
    exact ⟨l, h, rfl⟩

mutual

theorem tree_rawLength_eq (cfg : Config) : ∀ t : Tree,
    t.rawLength cfg
      = t.preterminals.countP (fun l => decide (l ∉ cfg.Delete_label_for_length))
  | .pre l _ _ => by
    unfold Tree.rawLength Tree.preterminals
    by_cases h : is_deletelabel_for_length cfg l = true
    · have hm := (is_deletelabel_for_length_iff cfg l).1 h
      simp [h, hm]
    · have hm : l ∉ cfg.Delete_label_for_length :=
        fun x => h ((is_deletelabel_for_length_iff cfg l).2 x)
      simp [h, hm]
  | .node _ ks _ => by
    unfold Tree.rawLength Tree.preterminals
    exact forest_rawLength_eq cfg ks

theorem forest_rawLength_eq (cfg : Config) : ∀ f : Forest,
    f.rawLength cfg
      = f.preterminals.countP (fun l => decide (l ∉ cfg.Delete_label_for_length))
  | .nil => by simp [Forest.rawLength, Forest.preterminals]
  | .cons _ t f => by
    unfold Forest.rawLength Forest.preterminals
    rw [List.countP_append, tree_rawLength_eq cfg t, forest_rawLength_eq cfg f]
end

mutual

theorem tree_terminals_length (cfg : Config) : ∀ t : Tree,
    (t.terminals cfg).length = t.preterminals.countP (fun l => decide (l ∉ cfg.Delete_label))
  | .pre l _ _ => by
    unfold Tree.terminals Tree.preterminals
    by_cases h : is_deletelabel cfg l = true
    · have hm := (is_deletelabel_iff cfg l).1 h
      simp [h, hm]
    · have hm : l ∉ cfg.Delete_label := fun x => h ((is_deletelabel_iff cfg l).2 x)
      simp [h, hm]
  | .node _ ks _ => by
    unfold Tree.terminals Tree.preterminals
    exact forest_terminals_length cfg ks

theorem forest_terminals_length (cfg : Config) : ∀ f : Forest,
    (f.terminals cfg).length = f.preterminals.countP (fun l => decide (l ∉ cfg.Delete_label))
  | .nil => by simp [Forest.terminals, Forest.preterminals]
  | .cons _ t f => by
    unfold Forest.terminals Forest.preterminals
    rw [List.length_append, List.countP_append, tree_terminals_length cfg t,
      forest_terminals_length cfg f]
end

/-- C19. On the line of a well-formed tree within the array capacities, for
every pair of label sets, `read_line` returns as length the number of
pre-terminals of the line whose raw label is not in
`Delete_label_for_length`, a number in which `Delete_label` has no part; the
terminals kept are those whose label is not in `Delete_label`. -/
theorem rawLength_spec (cfg : Config) (g : Globals) (t : Tree) (ws0 ws : Str)
    (hwf : t.WellFormed)
    (hw : (t.terminals cfg).length ≤ MAX_WORD_IN_SENT)
    (hb : (t.brackets cfg 0).length ≤ MAX_BRACKET_IN_SENT)
    (hws0 : allSpace ws0) (hws : allSpace ws) :
    ∃ p, read_line cfg g (ws0 ++ (t.render ++ ws)) = .done p ∧
      p.len = t.preterminals.countP (fun l => decide (l ∉ cfg.Delete_label_for_length)) ∧
      p.terminal.length = t.preterminals.countP (fun l => decide (l ∉ cfg.Delete_label)) :=
  ⟨_, read_line_render cfg g t ws0 ws hwf hw hb hws0 hws, tree_rawLength_eq cfg t,
    tree_terminals_length cfg t⟩

/-- C19 on the line of the header comment with `SYM` deleted as a terminal
and `DT` deleted for length: five pre-terminals, length 4 (all but `DT`),
four terminals (all but `SYM`). -/
theorem rawLength_witness :
    example1.WellFormed ∧
    (example1.terminals ⟨10, 40, 1, [['S', 'Y', 'M']], [['D', 'T']], [], []⟩).length
      ≤ MAX_WORD_IN_SENT ∧
    (example1.brackets ⟨10, 40, 1, [['S', 'Y', 'M']], [['D', 'T']], [], []⟩ 0).length
      ≤ MAX_BRACKET_IN_SENT ∧
    allSpace [] ∧ allSpace ['\n'] ∧
    example1.preterminals = [['N', 'N', 'X'], ['V', 'B', 'X'], ['D', 'T'], ['N', 'N', 'X'],
      ['S', 'Y', 'M']] ∧
    ∃ p, read_line ⟨10, 40, 1, [['S', 'Y', 'M']], [['D', 'T']], [], []⟩ ⟨0, 0⟩
        "(S (NP (NNX this)) (VP (VBX is) (NP (DT a) (NNX pen))) (SYM .))\n".data = .done p ∧
      p.len = 4 ∧ p.terminal.length = 4 := by
  have hwf : example1.WellFormed := by
    simp [example1, Tree.WellFormed, Forest.WellFormed, okToken, allSpace, MAX_LABEL_LEN]
    decide
  have hs0 : allSpace [] := by simp [allSpace]
  have hs : allSpace ['\n'] := by simp [allSpace]; decide
  obtain ⟨p, hp, hl, ht⟩ := rawLength_spec ⟨10, 40, 1, [['S', 'Y', 'M']], [['D', 'T']], [], []⟩
    ⟨0, 0⟩ example1 [] ['\n'] hwf (by decide) (by decide) hs0 hs
  exact ⟨hwf, by decide, by decide, hs0, hs, by decide, p, hp, hl.trans (by decide),
    ht.trans (by decide)⟩

/-- C21. For every registry contents and all strings `a` and `b`,
`label_comp(a,b) = label_comp(b,a)` and `word_comp(a,b) = word_comp(b,a)`;
each returns 1 exactly when `a` and `b` are identical or some registered pair
consists of `a` and `b` in either order. -/
theorem comp_symm_spec (cfg : Config) (a b : Str) :
    label_comp cfg a b = label_comp cfg b a ∧
    word_comp cfg a b = word_comp cfg b a ∧
    (label_comp cfg a b = true ↔ (a = b ∨ Paired cfg.EQ_label a b)) ∧
    (word_comp cfg a b = true ↔ (a = b ∨ Paired cfg.EQ_word a b)) :=
  ⟨equiv_comp_symm cfg.EQ_label a b, equiv_comp_symm cfg.EQ_word a b,
    equiv_comp_iff cfg.EQ_label a b, equiv_comp_iff cfg.EQ_word a b⟩

/-- C21 on a registry with the pairs `(A,B)` and `(B,C)`: `A` and `B`
compare equal in both orders, `A` and `C` do not (no transitive closure). -/
theorem comp_symm_example :
    label_comp ⟨10, 40, 1, [], [], [(['A'], ['B']), (['B'], ['C'])], []⟩ ['A'] ['B'] = true ∧
    label_comp ⟨10, 40, 1, [], [], [(['A'], ['B']), (['B'], ['C'])], []⟩ ['B'] ['A'] = true ∧
    label_comp ⟨10, 40, 1, [], [], [(['A'], ['B']), (['B'], ['C'])], []⟩ ['A'] ['C'] = false := by
  decide

theorem add_result_valid (Status : Nat) (t : Totals) (ok wn1 bn1 bn2 m c ct : Nat)
    (h : ValidTotals t ok) (h1 : m ≤ bn1) (h2 : m ≤ bn2) (h3 : ct ≤ wn1) :
    ValidTotals (add_result Status t wn1 bn1 bn2 m c ct)
      (ok + if Status != 1 && Status != 2 then 1 else 0) := by
  unfold ValidTotals at h ⊢
  unfold add_result
  obtain ⟨a1, a2, a3, a4, a5, a6, a7, a8⟩ := h
  by_cases e1 : Status = 1
  · subst e1
    simp only [beq_self_eq_true, if_true, bne_self_eq_false, Bool.false_and, Bool.false_eq_true,
      if_false]
    refine ⟨a1, a2, a3, a4, by omega, by omega, by omega, by omega⟩
  · by_cases e2 : Status = 2
    · subst e2
      have : ((2 : Nat) == 1) = false := by decide
      simp only [this, beq_self_eq_true, if_true, bne_self_eq_false, Bool.and_false,
        Bool.false_eq_true, if_false]
      refine ⟨a1, a2, a3, a4, by omega, by omega, by omega, by omega⟩
    · have b1 : (Status == 1) = false := by simpa using e1
      have b2 : (Status == 2) = false := by simpa using e2
      have b3 : (Status != 1 && Status != 2) = true := by simp [e1, e2]
      simp only [b1, b2, b3, Bool.false_eq_true, if_false, if_true]
      refine ⟨by omega, by omega, by omega, ?_, ?_, ?_, by omega, by omega⟩
      · by_cases c0 : c = 0
        · subst c0; simp; omega
        · have : (c == 0) = false := by simpa using c0
          simp only [this, Bool.false_eq_true, if_false]
          split_ifs <;> omega
      · split_ifs <;> omega
      · split_ifs <;> omega

theorem add_result_le (Status : Nat) (a b : Totals) (wn1 bn1 bn2 m c ct : Nat)
    (h : TotalsLe a b) :
    TotalsLe (add_result Status a wn1 bn1 bn2 m c ct) (add_result Status b wn1 bn1 bn2 m c ct) ∧
    TotalsLe a (add_result Status b wn1 bn1 bn2 m c ct) := by
  unfold TotalsLe at h ⊢
  unfold add_result
  obtain ⟨a1, a2, a3, a4, a5, a6, a7, a8, a9, a10, a11, a12⟩ := h
  by_cases e1 : (Status == 1) = true
  · simp only [e1, if_true]
    refine ⟨⟨?_, ?_, ?_, ?_, ?_, ?_, ?_, ?_, ?_, ?_, ?_, ?_⟩,
      ⟨?_, ?_, ?_, ?_, ?_, ?_, ?_, ?_, ?_, ?_, ?_, ?_⟩⟩ <;> omega
  · by_cases e2 : (Status == 2) = true
    · simp only [e1, e2, if_true, if_false, Bool.false_eq_true]
      refine ⟨⟨?_, ?_, ?_, ?_, ?_, ?_, ?_, ?_, ?_, ?_, ?_, ?_⟩,
        ⟨?_, ?_, ?_, ?_, ?_, ?_, ?_, ?_, ?_, ?_, ?_, ?_⟩⟩ <;> omega
    · simp only [e1, e2, if_false, Bool.false_eq_true]
      refine ⟨⟨?_, ?_, ?_, ?_, ?_, ?_, ?_, ?_, ?_, ?_, ?_, ?_⟩,
        ⟨?_, ?_, ?_, ?_, ?_, ?_, ?_, ?_, ?_, ?_, ?_, ?_⟩⟩ <;> (try split_ifs) <;> omega

theorem add_sentences_snoc (cfg : Config) (xs : List SentResult) (x : SentResult) :
    add_sentences cfg (xs ++ [x]) = add_sentence cfg (add_sentences cfg xs) x := by
  unfold add_sentences
  rw [List.foldl_append]
  rfl

theorem add_sentences_valid (cfg : Config) (xs : List SentResult)
    (h : ∀ x ∈ xs, x.match_ ≤ x.bn1 ∧ x.match_ ≤ x.bn2 ∧ x.correct_tag ≤ x.wn1) :
    ValidTotals (add_sentences cfg xs).1 (xs.countP IsOk) ∧
    ValidTotals (add_sentences cfg xs).2
      (xs.countP (fun x => IsOk x && decide ((x.r_wn1 : Int) ≤ cfg.TOT_cut_len))) ∧
    TotalsLe (add_sentences cfg xs).2 (add_sentences cfg xs).1 := by
  induction xs using List.reverseRecOn with
  | nil =>
    refine ⟨?_, ?_, ?_⟩
    · simp [add_sentences, init_global, ValidTotals]
    · simp [add_sentences, init_global, ValidTotals]
    · simp [add_sentences, init_global, TotalsLe]
  | append_singleton xs x ih =>
    obtain ⟨i1, i2, i3⟩ := ih (fun y hy => h y (List.mem_append_left _ hy))
    obtain ⟨hx1, hx2, hx3⟩ := h x (List.mem_append_right _ (List.mem_singleton_self x))
    rw [add_sentences_snoc, List.countP_append, List.countP_append]
    simp only [List.countP_singleton]
    unfold add_sentence individual_result
    simp only
    refine ⟨add_result_valid _ _ _ _ _ _ _ _ _ i1 hx1 hx2 hx3, ?_, ?_⟩
    · by_cases hc : (x.r_wn1 : Int) ≤ cfg.TOT_cut_len
      · simp only [hc, if_true, decide_True, Bool.and_true]
        exact add_result_valid _ _ _ _ _ _ _ _ _ i2 hx1 hx2 hx3
      · simp only [hc, if_false, decide_False, Bool.and_false, Bool.false_eq_true, add_zero]
        exact i2
    · by_cases hc : (x.r_wn1 : Int) ≤ cfg.TOT_cut_len
      · simp only [hc, if_true]
        exact (add_result_le _ _ _ _ _ _ _ _ _ i3).1
      · simp only [hc, if_false]
        exact (add_result_le _ _ _ _ _ _ _ _ _ i3).2

/-- C28. Starting from `init_global`, after any sequence of calls of
`individual_result` whose arguments satisfy `match <= bn1`, `match <= bn2`
and `correct_tag <= wn1`, both sets of totals satisfy: match total at most
the gold-bracket and the test-bracket total; correct-tag total at most the
word total; no-crossing count at most the 2-or-less-crossing count, which is
at most the valid sentences; complete-match count at most the valid
sentences; where the valid sentences `sent - error_sent - skip_sent` are the
calls that were neither error nor skip (for the second set: those of them
with `r_wn1 <= TOT_cut_len`); and every counter of the set for length
`<= TOT_cut_len` is at most the same counter of the unconditional set. -/
theorem totals_invariant (cfg : Config) (xs : List SentResult)
    (h : ∀ x ∈ xs, x.match_ ≤ x.bn1 ∧ x.match_ ≤ x.bn2 ∧ x.correct_tag ≤ x.wn1) :
    ValidTotals (add_sentences cfg xs).1 (xs.countP IsOk) ∧
    ValidTotals (add_sentences cfg xs).2
      (xs.countP (fun x => IsOk x && decide ((x.r_wn1 : Int) ≤ cfg.TOT_cut_len))) ∧
    TotalsLe (add_sentences cfg xs).2 (add_sentences cfg xs).1 :=
  add_sentences_valid cfg xs h

/-- C28 on three calls: an Ok sentence of length 5, an error sentence and an
Ok sentence of length 41, above the cutoff 40: two valid sentences in the
unconditional totals and one in the totals for length `<= 40`. -/
theorem totals_invariant_witness :
    (∀ x ∈ [(⟨0, 5, 4, 4, 5, 4, 4, 3, 1, 5⟩ : SentResult), ⟨1, 7, 0, 0, 0, 0, 0, 0, 0, 0⟩,
        ⟨0, 41, 9, 8, 41, 9, 8, 8, 0, 40⟩],
      x.match_ ≤ x.bn1 ∧ x.match_ ≤ x.bn2 ∧ x.correct_tag ≤ x.wn1) ∧
    ValidTotals (add_sentences ⟨10, 40, 1, [], [], [], []⟩
      [⟨0, 5, 4, 4, 5, 4, 4, 3, 1, 5⟩, ⟨1, 7, 0, 0, 0, 0, 0, 0, 0, 0⟩,
        ⟨0, 41, 9, 8, 41, 9, 8, 8, 0, 40⟩]).1 2 ∧
    ValidTotals (add_sentences ⟨10, 40, 1, [], [], [], []⟩
      [⟨0, 5, 4, 4, 5, 4, 4, 3, 1, 5⟩, ⟨1, 7, 0, 0, 0, 0, 0, 0, 0, 0⟩,
        ⟨0, 41, 9, 8, 41, 9, 8, 8, 0, 40⟩]).2 1 ∧
    TotalsLe (add_sentences ⟨10, 40, 1, [], [], [], []⟩
      [⟨0, 5, 4, 4, 5, 4, 4, 3, 1, 5⟩, ⟨1, 7, 0, 0, 0, 0, 0, 0, 0, 0⟩,
        ⟨0, 41, 9, 8, 41, 9, 8, 8, 0, 40⟩]).2
      (add_sentences ⟨10, 40, 1, [], [], [], []⟩
      [⟨0, 5, 4, 4, 5, 4, 4, 3, 1, 5⟩, ⟨1, 7, 0, 0, 0, 0, 0, 0, 0, 0⟩,
        ⟨0, 41, 9, 8, 41, 9, 8, 8, 0, 40⟩]).1 ∧
    (add_sentences ⟨10, 40, 1, [], [], [], []⟩
      [⟨0, 5, 4, 4, 5, 4, 4, 3, 1, 5⟩, ⟨1, 7, 0, 0, 0, 0, 0, 0, 0, 0⟩,
        ⟨0, 41, 9, 8, 41, 9, 8, 8, 0, 40⟩])
      = (⟨13, 12, 11, 3, 1, 0, 0, 46, 1, 1, 2, 45⟩, ⟨4, 4, 3, 2, 1, 0, 0, 5, 1, 0, 1, 5⟩) := by
  have hx : ∀ x ∈ [(⟨0, 5, 4, 4, 5, 4, 4, 3, 1, 5⟩ : SentResult),
      ⟨1, 7, 0, 0, 0, 0, 0, 0, 0, 0⟩, ⟨0, 41, 9, 8, 41, 9, 8, 8, 0, 40⟩],
      x.match_ ≤ x.bn1 ∧ x.match_ ≤ x.bn2 ∧ x.correct_tag ≤ x.wn1 := by decide
  obtain ⟨h1, h2, h3⟩ := totals_invariant ⟨10, 40, 1, [], [], [], []⟩ _ hx
  exact ⟨hx, h1, h2, h3, by decide⟩

theorem match_cond_unlabeled (cfg : Config) (h0 : cfg.F_label = 0) (g t : s_bracket) :
    match_cond cfg g t = true ↔ (g.result ≠ 5 ∧ t.result = 0 ∧ span g = span t) := by
  simp [match_cond, h0, span, and_assoc]

theorem match_inner_none_of_not_mem (cfg : Config) (b1 : s_bracket) (l : List s_bracket)
    (h : span b1 ∉ (free_brackets l).map span) : match_inner cfg b1 l = none := by
  cases hm : match_inner cfg b1 l with
  | none => rfl
  | some l' =>
    obtain ⟨t, ht, hp⟩ := match_inner_pair cfg b1 l l' hm
    obtain ⟨_, _, e1, e2, _⟩ := match_cond_true cfg b1 t ht
    have : t ∈ free_brackets l := hp.mem_iff.2 (List.mem_cons_self _ _)
    exact absurd (List.mem_map.2 ⟨t, this, by simp [span, e1, e2]⟩) h

theorem match_loop_inter (cfg : Config) (h0 : cfg.F_label = 0) : ∀ (l1 l2 : List s_bracket),
    (match_loop cfg l1 l2).match_
      = Multiset.card (Multiset.ofList ((real_brackets l1).map span)
          ∩ Multiset.ofList ((free_brackets l2).map span))
  | [], l2 => by simp [match_loop, real_brackets]
  | b1 :: rest, l2 => by
    unfold match_loop
    by_cases h5 : b1.result = 5
    · rw [match_inner_deleted cfg b1 h5, real_cons_deleted _ _ h5]
      exact match_loop_inter cfg h0 rest l2
    · rw [real_cons_kept _ _ h5, List.map_cons, ← Multiset.cons_coe]
      by_cases hm : span b1 ∈ (free_brackets l2).map span
      · obtain ⟨l2', e1, e2⟩ := match_inner_key cfg span (match_cond_unlabeled cfg h0) b1 h5 l2 hm
        rw [e1]
        simp only
        rw [match_loop_inter cfg h0 rest l2', e2,
          Multiset.cons_inter_of_pos _ (Multiset.mem_coe.2 hm), Multiset.card_cons,
          Multiset.coe_erase]
      · rw [match_inner_none_of_not_mem cfg b1 l2 hm]
        simp only
        rw [match_loop_inter cfg h0 rest l2,
          Multiset.cons_inter_of_neg _ (fun h => hm (Multiset.mem_coe.1 h))]

theorem count_map_span (A : List s_bracket) (k : Int × Int) :
    Multiset.count k (Multiset.ofList (A.map span)) = A.countP (fun b => decide (span b = k)) := by
  induction A with
  | nil => simp
  | cons a A ih =>
    rw [List.map_cons, ← Multiset.cons_coe, Multiset.count_cons, ih, List.countP_cons]
    by_cases h : span a = k
    · simp [h]
    · have h' : ¬ k = span a := fun e => h e.symm
      simp [h, h']

theorem card_inter_eq_sum (A B : List s_bracket) (S : Finset (Int × Int))
    (hS : ∀ k, k ∈ A.map span → k ∈ B.map span → k ∈ S) :
    Multiset.card (Multiset.ofList (A.map span) ∩ Multiset.ofList (B.map span))
      = S.sum (fun k => min (A.countP (fun b => decide (span b = k)))
          (B.countP (fun b => decide (span b = k)))) := by
  have h1 := Multiset.toFinset_sum_count_eq
    (Multiset.ofList (A.map span) ∩ Multiset.ofList (B.map span))
  rw [← h1]
  have hsub : (Multiset.ofList (A.map span) ∩ Multiset.ofList (B.map span)).toFinset ⊆ S := by
    intro k hk
    rw [Multiset.mem_toFinset, Multiset.mem_inter] at hk
    exact hS k (Multiset.mem_coe.1 hk.1) (Multiset.mem_coe.1 hk.2)
  rw [Finset.sum_subset hsub]
  · refine Finset.sum_congr rfl (fun k _ => ?_)
    rw [Multiset.count_inter, count_map_span, count_map_span]
  · intro k _ hk
    rw [Multiset.mem_toFinset] at hk
    exact Multiset.count_eq_zero.2 hk

theorem match_loop_labeled_le (cfg : Config) (l1 l2 : List s_bracket) :
    (match_loop cfg l1 l2).match_
      ≤ Multiset.card (Multiset.ofList ((real_brackets l1).map span)
          ∩ Multiset.ofList ((free_brackets l2).map span)) := by
  obtain ⟨ps, hlen, hc, hs, hp⟩ := match_loop_pairs cfg l1 l2
  have hk : (ps.map Prod.fst).map span = (ps.map Prod.snd).map span := by
    rw [List.map_map, List.map_map]
    refine List.map_congr_left (fun p hp' => ?_)
    obtain ⟨_, _, e1, e2, _⟩ := match_cond_true cfg p.1 p.2 (hc p hp')
    simp [span, e1, e2]
  have hG : Multiset.ofList ((ps.map Prod.fst).map span)
      ≤ Multiset.ofList ((real_brackets l1).map span) :=
    Multiset.coe_le.2 (hs.map span).subperm
  have hT : Multiset.ofList ((ps.map Prod.fst).map span)
      ≤ Multiset.ofList ((free_brackets l2).map span) := by
    rw [hk]
    refine Multiset.coe_le.2 ?_
    have h1 : ((ps.map Prod.snd).map span).Sublist
        ((ps.map Prod.snd ++ free_brackets (match_loop cfg l1 l2).bracket2).map span) :=
      (List.sublist_append_left _ _).map span
    exact h1.subperm.trans (hp.map span).symm.subperm
  have := Multiset.card_le_card (Multiset.le_inter hG hT)
  rw [Multiset.coe_card, List.length_map, List.length_map, hlen] at this
  exact this

theorem real_eq_free_of_massaged (l : List s_bracket) (h : IsMassaged l) :
    real_brackets l = free_brackets l := by
  unfold real_brackets free_brackets
  refine List.filter_congr (fun b hb => ?_)
  rcases h b hb with e | e <;> simp [e]

theorem massaged_map (cfg : Config) (l : List s_bracket) :
    IsMassaged (l.map (massage_bracket cfg)) := by
  intro b hb
  obtain ⟨a, _, rfl⟩ := List.mem_map.1 hb
  unfold massage_bracket
  split
  · exact Or.inr rfl
  · simp only [delete_loop_eq]
    split
    · exact Or.inr rfl
    · exact Or.inl rfl

theorem match_loop_unlabeled_card (cfg : Config) (h0 : cfg.F_label = 0) (l1 l2 : List s_bracket)
    (hm : IsMassaged l2) :
    (match_loop cfg l1 l2).match_
      = Multiset.card (Multiset.ofList ((real_brackets l1).map span)
          ∩ Multiset.ofList ((real_brackets l2).map span)) := by
  rw [match_loop_inter cfg h0, real_eq_free_of_massaged l2 hm]

theorem match_loop_unlabeled_sum (cfg : Config) (h0 : cfg.F_label = 0) (l1 l2 : List s_bracket)
    (hm : IsMassaged l2) (S : Finset (Int × Int))
    (hS : ∀ k, 0 < span_count l1 k → 0 < span_count l2 k → k ∈ S) :
    (match_loop cfg l1 l2).match_
      = S.sum (fun k => min (span_count l1 k) (span_count l2 k)) := by
  rw [match_loop_unlabeled_card cfg h0 l1 l2 hm]
  refine card_inter_eq_sum _ _ S (fun k h1 h2 => hS k ?_ ?_)
  · unfold span_count
    rw [List.countP_pos_iff]
    obtain ⟨b, hb, e⟩ := List.mem_map.1 h1
    exact ⟨b, hb, by simpa using e⟩
  · unfold span_count
    rw [List.countP_pos_iff]
    obtain ⟨b, hb, e⟩ := List.mem_map.1 h2
    exact ⟨b, hb, by simpa using e⟩

theorem spans_eq_of_count (l l' : List s_bracket) (h : ∀ k, span_count l' k = span_count l k) :
    Multiset.ofList ((real_brackets l').map span) = Multiset.ofList ((real_brackets l).map span) := by
  refine Multiset.ext.2 (fun k => ?_)
  rw [count_map_span, count_map_span]
  exact h k

theorem massage_data_F_label (cfg : Config) (n : Int) (b1 b2 : List s_bracket) :
    massage_data { cfg with F_label := n } b1 b2 = massage_data cfg b1 b2 := by
  have e : massage_bracket { cfg with F_label := n } = massage_bracket cfg := by
    funext b
    unfold massage_bracket
    simp only [delete_loop_eq]
    rfl
  unfold massage_data
  rw [e]

/-- C25. With labeled scoring disabled (`F_label = 0`), for a gold list and
a massaged test list, the match count of the matching loops is the sum, over
any finite set of spans that holds every span common to both lists, of the
minimum of the number of gold brackets with that span that are not deleted
and the number of such test brackets; so two pairs of lists with the same
numbers for every span get the same match count, whatever the labels, the
registry and the order of the lists. -/
theorem unlabeled_match_spec (cfg : Config) (h0 : cfg.F_label = 0) (l1 l2 : List s_bracket)
    (hm : IsMassaged l2) :
    (∀ S : Finset (Int × Int),
      (∀ k, 0 < span_count l1 k → 0 < span_count l2 k → k ∈ S) →
      (match_loop cfg l1 l2).match_
        = S.sum (fun k => min (span_count l1 k) (span_count l2 k))) ∧
    (∀ (cfg' : Config) (l1' l2' : List s_bracket), cfg'.F_label = 0 → IsMassaged l2' →
      (∀ k, span_count l1' k = span_count l1 k) → (∀ k, span_count l2' k = span_count l2 k) →
      (match_loop cfg' l1' l2').match_ = (match_loop cfg l1 l2).match_) ∧
    (∀ b1 b2 : List s_bracket, IsMassaged (massage_data cfg b1 b2).bracket2 ∧
      match_of cfg b1 b2
        = (match_loop cfg (massage_data cfg b1 b2).bracket1
            (massage_data cfg b1 b2).bracket2).match_) := by
  refine ⟨fun S hS => match_loop_unlabeled_sum cfg h0 l1 l2 hm S hS, ?_, ?_⟩
  · intro cfg' l1' l2' h0' hm' e1 e2
    rw [match_loop_unlabeled_card cfg' h0' l1' l2' hm', match_loop_unlabeled_card cfg h0 l1 l2 hm,
      spans_eq_of_count l1 l1' e1, spans_eq_of_count l2 l2' e2]
  · intro b1 b2
    exact ⟨massaged_map cfg b2, rfl⟩

/-- C25 on gold brackets `(0,2,S) (0,1,NP) (0,1,N)` and test brackets
`(0,1,X) (0,2,Y) (1,2,Z)`: one gold and one test bracket on `(0,2)`, two gold
and one test bracket on `(0,1)`, none in common on `(1,2)`; the match count
is `1 + 1 + 0 = 2`. -/
theorem unlabeled_match_witness :
    (⟨10, 40, 0, [], [], [], []⟩ : Config).F_label = 0 ∧
    IsMassaged [⟨0, 1, ['X'], 0⟩, ⟨0, 2, ['Y'], 0⟩, ⟨1, 2, ['Z'], 0⟩] ∧
    (match_loop ⟨10, 40, 0, [], [], [], []⟩
      [⟨0, 2, ['S'], 0⟩, ⟨0, 1, ['N', 'P'], 0⟩, ⟨0, 1, ['N'], 0⟩]
      [⟨0, 1, ['X'], 0⟩, ⟨0, 2, ['Y'], 0⟩, ⟨1, 2, ['Z'], 0⟩]).match_
      = ({(0, 2), (0, 1), (1, 2)} : Finset (Int × Int)).sum (fun k =>
          min (span_count [⟨0, 2, ['S'], 0⟩, ⟨0, 1, ['N', 'P'], 0⟩, ⟨0, 1, ['N'], 0⟩] k)
            (span_count [⟨0, 1, ['X'], 0⟩, ⟨0, 2, ['Y'], 0⟩, ⟨1, 2, ['Z'], 0⟩] k)) ∧
    (match_loop ⟨10, 40, 0, [], [], [], []⟩
      [⟨0, 2, ['S'], 0⟩, ⟨0, 1, ['N', 'P'], 0⟩, ⟨0, 1, ['N'], 0⟩]
      [⟨0, 1, ['X'], 0⟩, ⟨0, 2, ['Y'], 0⟩, ⟨1, 2, ['Z'], 0⟩]).match_ = 2 := by
  have hm : IsMassaged [⟨0, 1, ['X'], 0⟩, ⟨0, 2, ['Y'], 0⟩, ⟨1, 2, ['Z'], 0⟩] := by
    intro b hb
    simp only [List.mem_cons, List.mem_singleton, List.not_mem_nil, or_false] at hb
    rcases hb with rfl | rfl | rfl <;> exact Or.inl rfl
  refine ⟨rfl, hm, ?_, by decide⟩
  refine (unlabeled_match_spec ⟨10, 40, 0, [], [], [], []⟩ rfl
    [⟨0, 2, ['S'], 0⟩, ⟨0, 1, ['N', 'P'], 0⟩, ⟨0, 1, ['N'], 0⟩]
    [⟨0, 1, ['X'], 0⟩, ⟨0, 2, ['Y'], 0⟩, ⟨1, 2, ['Z'], 0⟩] hm).1 _ ?_
  intro k h1 _
  have : k = (0, 2) ∨ k = (0, 1) := by
    unfold span_count at h1
    rw [List.countP_pos_iff] at h1
    obtain ⟨b, hb, e⟩ := h1
    simp only [real_brackets, List.mem_filter, List.mem_cons, List.mem_singleton,
      List.not_mem_nil, or_false] at hb
    have e' : span b = k := by simpa using e
    rcases hb.1 with rfl | rfl | rfl
    · exact Or.inl e'.symm
    · exact Or.inr e'.symm
    · exact Or.inr e'.symm
  rcases this with rfl | rfl <;> simp

/-- C26. For all bracket lists and every label registry, the match count of
the matching loops in labeled mode is at most the match count on the same
lists with `F_label = 0`; so it is for the lists that `massage_data` makes,
which do not depend on `F_label`. -/
theorem labeled_le_unlabeled (cfg : Config) (l1 l2 : List s_bracket) :
    (match_loop cfg l1 l2).match_ ≤ (match_loop { cfg with F_label := 0 } l1 l2).match_ ∧
    massage_data { cfg with F_label := 0 } l1 l2 = massage_data cfg l1 l2 ∧
    match_of cfg l1 l2 ≤ match_of { cfg with F_label := 0 } l1 l2 := by
  refine ⟨?_, massage_data_F_label cfg 0 l1 l2, ?_⟩
  · rw [match_loop_inter { cfg with F_label := 0 } rfl l1 l2]
    exact match_loop_labeled_le cfg l1 l2
  · unfold match_of
    rw [massage_data_F_label cfg 0 l1 l2, match_loop_inter { cfg with F_label := 0 } rfl]
    exact match_loop_labeled_le cfg _ _

/-- C26 on gold `(0,1,A)` and test `(0,1,B)`: no match in labeled mode, one
match in unlabeled mode. -/
theorem labeled_le_unlabeled_example :
    (match_loop ⟨10, 40, 1, [], [], [], []⟩ [⟨0, 1, ['A'], 0⟩] [⟨0, 1, ['B'], 0⟩]).match_ = 0 ∧
    (match_loop ⟨10, 40, 0, [], [], [], []⟩ [⟨0, 1, ['A'], 0⟩] [⟨0, 1, ['B'], 0⟩]).match_ = 1 := by
  decide

theorem greedy_trees_wellformed :
    greedy_gold.WellFormed ∧ greedy_test.WellFormed ∧ greedy_test2.WellFormed ∧
    greedy_gold.render = "(B (A (N a)))".data ∧ greedy_test.render = "(A (C (N a)))".data ∧
    greedy_test2.render = "(C (A (N a)))".data := by
  refine ⟨?_, ?_, ?_, by decide, by decide, by decide⟩
  · simp [greedy_gold, Tree.WellFormed, Forest.WellFormed, okToken, allSpace, MAX_LABEL_LEN]
    decide
  · simp [greedy_test, Tree.WellFormed, Forest.WellFormed, okToken, allSpace, MAX_LABEL_LEN]
    decide
  · simp [greedy_test2, Tree.WellFormed, Forest.WellFormed, okToken, allSpace, MAX_LABEL_LEN]
    decide

theorem greedy_lines :
    read_line greedy_cfg ⟨0, 0⟩ greedy_gold.render
      = .done ⟨1, [⟨['a'], ['N'], 9⟩], [⟨0, 1, ['B'], 9⟩, ⟨0, 1, ['A'], 9⟩], ⟨0, 0⟩⟩ ∧
    read_line greedy_cfg ⟨0, 0⟩ greedy_test.render
      = .done ⟨1, [⟨['a'], ['N'], 9⟩], [⟨0, 1, ['A'], 9⟩, ⟨0, 1, ['C'], 9⟩], ⟨0, 0⟩⟩ ∧
    read_line greedy_cfg ⟨0, 0⟩ greedy_test2.render
      = .done ⟨1, [⟨['a'], ['N'], 9⟩], [⟨0, 1, ['C'], 9⟩, ⟨0, 1, ['A'], 9⟩], ⟨0, 0⟩⟩ := by
  refine ⟨by decide, by decide, by decide⟩

/-- C24. There are a label registry (the pairs `(B,A)` and `(B,C)`), a gold
line `(B (A (N a)))` and a test line `(A (C (N a)))`, both well-formed, for
which `calc_result` in labeled mode reports one match, while the one-to-one
pairing of gold `B` with test `C` and gold `A` with test `A` has two pairs
and is a maximum one; and the result depends on the order of the test
brackets: the test line `(C (A (N a)))`, whose brackets are the same in the
other order, gets two matches. -/
theorem greedy_match_suboptimal :
    ∃ (cfg : Config) (gold test test2 : Tree) (r r2 : Scored)
      (ps : List (s_bracket × s_bracket)),
      cfg.F_label = 1 ∧ gold.WellFormed ∧ test.WellFormed ∧ test2.WellFormed ∧
      score_pair cfg ⟨0, 0⟩ init_global gold.render test.render = .done r ∧
      r.report.Status = 0 ∧
      IsPairing cfg (massage_data cfg (gold.brackets cfg 0) (test.brackets cfg 0)).bracket1
        (massage_data cfg (gold.brackets cfg 0) (test.brackets cfg 0)).bracket2 ps ∧
      (∀ ps', IsPairing cfg (massage_data cfg (gold.brackets cfg 0) (test.brackets cfg 0)).bracket1
        (massage_data cfg (gold.brackets cfg 0) (test.brackets cfg 0)).bracket2 ps' →
        ps'.length ≤ ps.length) ∧
      r.report.match_ < ps.length ∧
      (test2.brackets cfg 0).Perm (test.brackets cfg 0) ∧
      score_pair cfg ⟨0, 0⟩ init_global gold.render test2.render = .done r2 ∧
      r2.report.Status = 0 ∧
      r2.report.match_ ≠ r.report.match_ := by
  obtain ⟨w1, w2, w3, _, _, _⟩ := greedy_trees_wellformed
  obtain ⟨h1, h2, h3⟩ := greedy_lines
  have hs := (score_pair_eq greedy_cfg ⟨0, 0⟩ init_global _ _ _ _ h1 h2).trans
    (calc_result_scored greedy_cfg ⟨0, 0⟩ init_global 1 [⟨['a'], ['N'], 9⟩] [⟨['a'], ['N'], 9⟩]
      [⟨0, 1, ['B'], 9⟩, ⟨0, 1, ['A'], 9⟩] [⟨0, 1, ['A'], 9⟩, ⟨0, 1, ['C'], 9⟩]
      (by simp) rfl (by decide))
  have hs2 := (score_pair_eq greedy_cfg ⟨0, 0⟩ init_global _ _ _ _ h1 h3).trans
    (calc_result_scored greedy_cfg ⟨0, 0⟩ init_global 1 [⟨['a'], ['N'], 9⟩] [⟨['a'], ['N'], 9⟩]
      [⟨0, 1, ['B'], 9⟩, ⟨0, 1, ['A'], 9⟩] [⟨0, 1, ['C'], 9⟩, ⟨0, 1, ['A'], 9⟩]
      (by simp) rfl (by decide))
  have hb1 : massage_data greedy_cfg (greedy_gold.brackets greedy_cfg 0)
      (greedy_test.brackets greedy_cfg 0)
      = ⟨[⟨0, 1, ['B'], 0⟩, ⟨0, 1, ['A'], 0⟩], [⟨0, 1, ['A'], 0⟩, ⟨0, 1, ['C'], 0⟩], 2, 2⟩ := by
    decide
  have hp : IsPairing greedy_cfg [⟨0, 1, ['B'], 0⟩, ⟨0, 1, ['A'], 0⟩]
      [⟨0, 1, ['A'], 0⟩, ⟨0, 1, ['C'], 0⟩]
      [(⟨0, 1, ['B'], 0⟩, ⟨0, 1, ['C'], 0⟩), (⟨0, 1, ['A'], 0⟩, ⟨0, 1, ['A'], 0⟩)] := by
    refine ⟨?_, ?_, ?_⟩
    · intro p hp
      simp only [List.mem_cons, List.mem_singleton, List.not_mem_nil, or_false] at hp
      rcases hp with rfl | rfl <;> exact ⟨rfl, rfl, by decide⟩
    · exact List.Perm.subperm (List.Perm.refl _)
    · exact List.Perm.subperm (List.Perm.swap _ _ _)
  refine ⟨greedy_cfg, greedy_gold, greedy_test, greedy_test2, _, _,
    [(⟨0, 1, ['B'], 0⟩, ⟨0, 1, ['C'], 0⟩), (⟨0, 1, ['A'], 0⟩, ⟨0, 1, ['A'], 0⟩)],
    rfl, w1, w2, w3, hs, rfl, ?_, ?_, ?_, ?_, hs2, rfl, ?_⟩
  · rw [hb1]
    exact hp
  · intro ps' hps'
    rw [hb1] at hps'
    have := hps'.2.1.length_le
    simpa using this
  · decide
  · decide
  · decide

theorem match_inner_marks (cfg : Config) (b1 : s_bracket) :
    ∀ (l l' : List s_bracket), match_inner cfg b1 l = some l' →
      (∀ t ∈ l', t ∈ l ∨
        (t.result = 1 ∧ b1.result ≠ 5 ∧ b1.start = t.start ∧ b1.end_ = t.end_)) ∧
      l'.countP (fun b => b.result == 1) = l.countP (fun b => b.result == 1) + 1
  | [], l', h => by simp [match_inner] at h
  | b2 :: rest, l', h => by
    unfold match_inner at h
    split at h
    · rename_i hc
      injection h with h
      subst h
      obtain ⟨h5, h0, e1, e2, _⟩ := match_cond_true cfg b1 b2 hc
      constructor
      · intro t ht
        rcases List.mem_cons.1 ht with rfl | ht
        · exact Or.inr ⟨rfl, h5, e1, e2⟩
        · exact Or.inl (List.mem_cons_of_mem _ ht)
      · simp [List.countP_cons, h0]
    · split at h
      · simp at h
      · rename_i rest' hr
        injection h with h
        subst h
        obtain ⟨ih1, ih2⟩ := match_inner_marks cfg b1 rest rest' hr
        constructor
        · intro t ht
          rcases List.mem_cons.1 ht with rfl | ht
          · exact Or.inl (List.mem_cons_self _ _)
          · rcases ih1 t ht with h' | h'
            · exact Or.inl (List.mem_cons_of_mem _ h')
            · exact Or.inr h'
        · simp only [List.countP_cons, ih2]
          omega

theorem match_loop_marks (cfg : Config) : ∀ (l1 l2 : List s_bracket),
    (∀ t ∈ (match_loop cfg l1 l2).bracket2, t ∈ l2 ∨
      (t.result = 1 ∧ ∃ g ∈ l1, g.result ≠ 5 ∧ g.start = t.start ∧ g.end_ = t.end_)) ∧
    (match_loop cfg l1 l2).bracket2.countP (fun b => b.result == 1)
      = l2.countP (fun b => b.result == 1) + (match_loop cfg l1 l2).match_
  | [], l2 => by simp [match_loop]
  | b1 :: rest, l2 => by
    unfold match_loop
    cases hm : match_inner cfg b1 l2 with
    | none =>
      obtain ⟨ih1, ih2⟩ := match_loop_marks cfg rest l2
      simp only
      refine ⟨fun t ht => ?_, ih2⟩
      rcases ih1 t ht with h | ⟨h, g, hg, hh⟩
      · exact Or.inl h
      · exact Or.inr ⟨h, g, List.mem_cons_of_mem _ hg, hh⟩
    | some l2' =>
      obtain ⟨ih1, ih2⟩ := match_loop_marks cfg rest l2'
      obtain ⟨m1, m2⟩ := match_inner_marks cfg b1 l2 l2' hm
      simp only
      refine ⟨fun t ht => ?_, by rw [ih2, m2]; omega⟩
      rcases ih1 t ht with h | ⟨h, g, hg, hh⟩
      · rcases m1 t h with h' | ⟨h', h5, e1, e2⟩
        · exact Or.inl h'
        · exact Or.inr ⟨h', b1, List.mem_cons_self _ _, h5, e1, e2⟩
      · exact Or.inr ⟨h, g, List.mem_cons_of_mem _ hg, hh⟩

/-- With gold brackets that do not cross one another and a massaged test
list, a test bracket that the matching loops marked (`result == 1`) crosses no
gold bracket, and matches plus crossings stay within the test brackets that
are not deleted. -/
theorem matched_not_crossing (cfg : Config) (l1 l2 : List s_bracket)
    (hnc : ∀ a ∈ l1, ∀ b ∈ l1, ¬ Crosses a b) (hm : IsMassaged l2) :
    (∀ t ∈ (match_loop cfg l1 l2).bracket2, t.result = 1 →
      ¬ CrossesSome (match_loop cfg l1 l2).bracket1 t) ∧
    (match_loop cfg l1 l2).bracket2.countP (fun b => b.result == 1)
      = (match_loop cfg l1 l2).match_ ∧
    (match_loop cfg l1 l2).match_
      + cross_loop (match_loop cfg l1 l2).bracket1 (match_loop cfg l1 l2).bracket2
        ≤ count_real l2 := by
  obtain ⟨k1, k2⟩ := match_loop_marks cfg l1 l2
  obtain ⟨s1, s2⟩ := match_loop_span_del cfg l1 l2
  have h1 : ∀ t ∈ (match_loop cfg l1 l2).bracket2, t.result = 1 →
      ¬ CrossesSome (match_loop cfg l1 l2).bracket1 t := by
    intro t ht hr hx
    rcases k1 t ht with h | ⟨_, g, hg, _, e1, e2⟩
    · rcases hm t h with e | e <;> rw [hr] at e <;> exact absurd e (by decide)
    · obtain ⟨_, g', hg', _, hc⟩ := crossesSome_congr s1 rfl hx
      refine hnc g' hg' g hg ?_
      unfold Crosses at hc ⊢
      rw [e1, e2]
      exact hc
  have h0 : l2.countP (fun b => b.result == 1) = 0 := by
    rw [List.countP_eq_zero]
    intro b hb
    rcases hm b hb with e | e <;> simp [e]
  refine ⟨h1, by rw [k2, h0, Nat.zero_add], ?_⟩
  have hle := (match_loop_le cfg l1 l2).2
  have hc : cross_loop (match_loop cfg l1 l2).bracket1 (match_loop cfg l1 l2).bracket2
      ≤ (match_loop cfg l1 l2).bracket2.countP (fun b => b.result == 0) := by
    rw [cross_loop_eq, ← List.countP_eq_length_filter]
    refine List.countP_mono_left (fun t ht hx => ?_)
    have hx' : CrossesSome (match_loop cfg l1 l2).bracket1 t := by simpa using hx
    have hn1 : t.result ≠ 1 := fun e => h1 t ht e hx'
    have hn5 : t.result ≠ 5 := hx'.1
    rcases k1 t ht with h | ⟨h, _⟩
    · rcases hm t h with e | e
      · simp [e]
      · exact absurd e hn5
    · exact absurd h hn1
  have hr : l2.countP (fun b => b.result == 0) = count_real l2 := by
    rw [count_real_length, real_eq_free_of_massaged l2 hm, free_brackets,
      List.countP_eq_length_filter]
  omega

/-- C27. On the scoring path of `calc_result` (a non-empty test sentence,
`wn1 = wn2`, no word mismatch), when no two gold brackets cross one another,
no test bracket that the matching loops marked (`result == 1`) is counted by
the crossing loops; the marked test brackets are `match` in number, the
crossing count is the number of test brackets that cross some gold bracket,
and `match + crossing <= r_bn2`. -/
theorem match_plus_crossing (cfg : Config) (g : Globals) (tot : Totals × Totals) (r_wn1 : Nat)
    (t1 t2 : List s_terminal) (b1 b2 : List s_bracket) (h1 : t2.length ≠ 0)
    (h2 : t1.length = t2.length) (h3 : ¬ WordsDiffer cfg t1 t2)
    (hnc : ∀ a ∈ b1, ∀ b ∈ b1, ¬ Crosses a b) :
    ∃ r, calc_result cfg g tot r_wn1 t1 t2 b1 b2 = .done r ∧
      r.report.Status = g.Status ∧
      (∀ t ∈ r.bracket2, t.result = 1 → ¬ CrossesSome r.bracket1 t) ∧
      r.bracket2.countP (fun b => b.result == 1) = r.report.match_ ∧
      (r.bracket2.filter (fun t => decide (CrossesSome r.bracket1 t))).length
        = r.report.crossing ∧
      r.report.match_ + r.report.crossing ≤ r.report.r_bn2 := by
  have hne : t2 ≠ [] := fun h => h1 (by rw [h]; rfl)
  have hw : words_unmatch cfg t1 t2 = false := by
    cases hx : words_unmatch cfg t1 t2 with
    | false => rfl
    | true => exact absurd ((words_unmatch_iff cfg t1 t2).1 hx) h3
  have hnc' : ∀ a ∈ (massage_data cfg b1 b2).bracket1,
      ∀ b ∈ (massage_data cfg b1 b2).bracket1, ¬ Crosses a b := by
    intro a ha b hb
    obtain ⟨a', ha', rfl⟩ := List.mem_map.1 ha
    obtain ⟨b', hb', rfl⟩ := List.mem_map.1 hb
    have := hnc a' ha' b' hb'
    unfold Crosses at this ⊢
    simpa only [massage_bracket_start, massage_bracket_end] using this
  obtain ⟨k1, k2, k3⟩ := matched_not_crossing cfg (massage_data cfg b1 b2).bracket1
    (massage_data cfg b1 b2).bracket2 hnc' (massaged_map cfg b2)
  exact ⟨_, calc_result_scored cfg g tot r_wn1 t1 t2 b1 b2 hne h2 hw, rfl, k1, k2,
    (cross_loop_eq _ _).symm, k3⟩

/-- C27 on gold brackets `(0,3,S) (0,2,A)` and test brackets
`(0,3,S) (1,3,B)` over three equal words: the pair is scored, and matches plus
crossings stay within `r_bn2`. -/
theorem match_plus_crossing_witness :
    ([⟨['a'], ['N'], 9⟩, ⟨['b'], ['N'], 9⟩, ⟨['c'], ['N'], 9⟩] : List s_terminal).length ≠ 0 ∧
    ([⟨['a'], ['N'], 9⟩, ⟨['b'], ['N'], 9⟩, ⟨['c'], ['N'], 9⟩] : List s_terminal).length
      = ([⟨['a'], ['N'], 9⟩, ⟨['b'], ['N'], 9⟩, ⟨['c'], ['N'], 9⟩] : List s_terminal).length ∧
    ¬ WordsDiffer ⟨10, 40, 1, [], [], [], []⟩
      [⟨['a'], ['N'], 9⟩, ⟨['b'], ['N'], 9⟩, ⟨['c'], ['N'], 9⟩]
      [⟨['a'], ['N'], 9⟩, ⟨['b'], ['N'], 9⟩, ⟨['c'], ['N'], 9⟩] ∧
    (∀ a ∈ ([⟨0, 3, ['S'], 9⟩, ⟨0, 2, ['A'], 9⟩] : List s_bracket),
      ∀ b ∈ ([⟨0, 3, ['S'], 9⟩, ⟨0, 2, ['A'], 9⟩] : List s_bracket), ¬ Crosses a b) ∧
    ∃ r, calc_result ⟨10, 40, 1, [], [], [], []⟩ ⟨0, 0⟩ init_global 3
        [⟨['a'], ['N'], 9⟩, ⟨['b'], ['N'], 9⟩, ⟨['c'], ['N'], 9⟩]
        [⟨['a'], ['N'], 9⟩, ⟨['b'], ['N'], 9⟩, ⟨['c'], ['N'], 9⟩]
        [⟨0, 3, ['S'], 9⟩, ⟨0, 2, ['A'], 9⟩] [⟨0, 3, ['S'], 9⟩, ⟨1, 3, ['B'], 9⟩] = .done r ∧
      r.report.Status = 0 ∧
      r.report.match_ + r.report.crossing ≤ r.report.r_bn2 := by
  have hw : ¬ WordsDiffer ⟨10, 40, 1, [], [], [], []⟩
      [⟨['a'], ['N'], 9⟩, ⟨['b'], ['N'], 9⟩, ⟨['c'], ['N'], 9⟩]
      [⟨['a'], ['N'], 9⟩, ⟨['b'], ['N'], 9⟩, ⟨['c'], ['N'], 9⟩] := by
    rw [← words_unmatch_iff]
    decide
  have hnc : ∀ a ∈ ([⟨0, 3, ['S'], 9⟩, ⟨0, 2, ['A'], 9⟩] : List s_bracket),
      ∀ b ∈ ([⟨0, 3, ['S'], 9⟩, ⟨0, 2, ['A'], 9⟩] : List s_bracket), ¬ Crosses a b := by
    decide
  obtain ⟨r, hr, hs, _, _, _, hle⟩ := match_plus_crossing ⟨10, 40, 1, [], [], [], []⟩ ⟨0, 0⟩
    init_global 3 [⟨['a'], ['N'], 9⟩, ⟨['b'], ['N'], 9⟩, ⟨['c'], ['N'], 9⟩]
    [⟨['a'], ['N'], 9⟩, ⟨['b'], ['N'], 9⟩, ⟨['c'], ['N'], 9⟩]
    [⟨0, 3, ['S'], 9⟩, ⟨0, 2, ['A'], 9⟩] [⟨0, 3, ['S'], 9⟩, ⟨1, 3, ['B'], 9⟩]
    (by simp) rfl hw hnc
  exact ⟨by simp, rfl, hw, hnc, r, hr, hs, hle⟩

/-- C27 from the input lines `(S (A (N a) (N b)) (N c))` and
`(S (N a) (B (N b) (N c)))`: the test bracket `S` is matched, the test bracket
`B` crosses the gold bracket `A`, and `1 + 1 <= 2`. -/
theorem match_plus_crossing_example :
    ∃ r, score_pair ⟨10, 40, 1, [], [], [], []⟩ ⟨0, 0⟩ init_global
        "(S (A (N a) (N b)) (N c))".data "(S (N a) (B (N b) (N c)))".data = .done r ∧
      r.report.Status = 0 ∧ r.report.match_ = 1 ∧ r.report.crossing = 1 ∧
      r.report.r_bn2 = 2 ∧
      r.bracket2 = [⟨0, 3, ['S'], 1⟩, ⟨1, 3, ['B'], 0⟩] := by
  have h1 : read_line ⟨10, 40, 1, [], [], [], []⟩ ⟨0, 0⟩ "(S (A (N a) (N b)) (N c))".data
      = .done ⟨3, [⟨['a'], ['N'], 9⟩, ⟨['b'], ['N'], 9⟩, ⟨['c'], ['N'], 9⟩],
          [⟨0, 3, ['S'], 9⟩, ⟨0, 2, ['A'], 9⟩], ⟨0, 0⟩⟩ := by decide
  have h2 : read_line ⟨10, 40, 1, [], [], [], []⟩ ⟨0, 0⟩ "(S (N a) (B (N b) (N c)))".data
      = .done ⟨3, [⟨['a'], ['N'], 9⟩, ⟨['b'], ['N'], 9⟩, ⟨['c'], ['N'], 9⟩],
          [⟨0, 3, ['S'], 9⟩, ⟨1, 3, ['B'], 9⟩], ⟨0, 0⟩⟩ := by decide
  have hc := (score_pair_eq _ ⟨0, 0⟩ init_global _ _ _ _ h1 h2).trans
    (calc_result_scored ⟨10, 40, 1, [], [], [], []⟩ ⟨0, 0⟩ init_global 3
      [⟨['a'], ['N'], 9⟩, ⟨['b'], ['N'], 9⟩, ⟨['c'], ['N'], 9⟩]
      [⟨['a'], ['N'], 9⟩, ⟨['b'], ['N'], 9⟩, ⟨['c'], ['N'], 9⟩]
      [⟨0, 3, ['S'], 9⟩, ⟨0, 2, ['A'], 9⟩] [⟨0, 3, ['S'], 9⟩, ⟨1, 3, ['B'], 9⟩]
      (by simp) rfl (by decide))
  exact ⟨_, hc, rfl, by decide, by decide, by decide, by decide⟩

mutual

theorem tree_brackets_nodes (cfg : Config) : ∀ (t : Tree) (off : Nat),
    List.Forall₂ (fun n b => b.label = n.label ∧
        b.end_ = b.start + ((n.terminals cfg).length : Int))
      t.nodes (t.brackets cfg off)
  | .pre _ _ _, _ => by
    unfold Tree.nodes Tree.brackets
    exact List.Forall₂.nil
  | .node l ks c, off => by
    unfold Tree.nodes Tree.brackets
    refine List.Forall₂.cons ⟨rfl, ?_⟩ (forest_brackets_nodes cfg ks off)
    simp only [Tree.terminals]
    push_cast
    rfl

theorem forest_brackets_nodes (cfg : Config) : ∀ (f : Forest) (off : Nat),
    List.Forall₂ (fun n b => b.label = n.label ∧
        b.end_ = b.start + ((n.terminals cfg).length : Int))
      f.nodes (f.brackets cfg off)
  | .nil, _ => by
    unfold Forest.nodes Forest.brackets
    exact List.Forall₂.nil
  | .cons _ t f, off => by
    unfold Forest.nodes Forest.brackets
    exact List.rel_append (tree_brackets_nodes cfg t off)
      (forest_brackets_nodes cfg f (off + (t.terminals cfg).length))
end

theorem massage_zero_width (cfg : Config) (b : s_bracket) (h : b.start = b.end_) :
    (massage_bracket cfg b).result = 5 ∧ (massage_bracket cfg b).label = b.label := by
  unfold massage_bracket
  simp [h]

/-- C23. On the line of a well-formed tree within the array capacities and
for every delete-label set, `read_line` reports no error and emits for each
node that is not a pre-terminal one bracket, in the order of the opening
parentheses, with the label of the node. When the labels of all
pre-terminals under the node are in `Delete_label` the bracket has
`start == end` and `massage_data` gives it `result = 5` (deleted) and leaves
its label alone; when some pre-terminal under the node is kept the bracket has
`start < end`. -/
theorem zero_width_spec (cfg : Config) (g : Globals) (t : Tree) (ws0 ws : Str)
    (hwf : t.WellFormed)
    (hw : (t.terminals cfg).length ≤ MAX_WORD_IN_SENT)
    (hb : (t.brackets cfg 0).length ≤ MAX_BRACKET_IN_SENT)
    (hws0 : allSpace ws0) (hws : allSpace ws) :
    ∃ p, read_line cfg g (ws0 ++ (t.render ++ ws)) = .done p ∧ p.g = g ∧
      List.Forall₂ (fun n b => b.label = n.label ∧
          ((∀ l ∈ n.preterminals, l ∈ cfg.Delete_label) →
            b.start = b.end_ ∧ (massage_bracket cfg b).result = 5 ∧
              (massage_bracket cfg b).label = b.label) ∧
          ((∃ l ∈ n.preterminals, l ∉ cfg.Delete_label) → b.start < b.end_))
        t.nodes p.bracket ∧
      (∀ other : List s_bracket,
        (massage_data cfg p.bracket other).bracket1 = p.bracket.map (massage_bracket cfg) ∧
        (massage_data cfg other p.bracket).bracket2 = p.bracket.map (massage_bracket cfg)) := by
  refine ⟨_, read_line_render cfg g t ws0 ws hwf hw hb hws0 hws, rfl, ?_, fun _ => ⟨rfl, rfl⟩⟩
  refine (tree_brackets_nodes cfg t 0).imp ?_
  rintro n b ⟨h1, h2⟩
  rw [tree_terminals_length] at h2
  refine ⟨h1, ?_, ?_⟩
  · intro hall
    have h0 : n.preterminals.countP (fun l => decide (l ∉ cfg.Delete_label)) = 0 := by
      rw [List.countP_eq_zero]
      intro l hl
      simpa using hall l hl
    rw [h0] at h2
    have e : b.start = b.end_ := by simpa using h2.symm
    exact ⟨e, massage_zero_width cfg b e⟩
  · rintro ⟨l, hl, hn⟩
    have hp : 0 < n.preterminals.countP (fun l => decide (l ∉ cfg.Delete_label)) := by
      rw [List.countP_pos_iff]
      exact ⟨l, hl, by simpa using hn⟩
    omega

/-- C23 on the line `(S (NP (-NONE- *)) (VP (V runs)))` with `-NONE-` as
delete label: the bracket `NP` has only a deleted pre-terminal beneath it, it
is emitted as `(0,0,NP)` without an error, and `massage_data` gives it
`result = 5`; `S` and `VP` span the kept terminal. -/
theorem zero_width_witness :
    example_none.WellFormed ∧
    (example_none.terminals ⟨10, 40, 1, [NONE_label], [], [], []⟩).length ≤ MAX_WORD_IN_SENT ∧
    (example_none.brackets ⟨10, 40, 1, [NONE_label], [], [], []⟩ 0).length
      ≤ MAX_BRACKET_IN_SENT ∧
    allSpace [] ∧ allSpace ['\n'] ∧
    ∃ p, read_line ⟨10, 40, 1, [NONE_label], [], [], []⟩ ⟨0, 0⟩
        "(S (NP (-NONE- *)) (VP (V runs)))\n".data = .done p ∧
      p.g = ⟨0, 0⟩ ∧
      p.bracket = [⟨0, 1, ['S'], 9⟩, ⟨0, 0, ['N', 'P'], 9⟩, ⟨0, 1, ['V', 'P'], 9⟩] ∧
      (massage_data ⟨10, 40, 1, [NONE_label], [], [], []⟩ p.bracket []).bracket1
        = [⟨0, 1, ['S'], 0⟩, ⟨0, 0, ['N', 'P'], 5⟩, ⟨0, 1, ['V', 'P'], 0⟩] := by
  have hwf : example_none.WellFormed := by
    simp [example_none, Tree.WellFormed, Forest.WellFormed, okToken, allSpace, MAX_LABEL_LEN]
    decide
  have hs0 : allSpace [] := by simp [allSpace]
  have hs : allSpace ['\n'] := by simp [allSpace]; decide
  obtain ⟨p, hp, hg, _, _⟩ := zero_width_spec ⟨10, 40, 1, [NONE_label], [], [], []⟩
    ⟨0, 0⟩ example_none [] ['\n'] hwf (by decide) (by decide) hs0 hs
  have hp' : read_line ⟨10, 40, 1, [NONE_label], [], [], []⟩ ⟨0, 0⟩
      "(S (NP (-NONE- *)) (VP (V runs)))\n".data
      = .done ⟨2, [⟨['r', 'u', 'n', 's'], ['V'], 9⟩],
          [⟨0, 1, ['S'], 9⟩, ⟨0, 0, ['N', 'P'], 9⟩, ⟨0, 1, ['V', 'P'], 9⟩], ⟨0, 0⟩⟩ := by decide
  have e : p = ⟨2, [⟨['r', 'u', 'n', 's'], ['V'], 9⟩],
      [⟨0, 1, ['S'], 9⟩, ⟨0, 0, ['N', 'P'], 9⟩, ⟨0, 1, ['V', 'P'], 9⟩], ⟨0, 0⟩⟩ :=
    Outcome.done.inj (hp.symm.trans hp')
  subst e
  exact ⟨hwf, by decide, by decide, hs0, hs, _, hp', rfl, rfl, by decide⟩

theorem BInv_nil : BInv 0 [] [] := by
  refine ⟨List.Pairwise.nil, by simp, ?_, ?_⟩
  · intro i b h
    simp at h
  · intro i j a b _ h
    simp at h

theorem BInv_word (wid : Nat) (br : List s_bracket) (st : List Nat) (h : BInv wid br st) :
    BInv (wid + 1) br st := by
  obtain ⟨h1, h2, h3, h4⟩ := h
  refine ⟨h1, h2, ?_, h4⟩
  intro i b hb
  obtain ⟨a1, a2, a3⟩ := h3 i b hb
  refine ⟨a1, by push_cast; omega, fun hn => ?_⟩
  obtain ⟨c1, c2⟩ := a3 hn
  exact ⟨c1, by push_cast; omega⟩

theorem BInv_open (wid : Nat) (br : List s_bracket) (st : List Nat) (label : Str)
    (h : BInv wid br st) :
    BInv wid (br ++ [⟨(wid : Int), -1, label, 9⟩]) (br.length :: st) := by
  obtain ⟨h1, h2, h3, h4⟩ := h
  refine ⟨?_, ?_, ?_, ?_⟩
  · exact List.Pairwise.cons (fun j hj => h2 j hj) h1
  · intro i hi
    rw [List.length_append, List.length_singleton]
    rcases List.mem_cons.1 hi with rfl | hi
    · omega
    · have := h2 i hi
      omega
  · intro i b hb
    by_cases hlt : i < br.length
    · rw [List.getElem?_append_left hlt] at hb
      obtain ⟨a1, a2, a3⟩ := h3 i b hb
      exact ⟨a1, a2, fun hn => a3 (fun hm => hn (List.mem_cons_of_mem _ hm))⟩
    · rw [List.getElem?_append_right (by omega)] at hb
      have hi : i = br.length := by
        by_contra hne
        have : i - br.length ≠ 0 := by omega
        obtain ⟨k, hk⟩ := Nat.exists_eq_succ_of_ne_zero this
        rw [hk] at hb
        simp at hb
      subst hi
      simp only [Nat.sub_self, List.getElem?_cons_zero, Option.some.injEq] at hb
      subst hb
      exact ⟨by simp, le_refl _, fun hn => absurd (List.mem_cons_self _ _) hn⟩
  · intro i j a b hij ha hb
    have hj : j < br.length + 1 := by
      have := (List.getElem?_eq_some.1 hb).1
      simpa using this
    have hi : i < br.length := by omega
    rw [List.getElem?_append_left hi] at ha
    by_cases hlt : j < br.length
    · rw [List.getElem?_append_left hlt] at hb
      obtain ⟨a1, a2⟩ := h4 i j a b hij ha hb
      refine ⟨a1, fun hn => ?_⟩
      rcases a2 (fun hm => hn (List.mem_cons_of_mem _ hm)) with c | ⟨c1, c2⟩
      · exact Or.inl c
      · refine Or.inr ⟨fun hm => ?_, c2⟩
        rcases List.mem_cons.1 hm with e | hm
        · omega
        · exact c1 hm
    · have hje : j = br.length := by omega
      subst hje
      rw [List.getElem?_append_right (le_refl _)] at hb
      simp only [Nat.sub_self, List.getElem?_cons_zero, Option.some.injEq] at hb
      subst hb
      obtain ⟨a1, a2, a3⟩ := h3 i a ha
      refine ⟨a2, fun hn => Or.inl ?_⟩
      exact (a3 (fun hm => hn (List.mem_cons_of_mem _ hm))).2

theorem BInv_close (wid : Nat) (br : List s_bracket) (t : Nat) (st : List Nat)
    (h : BInv wid br (t :: st)) :
    BInv wid (br.modify (fun x => { x with end_ := (wid : Int) }) t) st := by
  obtain ⟨h1, h2, h3, h4⟩ := h
  have hp := List.pairwise_cons.1 h1
  have hts : t ∉ st := fun hm => absurd (hp.1 t hm) (lt_irrefl _)
  refine ⟨hp.2, ?_, ?_, ?_⟩
  · intro i hi
    rw [List.length_modify]
    exact h2 i (List.mem_cons_of_mem _ hi)
  · intro i b hb
    rw [List.getElem?_modify] at hb
    cases ho : br[i]? with
    | none => rw [ho] at hb; simp at hb
    | some b0 =>
      rw [ho] at hb
      simp only [Option.map_eq_map, Option.map_some', Option.some.injEq] at hb
      obtain ⟨a1, a2, a3⟩ := h3 i b0 ho
      by_cases e : t = i
      · rw [if_pos e] at hb
        subst hb
        exact ⟨a1, a2, fun _ => ⟨a2, le_refl _⟩⟩
      · rw [if_neg e] at hb
        subst hb
        refine ⟨a1, a2, fun hn => a3 (fun hm => ?_)⟩
        rcases List.mem_cons.1 hm with e' | hm
        · exact e e'.symm
        · exact hn hm
  · intro i j a b hij ha hb
    rw [List.getElem?_modify] at ha hb
    cases hoa : br[i]? with
    | none => rw [hoa] at ha; simp at ha
    | some a0 =>
      cases hob : br[j]? with
      | none => rw [hob] at hb; simp at hb
      | some b0 =>
        rw [hoa] at ha
        rw [hob] at hb
        simp only [Option.map_eq_map, Option.map_some', Option.some.injEq] at ha hb
        obtain ⟨c1, c2⟩ := h4 i j a0 b0 hij hoa hob
        have sa : a.start = a0.start := by
          rw [← ha]; split <;> rfl
        have sb : b.start = b0.start := by
          rw [← hb]; split <;> rfl
        refine ⟨by rw [sa, sb]; exact c1, fun hn => ?_⟩
        by_cases ei : t = i
        · have ej : ¬ t = j := by omega
          rw [if_pos ei] at ha
          rw [if_neg ej] at hb
          subst hb
          have hjs : j ∉ st := fun hm => by
            have := hp.1 j hm
            omega
          have hjc : j ∉ t :: st := fun hm => by
            rcases List.mem_cons.1 hm with e' | hm
            · exact ej e'.symm
            · exact hjs hm
          have := (h3 j b0 hob).2.2 hjc
          refine Or.inr ⟨hjs, ?_⟩
          rw [← ha]
          exact this.2
        · rw [if_neg ei] at ha
          subst ha
          have hic : i ∉ t :: st := fun hm => by
            rcases List.mem_cons.1 hm with e' | hm
            · exact ei e'.symm
            · exact hn hm
          rcases c2 hic with d | ⟨d1, d2⟩
          · exact Or.inl (by rw [sb]; exact d)
          · have ej : ¬ t = j := fun e => d1 (e ▸ List.mem_cons_self _ _)
            rw [if_neg ej] at hb
            subst hb
            exact Or.inr ⟨fun hm => d1 (List.mem_cons_of_mem _ hm), d2⟩

theorem BInv_final (wid : Nat) (br : List s_bracket) (h : BInv wid br []) :
    (∀ b ∈ br, 0 ≤ b.start ∧ b.start ≤ b.end_ ∧ b.end_ ≤ (wid : Int)) ∧
    (∀ a ∈ br, ∀ b ∈ br, Nested a b) ∧
    (∀ a ∈ br, ∀ b ∈ br, ¬ Crosses a b) := by
  obtain ⟨_, _, h3, h4⟩ := h
  have hb : ∀ b ∈ br, 0 ≤ b.start ∧ b.start ≤ b.end_ ∧ b.end_ ≤ (wid : Int) := by
    intro b hb
    obtain ⟨i, hi⟩ := List.mem_iff_getElem?.1 hb
    obtain ⟨a1, _, a3⟩ := h3 i b hi
    exact ⟨a1, a3 (List.not_mem_nil _)⟩
  have hn : ∀ a ∈ br, ∀ b ∈ br, Nested a b := by
    intro a ha b hb'
    obtain ⟨i, hi⟩ := List.mem_iff_getElem?.1 ha
    obtain ⟨j, hj⟩ := List.mem_iff_getElem?.1 hb'
    unfold Nested
    rcases Nat.lt_trichotomy i j with hlt | heq | hgt
    · obtain ⟨c1, c2⟩ := h4 i j a b hlt hi hj
      rcases c2 (List.not_mem_nil _) with d | ⟨_, d⟩
      · exact Or.inl d
      · exact Or.inr (Or.inr (Or.inl ⟨c1, d⟩))
    · subst heq
      rw [hi] at hj
      injection hj with hj
      subst hj
      exact Or.inr (Or.inr (Or.inl ⟨le_refl _, le_refl _⟩))
    · obtain ⟨c1, c2⟩ := h4 j i b a hgt hj hi
      rcases c2 (List.not_mem_nil _) with d | ⟨_, d⟩
      · exact Or.inr (Or.inl d)
      · exact Or.inr (Or.inr (Or.inr ⟨c1, d⟩))
  refine ⟨hb, hn, ?_⟩
  intro a ha b hb'
  have := hn a ha b hb'
  have ba := hb a ha
  have bb := hb b hb'
  unfold Nested at this
  unfold Crosses
  omega

theorem Error_count_le (cfg : Config) (g g' : Globals) (b : Bool) (h : Error cfg g = (g', b)) :
    g.Error_count < g'.Error_count := by
  unfold Error at h
  injection h with h1 _
  subst h1
  exact Nat.lt_succ_self _

theorem popb_live_some (stack : List Nat) (b : Nat) (st : List Nat) (h : popb_live stack = some (b, st)) :
    stack = b :: st := by
  cases stack with
  | nil => simp [popb_live] at h
  | cons a l =>
    simp only [popb_live, Option.some.injEq, Prod.mk.injEq] at h
    rw [h.1, h.2]

theorem read_step_inv (cfg : Config) (s s' : Reader) (c : Char) (rest : Str)
    (h : read_step cfg s c rest = .done s')
    (hi : BInv s.terminal.length s.bracket s.stack) :
    BInv s'.terminal.length s'.bracket s'.stack ∧ s.g.Error_count ≤ s'.g.Error_count := by
  unfold read_step at h
  unfold open_bracket popb_live at h
  dsimp only at h
  repeat' split at h
  all_goals first
    | (simp at h; done)
    | (injection h with h
       subst h
       try have hm := Nat.le_of_lt (Error_count_le cfg _ _ _ ‹Error cfg s.g = _›)
       first
         | exact ⟨hi, le_refl _⟩
         | exact ⟨hi, hm⟩
         | exact ⟨BInv_open _ _ _ _ hi, le_refl _⟩
         | exact ⟨BInv_open _ _ _ _ hi, hm⟩
         | (refine ⟨?_, le_refl _⟩
            simp only [List.length_append, List.length_singleton]
            exact BInv_word _ _ _ hi)
         | (refine ⟨?_, le_refl _⟩
            rename_i hst
            rw [popb_live_some _ _ _ hst] at hi
            exact BInv_close _ _ _ _ hi))

theorem scan_inv (cfg : Config) (g0 : Globals) : ∀ (fuel : Nat) (s : Reader) (p : Parsed),
    scan cfg fuel s = .done p → BInv s.terminal.length s.bracket s.stack →
    g0.Error_count ≤ s.g.Error_count → p.g = g0 →
    (∀ b ∈ p.bracket, 0 ≤ b.start ∧ b.start ≤ b.end_ ∧ b.end_ ≤ (p.terminal.length : Int)) ∧
    (∀ a ∈ p.bracket, ∀ b ∈ p.bracket, Nested a b) ∧
    (∀ a ∈ p.bracket, ∀ b ∈ p.bracket, ¬ Crosses a b)
  | 0, s, p, h, _, _, _ => by simp [scan] at h
  | fuel + 1, s, p, h, hi, hg, hp => by
    unfold scan at h
    split at h
    · split at h
      · rename_i he
        injection h with h
        subst h
        have : s.stack = [] := by simpa using he
        rw [this] at hi
        exact BInv_final _ _ hi
      · split at h
        · simp at h
        · rename_i g' hg'
          injection h with h
          subst h
          have := Error_count_le cfg _ _ _ hg'
          simp only at hp
          rw [hp] at this
          omega
    · split at h
      · rename_i s' hs'
        obtain ⟨k1, k2⟩ := read_step_inv cfg s s' _ _ hs' hi
        exact scan_inv cfg g0 fuel s' p h k1 (le_trans hg k2) hp
      · simp at h
      · simp at h
      · simp at h

/-- On every input line that `read_line` reads to the end within the arrays
(no `)` is read on an empty stack) and without a call of `Error` (it returns
with `Status` and `Error_count` as they were), every bracket emitted
satisfies `0 <= start <= end <= wn`, and any two brackets emitted are
properly nested: their spans are disjoint or one contains the other, so that
no two of them cross. -/
theorem read_line_nested (cfg : Config) (g : Globals) (buff : Str) (p : Parsed)
    (h : read_line cfg g buff = .done p) (hg : p.g = g) :
    (∀ b ∈ p.bracket, 0 ≤ b.start ∧ b.start ≤ b.end_ ∧ b.end_ ≤ (p.terminal.length : Int)) ∧
    (∀ a ∈ p.bracket, ∀ b ∈ p.bracket, Nested a b) ∧
    (∀ a ∈ p.bracket, ∀ b ∈ p.bracket, ¬ Crosses a b) :=
  scan_inv cfg g _ _ p h BInv_nil (le_refl _) hg

/-- The line `(A (N a)) (B (C (N b)))`, two trees side by side: read
without an error, with the brackets `(0,1,A) (1,2,B) (1,2,C)` over two
terminals. -/
theorem read_line_nested_witness :
    read_line ⟨10, 40, 1, [], [], [], []⟩ ⟨0, 0⟩ "(A (N a)) (B (C (N b)))".data
      = .done ⟨2, [⟨['a'], ['N'], 9⟩, ⟨['b'], ['N'], 9⟩],
          [⟨0, 1, ['A'], 9⟩, ⟨1, 2, ['B'], 9⟩, ⟨1, 2, ['C'], 9⟩], ⟨0, 0⟩⟩ ∧
    (⟨2, [⟨['a'], ['N'], 9⟩, ⟨['b'], ['N'], 9⟩],
        [⟨0, 1, ['A'], 9⟩, ⟨1, 2, ['B'], 9⟩, ⟨1, 2, ['C'], 9⟩], ⟨0, 0⟩⟩ : Parsed).g = ⟨0, 0⟩ ∧
    (∀ b ∈ ([⟨0, 1, ['A'], 9⟩, ⟨1, 2, ['B'], 9⟩, ⟨1, 2, ['C'], 9⟩] : List s_bracket),
      0 ≤ b.start ∧ b.start ≤ b.end_ ∧ b.end_ ≤ 2) ∧
    (∀ a ∈ ([⟨0, 1, ['A'], 9⟩, ⟨1, 2, ['B'], 9⟩, ⟨1, 2, ['C'], 9⟩] : List s_bracket),
      ∀ b ∈ ([⟨0, 1, ['A'], 9⟩, ⟨1, 2, ['B'], 9⟩, ⟨1, 2, ['C'], 9⟩] : List s_bracket),
        Nested a b) ∧
    (∀ a ∈ ([⟨0, 1, ['A'], 9⟩, ⟨1, 2, ['B'], 9⟩, ⟨1, 2, ['C'], 9⟩] : List s_bracket),
      ∀ b ∈ ([⟨0, 1, ['A'], 9⟩, ⟨1, 2, ['B'], 9⟩, ⟨1, 2, ['C'], 9⟩] : List s_bracket),
        ¬ Crosses a b) := by
  have h : read_line ⟨10, 40, 1, [], [], [], []⟩ ⟨0, 0⟩ "(A (N a)) (B (C (N b)))".data
      = .done ⟨2, [⟨['a'], ['N'], 9⟩, ⟨['b'], ['N'], 9⟩],
          [⟨0, 1, ['A'], 9⟩, ⟨1, 2, ['B'], 9⟩, ⟨1, 2, ['C'], 9⟩], ⟨0, 0⟩⟩ := by decide
  exact ⟨h, rfl, read_line_nested _ _ _ _ h rfl⟩

theorem agrees_len (s : Reader) (t : Reader_mem) (n : Nat) (h : Agrees s t) :
    Agrees { s with len := n } { t with len := n } := by
  obtain ⟨h1, h2, h3, h4, h5, h6, h7, h8, h9, h10⟩ := h
  exact ⟨h1, h2, h3, rfl, h5, h6, h7, h8, h9, h10⟩

theorem open_agrees (s : Reader) (t : Reader_mem) (label p : Str) (g : Globals)
    (h : Agrees s t) (s' : Reader) (hs : open_bracket s label p g = .done s') :
    ∃ t', open_bracket_mem t label p g = .done t' ∧ Agrees s' t' := by
  obtain ⟨h1, h2, h3, h4, h5, h6, h7, h8, h9, h10⟩ := h
  unfold open_bracket at hs
  unfold open_bracket_mem
  rw [h3]
  split at hs
  · simp at hs
  · rename_i hcap
    injection hs with hs
    subst hs
    rw [if_neg hcap]
    refine ⟨_, rfl, ?_⟩
    refine ⟨rfl, h2, ?_, h4, rfl, ?_, ?_, ?_, ?_, ?_⟩
    · simp only [h3, h2, h7 s.bracket.length (le_refl _)]
    · simp only [pushb, h6, List.length_cons]
      push_cast
      rfl
    · intro k hk
      simp only [List.length_append, List.length_singleton] at hk
      exact h7 k (by omega)
    · intro i x hx
      simp only [pushb, h6]
      simp only [List.reverse_cons] at hx
      by_cases hi : i < s.stack.reverse.length
      · rw [List.getElem?_append_left hi] at hx
        have : ¬ ((i : Int) = (s.stack.length : Int)) := by
          simp only [List.length_reverse] at hi
          omega
        rw [if_neg this]
        exact h8 i x hx
      · rw [List.getElem?_append_right (by omega)] at hx
        have hi' : i = s.stack.length := by
          by_contra hne
          simp only [List.length_reverse] at hi hx
          have : i - s.stack.length ≠ 0 := by omega
          obtain ⟨k, hk⟩ := Nat.exists_eq_succ_of_ne_zero this
          rw [hk] at hx
          simp at hx
        subst hi'
        simp only [List.length_reverse, Nat.sub_self, List.getElem?_cons_zero,
          Option.some.injEq] at hx
        subst hx
        simp
    · intro x hx
      simp only [List.length_append, List.length_singleton]
      rcases List.mem_cons.1 hx with rfl | hx
      · omega
      · have := h9 x hx
        omega
    · simp only [List.length_append, List.length_singleton]
      omega

theorem open_rel (s : Reader) (t : Reader_mem) (label p : Str) (g : Globals)
    (h : Agrees s t) : OutRel (open_bracket s label p g) (open_bracket_mem t label p g) := by
  cases ho : open_bracket s label p g with
  | done s' => exact open_agrees s t label p g h s' ho
  | exited g' =>
    unfold open_bracket at ho
    split at ho <;> simp at ho
  | undefined g' => trivial
  | outOfFuel => trivial

theorem close_agrees (s : Reader) (t : Reader_mem) (rest : Str) (h : Agrees s t)
    (b : Nat) (st : List Nat) (hs : s.stack = b :: st) :
    (popb t.stack_top t.cell).2.1 = false ∧
    ∃ t', close_bracket_mem t rest s.g = .done t' ∧
      Agrees { s with
        p := rest
        stack := st
        bracket := s.bracket.modify (fun x => { x with end_ := (s.terminal.length : Int) }) b }
        t' := by
  obtain ⟨h1, h2, h3, h4, h5, h6, h7, h8, h9, h10⟩ := h
  rw [hs] at h6 h8 h9
  have hb : b < s.bracket.length := h9 b (List.mem_cons_self _ _)
  have hitem : t.cell (t.stack_top - 1) = (b : Int) := by
    have e : t.stack_top - 1 = ((st.length : Nat) : Int) := by
      rw [h6, List.length_cons]
      push_cast
      omega
    rw [e]
    refine h8 st.length b ?_
    rw [List.reverse_cons, List.getElem?_append_right (by simp)]
    simp
  have htop : ¬ t.stack_top < 0 := by
    rw [h6]
    omega
  have hw : write_end t.bracket t.spare (b : Int) t.terminal.length
      = some (s.bracket.modify (fun x => { x with end_ := (s.terminal.length : Int) }) b,
          t.spare) := by
    unfold write_end
    have c1 : ¬ (((b : Nat) : Int) < 0 ∨ (MAX_BRACKET_IN_SENT : Int) ≤ ((b : Nat) : Int)) := by
      omega
    rw [if_neg c1, h3, h2]
    simp only [Int.toNat_ofNat, hb, if_true]
  refine ⟨by simp [popb, htop], ?_⟩
  unfold close_bracket_mem
  simp only [popb, hitem, hw]
  refine ⟨_, rfl, ?_⟩
  refine ⟨rfl, h2, rfl, h4, rfl, ?_, ?_, ?_, ?_, ?_⟩
  · simp only [h6, List.length_cons]
    push_cast
    omega
  · intro k hk
    simp only [List.length_modify] at hk
    exact h7 k hk
  · intro i x hx
    refine h8 i x ?_
    rw [List.reverse_cons, List.getElem?_append_left]
    · exact hx
    · exact (List.getElem?_eq_some.1 hx).1
  · intro x hx
    simp only [List.length_modify]
    exact h9 x (List.mem_cons_of_mem _ hx)
  · simp only [List.length_modify]
    exact h10

theorem outRel_done (s' : Reader) (t' : Reader_mem) (h : Agrees s' t') :
    OutRel (.done s') (.done t') :=
  ⟨t', rfl, h⟩

theorem outRel_exited (g : Globals) : OutRel (.exited g) (.exited g) :=
  rfl

theorem outRel_undefined (g : Globals) (o : Outcome Reader_mem) : OutRel (.undefined g) o :=
  trivial

theorem read_step_rel (cfg : Config) (s : Reader) (t : Reader_mem) (c : Char) (rest : Str)
    (h : Agrees s t) : OutRel (read_step cfg s c rest) (read_step_mem cfg t c rest) := by
  have hl := fun n => agrees_len s t n h
  have hc := close_agrees s t rest h
  obtain ⟨tp, ttm, tbr, tsp, ttop, tcell, tlen, tg⟩ := t
  have h' := h
  obtain ⟨h1, h2, h3, h4, h5, h6, h7, h8, h9, h10⟩ := h
  simp only at h1 h2 h3 h4 h5
  subst h1 h2 h3 h4 h5
  simp only at hl hc h6 h7 h8
  unfold read_step read_step_mem
  simp only
  by_cases c1 : isspace c = true
  · simp only [if_pos c1]
    exact outRel_done _ _ ⟨rfl, rfl, rfl, rfl, rfl, h6, h7, h8, h9, h10⟩
  simp only [if_neg c1]
  by_cases c2 : (c == '(') = true
  · simp only [if_pos c2]
    generalize read_token rest = o
    rcases o with _ | ⟨label, p⟩
    · exact outRel_undefined _ _
    simp only
    by_cases c3 : MAX_LABEL_LEN ≤ label.length
    · simp only [if_pos c3]
      exact outRel_undefined _ _
    simp only [if_neg c3]
    rcases p with _ | ⟨q0, q1⟩
    · exact outRel_undefined _ _
    simp only
    by_cases c4 : isspace q0 = true
    · simp only [if_pos c4]
      generalize read_token (skip_space q1) = o2
      rcases o2 with _ | ⟨word, q⟩
      · exact outRel_undefined _ _
      simp only
      by_cases c5 : MAX_WORD_LEN ≤ word.length
      · simp only [if_pos c5]
        exact outRel_undefined _ _
      simp only [if_neg c5]
      rcases q with _ | ⟨d, q'⟩
      · exact outRel_undefined _ _
      simp only
      by_cases c6 : (d == ')' && is_deletelabel cfg label) = true
      · simp only [if_pos c6]
        exact outRel_done _ _ ⟨rfl, rfl, rfl, rfl, rfl, h6, h7, h8, h9, h10⟩
      simp only [if_neg c6]
      by_cases c7 : (d == ')') = true
      · simp only [if_pos c7]
        by_cases c8 : MAX_WORD_IN_SENT ≤ s.terminal.length
        · simp only [if_pos c8]
          exact outRel_undefined _ _
        · simp only [if_neg c8]
          exact outRel_done _ _ ⟨rfl, rfl, rfl, rfl, rfl, h6, h7, h8, h9, h10⟩
      simp only [if_neg c7]
      by_cases c9 : (d != '(') = true
      · simp only [if_pos c9]
        generalize Error cfg s.g = e
        rcases e with ⟨g, _ | _⟩
        · exact open_rel _ _ _ _ _ (hl _)
        · exact outRel_exited _
      · simp only [if_neg c9]
        exact open_rel _ _ _ _ _ (hl _)
    · simp only [if_neg c4]
      exact open_rel _ _ _ _ _ h'
  simp only [if_neg c2]
  by_cases c10 : (c == ')') = true
  · simp only [if_pos c10]
    cases hp : popb_live s.stack with
    | none => exact outRel_undefined _ _
    | some bs =>
      obtain ⟨b, st⟩ := bs
      obtain ⟨k1, k2⟩ := hc b st (popb_live_some _ _ _ hp)
      simp only [k1, Bool.false_eq_true, if_false]
      exact k2
  · simp only [if_neg c10]
    generalize Error cfg s.g = e
    rcases e with ⟨g, _ | _⟩
    · exact outRel_done _ _ ⟨rfl, rfl, rfl, rfl, rfl, h6, h7, h8, h9, h10⟩
    · exact outRel_exited _

theorem scan_agrees (cfg : Config) : ∀ (fuel : Nat) (s : Reader) (t : Reader_mem), Agrees s t →
    (∀ p, scan cfg fuel s = .done p → scan_mem cfg fuel t = .done p) ∧
    (∀ g, scan cfg fuel s = .exited g → scan_mem cfg fuel t = .exited g)
  | 0, s, t, _ => by simp [scan]
  | fuel + 1, s, t, h => by
    have hr := fun c rest => read_step_rel cfg s t c rest h
    have ih := scan_agrees cfg fuel
    obtain ⟨h1, h2, h3, h4, h5, h6, h7, h8, h9, h10⟩ := h
    have hemp : stackempty t.stack_top = s.stack.isEmpty := by
      rw [h6]
      cases s.stack with
      | nil => rfl
      | cons a l =>
        simp only [stackempty, List.length_cons, List.isEmpty_cons, beq_eq_false_iff_ne]
        push_cast
        omega
    unfold scan scan_mem
    rw [h1, h2, h3, h4, h5, hemp]
    cases hp : s.p with
    | nil =>
      simp only
      exact ⟨fun p hp' => hp', fun g hg => hg⟩
    | cons c rest =>
      simp only
      have hr' := hr c rest
      cases ho : read_step cfg s c rest with
      | done s' =>
        rw [ho] at hr'
        obtain ⟨t', e, ha⟩ := hr'
        rw [e]
        exact ih s' t' ha
      | exited g' =>
        rw [ho] at hr'
        have e : read_step_mem cfg t c rest = .exited g' := hr'
        rw [e]
        exact ⟨fun p hp' => by simp at hp', fun g hg => hg⟩
      | undefined g' =>
        exact ⟨fun p hp' => by simp at hp', fun g hg => by simp at hg⟩
      | outOfFuel =>
        exact ⟨fun p hp' => by simp at hp', fun g hg => by simp at hg⟩

/-- Where `read_line` with the stack as a list returns or exits, `read_line`
with the stack as memory does the same, whatever the memory held: the two
part only at a `)` read on an empty stack, from where the former is not
defined. -/
theorem read_line_agrees (m : Int → Int) (cfg : Config) (g : Globals) (buff : Str) :
    (∀ p, read_line cfg g buff = .done p → read_line_mem m cfg g buff = .done p) ∧
    (∀ g', read_line cfg g buff = .exited g' → read_line_mem m cfg g buff = .exited g') := by
  unfold read_line read_line_mem
  refine scan_agrees cfg _ _ _ ⟨rfl, rfl, rfl, rfl, rfl, rfl, fun _ _ => rfl, ?_, ?_, ?_⟩
  · intro i x hx
    simp at hx
  · intro x hx
    simp at hx
  · simp [MAX_BRACKET_IN_SENT]

theorem scan_mem_cons (cfg : Config) (fuel : Nat) (s s' : Reader_mem) (c : Char) (rest : Str)
    (hp : s.p = c :: rest) (h : read_step_mem cfg s c rest = .done s') :
    scan_mem cfg (fuel + 1) s = scan_mem cfg fuel s' := by
  conv_lhs => unfold scan_mem
  simp only [hp, h]

theorem unbalanced_head (m : Int → Int) :
    read_line_mem m ⟨10, 40, 1, [], [], [], []⟩ ⟨0, 0⟩ "(A (N a)) ) (N b) (B (N c)".data
      = scan_mem ⟨10, 40, 1, [], [], [], []⟩ 34
          ⟨") (N b) (B (N c)".data, [⟨['a'], ['N'], 9⟩], [⟨0, 1, ['A'], 9⟩], fun _ => -1, 0,
            fun i => if i = 0 then 0 else m i, 1, ⟨0, 0⟩⟩ := by
  rfl

theorem unbalanced_stray_write (m : Int → Int) (h0 : 0 ≤ m (-1))
    (h1 : m (-1) < (MAX_BRACKET_IN_SENT : Int)) :
    write_end [⟨0, 1, ['A'], 9⟩] (fun _ => -1) (m (-1)) 1
      = if m (-1) = 0 then some ([⟨0, 1, ['A'], 9⟩], fun _ => -1)
        else some ([⟨0, 1, ['A'], 9⟩], fun k => if k = (m (-1)).toNat then 1 else -1) := by
  unfold write_end
  have c1 : ¬ (m (-1) < 0 ∨ (MAX_BRACKET_IN_SENT : Int) ≤ m (-1)) := by omega
  rw [if_neg c1]
  by_cases hz : m (-1) = 0
  · rw [hz]
    rfl
  · have c2 : ¬ (m (-1)).toNat < ([⟨0, 1, ['A'], 9⟩] : List s_bracket).length := by
      simp only [List.length_singleton]
      omega
    rw [if_neg c2, if_neg hz]
    rfl

theorem unbalanced_tail (m : Int → Int) (h0 : 0 ≤ m (-1))
    (h1 : m (-1) < (MAX_BRACKET_IN_SENT : Int)) :
    scan_mem ⟨10, 40, 1, [], [], [], []⟩ 34
        ⟨") (N b) (B (N c)".data, [⟨['a'], ['N'], 9⟩], [⟨0, 1, ['A'], 9⟩], fun _ => -1, 0,
          fun i => if i = 0 then 0 else m i, 1, ⟨0, 0⟩⟩
      = .done ⟨3, [⟨['a'], ['N'], 9⟩, ⟨['b'], ['N'], 9⟩, ⟨['c'], ['N'], 9⟩],
          [⟨0, 1, ['A'], 9⟩, ⟨2, if m (-1) = 1 then 1 else -1, ['B'], 9⟩], ⟨0, 0⟩⟩ := by
  have hw := unbalanced_stray_write m h0 h1
  by_cases hz : m (-1) = 0
  · rw [if_pos hz] at hw
    have e : read_step_mem ⟨10, 40, 1, [], [], [], []⟩
        ⟨") (N b) (B (N c)".data, [⟨['a'], ['N'], 9⟩], [⟨0, 1, ['A'], 9⟩], fun _ => -1, 0,
          fun i => if i = 0 then 0 else m i, 1, ⟨0, 0⟩⟩ ')' " (N b) (B (N c)".data
        = .done ⟨" (N b) (B (N c)".data, [⟨['a'], ['N'], 9⟩], [⟨0, 1, ['A'], 9⟩], fun _ => -1,
            -1, fun i => if i = 0 then 0 else m i, 1, ⟨0, 0⟩⟩ := by
      have : close_bracket_mem
          ⟨") (N b) (B (N c)".data, [⟨['a'], ['N'], 9⟩], [⟨0, 1, ['A'], 9⟩], fun _ => -1, 0,
            fun i => if i = 0 then 0 else m i, 1, ⟨0, 0⟩⟩ " (N b) (B (N c)".data ⟨0, 0⟩
          = .done ⟨" (N b) (B (N c)".data, [⟨['a'], ['N'], 9⟩], [⟨0, 1, ['A'], 9⟩],
              fun _ => -1, -1, fun i => if i = 0 then 0 else m i, 1, ⟨0, 0⟩⟩ := by
        unfold close_bracket_mem
        have hi : (popb (0 : Int) (fun i => if i = 0 then 0 else m i)).1 = m (-1) := rfl
        simp only [hi, List.length_singleton, hw]
        rfl
      exact this
    rw [scan_mem_cons _ 33 _ _ ')' " (N b) (B (N c)".data rfl e]
    have h1' : ¬ m (-1) = 1 := by omega
    rw [if_neg h1']
    rfl
  · rw [if_neg hz] at hw
    have e : read_step_mem ⟨10, 40, 1, [], [], [], []⟩
        ⟨") (N b) (B (N c)".data, [⟨['a'], ['N'], 9⟩], [⟨0, 1, ['A'], 9⟩], fun _ => -1, 0,
          fun i => if i = 0 then 0 else m i, 1, ⟨0, 0⟩⟩ ')' " (N b) (B (N c)".data
        = .done ⟨" (N b) (B (N c)".data, [⟨['a'], ['N'], 9⟩], [⟨0, 1, ['A'], 9⟩],
            fun k => if k = (m (-1)).toNat then 1 else -1,
            -1, fun i => if i = 0 then 0 else m i, 1, ⟨0, 0⟩⟩ := by
      have : close_bracket_mem
          ⟨") (N b) (B (N c)".data, [⟨['a'], ['N'], 9⟩], [⟨0, 1, ['A'], 9⟩], fun _ => -1, 0,
            fun i => if i = 0 then 0 else m i, 1, ⟨0, 0⟩⟩ " (N b) (B (N c)".data ⟨0, 0⟩
          = .done ⟨" (N b) (B (N c)".data, [⟨['a'], ['N'], 9⟩], [⟨0, 1, ['A'], 9⟩],
              fun k => if k = (m (-1)).toNat then 1 else -1, -1,
              fun i => if i = 0 then 0 else m i, 1, ⟨0, 0⟩⟩ := by
        unfold close_bracket_mem
        have hi : (popb (0 : Int) (fun i => if i = 0 then 0 else m i)).1 = m (-1) := rfl
        simp only [hi, List.length_singleton, hw]
        rfl
      exact this
    rw [scan_mem_cons _ 33 _ _ ')' " (N b) (B (N c)".data rfl e]
    have e2 : scan_mem ⟨10, 40, 1, [], [], [], []⟩ 33
        ⟨" (N b) (B (N c)".data, [⟨['a'], ['N'], 9⟩], [⟨0, 1, ['A'], 9⟩],
          fun k => if k = (m (-1)).toNat then 1 else -1,
          -1, fun i => if i = 0 then 0 else m i, 1, ⟨0, 0⟩⟩
        = .done ⟨3, [⟨['a'], ['N'], 9⟩, ⟨['b'], ['N'], 9⟩, ⟨['c'], ['N'], 9⟩],
            [⟨0, 1, ['A'], 9⟩, ⟨2, if 1 = (m (-1)).toNat then 1 else -1, ['B'], 9⟩], ⟨0, 0⟩⟩ :=
      rfl
    rw [e2]
    by_cases hone : m (-1) = 1
    · have : (1 : Nat) = (m (-1)).toNat := by rw [hone]; rfl
      rw [if_pos hone, if_pos this]
    · have : ¬ (1 : Nat) = (m (-1)).toNat := by omega
      rw [if_neg hone, if_neg this]

theorem open_bracket_mem_step (s s' : Reader_mem) (label p : Str) (g : Globals)
    (h : open_bracket_mem s label p g = .done s') : s'.p = p ∧ s'.g = g := by
  unfold open_bracket_mem at h
  split at h
  · simp at h
  · injection h with h
    subst h
    exact ⟨rfl, rfl⟩

theorem close_bracket_mem_step (s s' : Reader_mem) (rest : Str) (g : Globals)
    (h : close_bracket_mem s rest g = .done s') : s'.p = rest ∧ s'.g = g := by
  unfold close_bracket_mem at h
  split at h
  · simp at h
  · injection h with h
    subst h
    exact ⟨rfl, rfl⟩

theorem read_step_mem_measure (cfg : Config) (s s' : Reader_mem) (c : Char) (rest : Str)
    (hp : s.p = c :: rest) (h : read_step_mem cfg s c rest = .done s') :
    s'.p.length + (cfg.Max_error + 2 - (s'.g.Error_count : Int)).toNat
      < (c :: rest).length + (cfg.Max_error + 2 - (s.g.Error_count : Int)).toNat := by
  unfold read_step_mem at h
  by_cases c1 : isspace c = true
  · simp only [if_pos c1] at h
    injection h with h
    subst h
    simp
  simp only [if_neg c1] at h
  by_cases c2 : (c == '(') = true
  · simp only [if_pos c2] at h
    cases hr : read_token rest with
    | none => simp [hr] at h
    | some lp =>
      obtain ⟨label, p⟩ := lp
      have ht1 := read_token_length _ _ _ hr
      simp only [hr] at h
      by_cases c3 : MAX_LABEL_LEN ≤ label.length
      · rw [if_pos c3] at h; simp at h
      simp only [if_neg c3] at h
      rcases p with _ | ⟨q0, q1⟩
      · simp at h
      simp only at h
      by_cases c4 : isspace q0 = true
      · simp only [if_pos c4] at h
        cases hr2 : read_token (skip_space q1) with
        | none => simp [hr2] at h
        | some wq =>
          obtain ⟨word, q⟩ := wq
          have ht2 := read_token_skip_length _ _ _ hr2
          simp only [hr2] at h
          by_cases c5 : MAX_WORD_LEN ≤ word.length
          · rw [if_pos c5] at h; simp at h
          simp only [if_neg c5] at h
          rcases q with _ | ⟨d, q'⟩
          · simp at h
          simp only at h
          by_cases c6 : (d == ')' && is_deletelabel cfg label) = true
          · simp only [if_pos c6] at h
            injection h with h
            subst h
            simp only [List.length_cons] at *
            omega
          simp only [if_neg c6] at h
          by_cases c7 : (d == ')') = true
          · simp only [if_pos c7] at h
            by_cases c8 : MAX_WORD_IN_SENT ≤ s.terminal.length
            · rw [if_pos c8] at h; simp at h
            · simp only [if_neg c8] at h
              injection h with h
              subst h
              simp only [List.length_cons] at *
              omega
          simp only [if_neg c7] at h
          by_cases c9 : (d != '(') = true
          · simp only [if_pos c9] at h
            cases he : Error cfg s.g with
            | mk g b =>
              cases b with
              | true => simp [he] at h
              | false =>
                simp only [he] at h
                have hm := error_measure cfg _ _ he
                obtain ⟨e1, e2⟩ := open_bracket_mem_step _ _ _ _ _ h
                rw [e1, e2]
                simp only [List.length_cons] at *
                omega
          · simp only [if_neg c9] at h
            obtain ⟨e1, e2⟩ := open_bracket_mem_step _ _ _ _ _ h
            rw [e1, e2]
            simp only [List.length_cons] at *
            omega
      · simp only [if_neg c4] at h
        obtain ⟨e1, e2⟩ := open_bracket_mem_step _ _ _ _ _ h
        rw [e1, e2]
        simp only [List.length_cons] at *
        omega
  simp only [if_neg c2] at h
  by_cases c10 : (c == ')') = true
  · simp only [if_pos c10] at h
    split at h
    · cases he : Error cfg s.g with
      | mk g b =>
        cases b with
        | true => simp [he] at h
        | false =>
          simp only [he] at h
          have hm := error_measure cfg _ _ he
          obtain ⟨e1, e2⟩ := close_bracket_mem_step _ _ _ _ h
          rw [e1, e2]
          simp only [List.length_cons] at *
          omega
    · obtain ⟨e1, e2⟩ := close_bracket_mem_step _ _ _ _ h
      rw [e1, e2]
      simp only [List.length_cons] at *
      omega
  · simp only [if_neg c10] at h
    cases he : Error cfg s.g with
    | mk g b =>
      cases b with
      | true => simp [he] at h
      | false =>
        simp only [he] at h
        have hm := error_measure cfg _ _ he
        injection h with h
        subst h
        simp only [List.length_cons, hp] at *
        omega

theorem read_step_mem_fuel (cfg : Config) (s : Reader_mem) (c : Char) (rest : Str) :
    read_step_mem cfg s c rest ≠ .outOfFuel := by
  have ho : ∀ (s : Reader_mem) (label p : Str) (g : Globals),
      open_bracket_mem s label p g ≠ .outOfFuel := by
    intro s label p g h
    unfold open_bracket_mem at h
    split at h <;> simp at h
  have hc : ∀ (g : Globals), close_bracket_mem s rest g ≠ .outOfFuel := by
    intro g h
    unfold close_bracket_mem at h
    split at h <;> simp at h
  intro h
  unfold read_step_mem at h
  by_cases c1 : isspace c = true
  · rw [if_pos c1] at h; simp at h
  simp only [if_neg c1] at h
  by_cases c2 : (c == '(') = true
  · simp only [if_pos c2] at h
    cases hr : read_token rest with
    | none => simp [hr] at h
    | some lp =>
      obtain ⟨label, p⟩ := lp
      simp only [hr] at h
      by_cases c3 : MAX_LABEL_LEN ≤ label.length
      · rw [if_pos c3] at h; simp at h
      simp only [if_neg c3] at h
      rcases p with _ | ⟨q0, q1⟩
      · simp at h
      simp only at h
      by_cases c4 : isspace q0 = true
      · simp only [if_pos c4] at h
        cases hr2 : read_token (skip_space q1) with
        | none => simp [hr2] at h
        | some wq =>
          obtain ⟨word, q⟩ := wq
          simp only [hr2] at h
          by_cases c5 : MAX_WORD_LEN ≤ word.length
          · rw [if_pos c5] at h; simp at h
          simp only [if_neg c5] at h
          rcases q with _ | ⟨d, q'⟩
          · simp at h
          simp only at h
          by_cases c6 : (d == ')' && is_deletelabel cfg label) = true
          · rw [if_pos c6] at h; simp at h
          simp only [if_neg c6] at h
          by_cases c7 : (d == ')') = true
          · simp only [if_pos c7] at h
            by_cases c8 : MAX_WORD_IN_SENT ≤ s.terminal.length
            · rw [if_pos c8] at h; simp at h
            · rw [if_neg c8] at h; simp at h
          simp only [if_neg c7] at h
          by_cases c9 : (d != '(') = true
          · simp only [if_pos c9] at h
            cases he : Error cfg s.g with
            | mk g b =>
              cases b with
              | true => simp [he] at h
              | false =>
                simp only [he] at h
                exact ho _ _ _ _ h
          · simp only [if_neg c9] at h
            exact ho _ _ _ _ h
      · simp only [if_neg c4] at h
        exact ho _ _ _ _ h
  simp only [if_neg c2] at h
  by_cases c10 : (c == ')') = true
  · simp only [if_pos c10] at h
    split at h
    · cases he : Error cfg s.g with
      | mk g b =>
        cases b with
        | true => simp [he] at h
        | false =>
          simp only [he] at h
          exact hc _ h
    · exact hc _ h
  · simp only [if_neg c10] at h
    cases he : Error cfg s.g with
    | mk g b =>
      cases b with
      | true => simp [he] at h
      | false => simp [he] at h

theorem scan_mem_total (cfg : Config) : ∀ (fuel : Nat) (s : Reader_mem),
    s.p.length + (cfg.Max_error + 2 - (s.g.Error_count : Int)).toNat < fuel →
    scan_mem cfg fuel s ≠ .outOfFuel
  | 0, s, h => by omega
  | fuel + 1, s, h => by
    unfold scan_mem
    split
    · split
      · simp
      · split <;> simp
    · rename_i c rest hp
      split
      · rename_i s' hs'
        have hm := read_step_mem_measure cfg s s' c rest hp hs'
        rw [hp] at h
        exact scan_mem_total cfg fuel s' (by omega)
      · simp
      · simp
      · rename_i hs'
        exact absurd hs' (read_step_mem_fuel cfg s c rest)

/-- The loop of `read_line` with the stack as memory comes to an end within
`read_fuel` turns as well, whatever the memory holds. -/
theorem read_line_mem_total (m : Int → Int) (cfg : Config) (g : Globals) (buff : Str) :
    read_line_mem m cfg g buff ≠ .outOfFuel := by
  unfold read_line_mem
  apply scan_mem_total
  simp only [read_fuel]
  omega

/-- The line `) (S (NN a)` with the stack as memory and 0 below the stack: the
surplus `)` passes without a call of `Error`, `pushb` at `(S` brings
`stack_top` back to 0, and `read_line` returns with `Status` and
`Error_count` as they were; the stray write at the `)` met the slot of `S`,
whose `end` stays 0. -/
theorem surplus_close_unreported :
    read_line_mem (fun _ => 0) ⟨10, 40, 1, [], [], [], []⟩ ⟨0, 0⟩ ") (S (NN a)".data
      = .done ⟨1, [⟨['a'], ['N', 'N'], 9⟩], [⟨0, 0, ['S'], 9⟩], ⟨0, 0⟩⟩ ∧
    read_line_mem (fun _ => 0) ⟨10, 40, 1, [], [], [], []⟩ ⟨0, 0⟩ ")".data
      = .done ⟨0, [], [], ⟨1, 1⟩⟩ := by
  refine ⟨by decide, by decide⟩

/-- The same with the stack as memory: a line that `read_line` reads to the
end within the arrays and without a call of `Error` is read alike whatever
the memory below the stack holds, and the brackets it emits are within
`0 .. wn` and properly nested. -/
theorem read_line_mem_nested (m : Int → Int) (cfg : Config) (g : Globals) (buff : Str)
    (p : Parsed) (h : read_line cfg g buff = .done p) (hg : p.g = g) :
    read_line_mem m cfg g buff = .done p ∧
    (∀ b ∈ p.bracket, 0 ≤ b.start ∧ b.start ≤ b.end_ ∧ b.end_ ≤ (p.terminal.length : Int)) ∧
    (∀ a ∈ p.bracket, ∀ b ∈ p.bracket, Nested a b) ∧
    (∀ a ∈ p.bracket, ∀ b ∈ p.bracket, ¬ Crosses a b) :=
  ⟨(read_line_agrees m cfg g buff).1 p h, scan_inv cfg g _ _ p h BInv_nil (le_refl _) hg⟩

/-- C22 at the failing input. The line `(A (N a)) ) (B (N b)` has one `)` too
many and then one `(` too many. At the surplus `)` the stack is empty: `popb`
reads `stack[-1]` and does not call `Error`; `pushb` at `(B` brings
`stack_top` back to 0, so that `stackempty()` holds at the end of the line.
With 0 in the memory below the stack `read_line` returns with `Status` and
`Error_count` as they were and with the brackets `(0,1,A)` and `(1,-1,B)`:
`end < start`. The model that stops at an access outside `stack[]` ends there,
without a call of `Error` either. On the line `(A (N a)) ) (N b) (B (N c)`
the same holds whatever the memory below the stack holds, as long as the
stray write `bracket[stack[-1]].end = wid` stays within the array: `B` comes
back with start 2 and end -1, or with end 1 when the stray write met its
slot. -/
theorem unbalanced_line_accepted :
    read_line_mem (fun _ => 0) ⟨10, 40, 1, [], [], [], []⟩ ⟨0, 0⟩ "(A (N a)) ) (B (N b)".data
      = .done ⟨2, [⟨['a'], ['N'], 9⟩, ⟨['b'], ['N'], 9⟩],
          [⟨0, 1, ['A'], 9⟩, ⟨1, -1, ['B'], 9⟩], ⟨0, 0⟩⟩ ∧
    read_line ⟨10, 40, 1, [], [], [], []⟩ ⟨0, 0⟩ "(A (N a)) ) (B (N b)".data
      = .undefined ⟨0, 0⟩ ∧
    (∀ m : Int → Int, 0 ≤ m (-1) → m (-1) < (MAX_BRACKET_IN_SENT : Int) →
      ∃ p, read_line_mem m ⟨10, 40, 1, [], [], [], []⟩ ⟨0, 0⟩
          "(A (N a)) ) (N b) (B (N c)".data = .done p ∧
        p.g = ⟨0, 0⟩ ∧ p.terminal.length = 3 ∧
        p.bracket = [⟨0, 1, ['A'], 9⟩, ⟨2, if m (-1) = 1 then 1 else -1, ['B'], 9⟩] ∧
        ∃ b ∈ p.bracket, b.end_ < b.start) := by
  refine ⟨by decide, by decide, ?_⟩
  intro m h0 h1
  refine ⟨_, (unbalanced_head m).trans (unbalanced_tail m h0 h1), rfl, rfl, rfl,
    ⟨2, if m (-1) = 1 then 1 else -1, ['B'], 9⟩, by simp, ?_⟩
  show (if m (-1) = 1 then (1 : Int) else -1) < 2
  split <;> decide

end Evalb
